import Mathlib

/-!
# kilic/bls12cross: EIP-2537 codec and BLS value-object screening

A shallow embedding of the Go packages `cross_eip2537` (`src/eip2537`) and
`cross_bls` (`src/bls`).

* Byte slices are lists of bytes; a slice expression `s[lo:hi]` and the builtin
  `copy` are modelled with their run-time bounds checks, a failed check being the
  outcome `Res.panic` (the capacity of a slice is taken equal to its length).
* A Go function returning `(T, error)` is a function into `Res ε T`, with
  `Res.err` for a returned error value and `Res.panic` for a run-time panic.
* The external curve libraries are parameters: a structure of the operations the
  packages call, with no assumption on what they compute.
-/

namespace Go

/-- A Go `byte`. -/
abbrev Byte := Fin 256

/-- A Go `[]byte`, with capacity equal to length. -/
abbrev Bytes := List Byte

/-- Outcome of a Go call of result type `(α, error)`: a value with a nil error,
a non-nil error value, or a run-time panic. -/
inductive Res (ε α : Type) where
  | ok (a : α)
  | err (e : ε)
  | panic
  deriving DecidableEq, Repr

/-- Sequencing of Go statements: the first error return or panic ends the call. -/
@[simp] def Res.bind {ε α β : Type} (x : Res ε α) (f : α → Res ε β) : Res ε β :=
  match x with
  | .ok a => f a
  | .err e => .err e
  | .panic => .panic

instance {ε : Type} : Monad (Res ε) where
  pure := Res.ok
  bind := Res.bind

/-- Go `make([]byte, n)`: `n` zero bytes. -/
def make (n : Nat) : Bytes := List.replicate n 0

/-- The bytes `s[lo], ..., s[hi-1]` of a slice. -/
def window (s : Bytes) (lo hi : Nat) : Bytes := (s.take hi).drop lo

/-- Go `s[lo:hi]`: panics unless `lo ≤ hi ≤ len(s)`. -/
def slice {ε : Type} (s : Bytes) (lo hi : Nat) : Res ε Bytes :=
  if lo ≤ hi ∧ hi ≤ s.length then .ok (window s lo hi) else .panic

/-- Go `s[lo:]`, that is `s[lo:len(s)]`. -/
def sliceFrom {ε : Type} (s : Bytes) (lo : Nat) : Res ε Bytes :=
  slice s lo s.length

/-- Go `s[:hi]`, that is `s[0:hi]`. -/
def sliceTo {ε : Type} (s : Bytes) (hi : Nat) : Res ε Bytes :=
  slice s 0 hi

/-- Go `s[i]`: panics unless `i < len(s)`. -/
def index {ε : Type} (s : Bytes) (i : Nat) : Res ε Byte :=
  match s.get? i with
  | some b => .ok b
  | none => .panic

/-- Go `copy(dst[lo:hi], src)`: panics unless `lo ≤ hi ≤ len(dst)`, else writes the
first `min (hi - lo) (len src)` bytes of `src` into `dst` from offset `lo` on and leaves
the other bytes of `dst` as they are. The result is the updated `dst`. -/
def copyInto {ε : Type} (dst : Bytes) (lo hi : Nat) (src : Bytes) : Res ε Bytes :=
  if lo ≤ hi ∧ hi ≤ dst.length then
    let n := min (hi - lo) src.length
    .ok (dst.take lo ++ src.take n ++ dst.drop (lo + n))
  else .panic

/-- Go `copy(dst[lo:], src)`. -/
def copyFrom {ε : Type} (dst : Bytes) (lo : Nat) (src : Bytes) : Res ε Bytes :=
  copyInto dst lo dst.length src

/-- Go `s[i] = b`: panics unless `i < len(s)`. The result is the updated `s`. -/
def setIndex {ε : Type} (s : Bytes) (i : Nat) (b : Byte) : Res ε Bytes :=
  if i < s.length then .ok (s.set i b) else .panic

end Go

namespace cross_eip2537

open Go

/-- Error values of package `cross_eip2537`: the three package-level variables of
`lib.go`, the `errors.New` values created in `eip2537.go`, and the errors handed back
by the curve library (which are none of the former). -/
inductive Err where
  /-- The value of `errEIP2537InvalidInputLength`. -/
  | errEIP2537InvalidInputLength
  /-- The value of `errEIP2537G1PointSubgroup`. -/
  | errEIP2537G1PointSubgroup
  /-- The value of `errEIP2537G2PointSubgroup`. -/
  | errEIP2537G2PointSubgroup
  /-- The error "invalid field element length". -/
  | invalidFieldElementLength
  /-- The error "invalid field element top bytes". -/
  | invalidFieldElementTopBytes
  /-- The error "invalid g1 point length". -/
  | invalidG1PointLength
  /-- The error "invalid g2 point length". -/
  | invalidG2PointLength
  /-- An error returned by the curve library. -/
  | engine (msg : String)
  deriving DecidableEq, Repr

/-- The loop `for i := 0; i < 16; i++ { if in[i] != 0x00 { return error } }` of
`decodeFieldElement`, with `n` iterations left and loop variable `i`. -/
def topBytesLoop (inp : Bytes) : Nat → Nat → Res Err Unit
  | 0, _ => .ok ()
  | n + 1, i =>
    match (index inp i : Res Err Byte) with
    | .ok b => if b ≠ 0 then .err .invalidFieldElementTopBytes else topBytesLoop inp n (i + 1)
    | .err e => .err e
    | .panic => .panic

/-- Go `decodeFieldElement`. -/
def decodeFieldElement (inp : Bytes) : Res Err Bytes :=
  if inp.length ≠ 64 then .err .invalidFieldElementLength
  else do
    topBytesLoop inp 16 0
    let out := make 48
    let src ← sliceFrom inp 16
    copyFrom out 0 src

/-- Go `decodeG1Point`. -/
def decodeG1Point (inp : Bytes) : Res Err Bytes :=
  if inp.length ≠ 128 then .err .invalidG1PointLength
  else do
    let pointBytes := make 96
    let xBytes ← decodeFieldElement (← sliceTo inp 64)
    let yBytes ← decodeFieldElement (← sliceFrom inp 64)
    let pointBytes ← copyInto pointBytes 0 48 xBytes
    copyFrom pointBytes 48 yBytes

/-- Go `encodeG1Point`. -/
def encodeG1Point (outRaw : Bytes) : Res Err Bytes := do
  let out := make 128
  let out ← copyFrom out 16 (← sliceTo outRaw 48)
  copyFrom out (64 + 16) (← sliceFrom outRaw 48)

/-- Go `encodeG2Point`. -/
def encodeG2Point (outRaw : Bytes) : Res Err Bytes := do
  let out := make 256
  let out ← copyInto out 16 (16 + 48) (← slice outRaw 48 96)
  let out ← copyInto out 80 (80 + 48) (← sliceTo outRaw 48)
  let out ← copyInto out 144 (144 + 48) (← sliceFrom outRaw 144)
  copyInto out 208 (208 + 48) (← slice outRaw 96 144)

/-- Go `decodeG2Point`. -/
def decodeG2Point (inp : Bytes) : Res Err Bytes :=
  if inp.length ≠ 256 then .err .invalidG2PointLength
  else do
    let pointBytes := make 192
    let x0Bytes ← decodeFieldElement (← sliceTo inp 64)
    let x1Bytes ← decodeFieldElement (← slice inp 64 128)
    let y0Bytes ← decodeFieldElement (← slice inp 128 192)
    let y1Bytes ← decodeFieldElement (← sliceFrom inp 192)
    let pointBytes ← copyInto pointBytes 0 48 x1Bytes
    let pointBytes ← copyInto pointBytes 48 96 x0Bytes
    let pointBytes ← copyInto pointBytes 96 144 y1Bytes
    copyInto pointBytes 144 192 y0Bytes

/-- The operations of the external library `github.com/kilic/bls12-381` that
`eip2537_kilic.go` calls. A Go method that writes its result through its first argument
(`g.Add(r, p0, p1)`) is the function giving the value left there. -/
structure Kilic where
  /-- The type `kilic.PointG1`. -/
  PointG1 : Type
  /-- The type `kilic.PointG2`. -/
  PointG2 : Type
  /-- The type `kilic.Fr`. -/
  Fr : Type
  /-- The state of a `*kilic.Engine`: what `AddPair` has accumulated. -/
  Engine : Type
  /-- The method `(*G1).FromBytes`. -/
  g1FromBytes : Bytes → Except String PointG1
  /-- The method `(*G1).ToBytes`. -/
  g1ToBytes : PointG1 → Bytes
  /-- The method `(*G1).Add`. -/
  g1Add : PointG1 → PointG1 → PointG1
  /-- The method `(*G1).MulScalar`. -/
  g1MulScalar : PointG1 → Fr → PointG1
  /-- The method `(*G1).MultiExp`, whose returned values the callers discard. -/
  g1MultiExp : List PointG1 → List Fr → PointG1
  /-- The method `(*G1).MapToCurve`. -/
  g1MapToCurve : Bytes → Except String PointG1
  /-- The method `(*G1).InCorrectSubgroup`. -/
  g1InCorrectSubgroup : PointG1 → Bool
  /-- The method `(*G2).FromBytes`. -/
  g2FromBytes : Bytes → Except String PointG2
  /-- The method `(*G2).ToBytes`. -/
  g2ToBytes : PointG2 → Bytes
  /-- The method `(*G2).Add`. -/
  g2Add : PointG2 → PointG2 → PointG2
  /-- The method `(*G2).MulScalar`. -/
  g2MulScalar : PointG2 → Fr → PointG2
  /-- The method `(*G2).MultiExp`, whose returned values the callers discard. -/
  g2MultiExp : List PointG2 → List Fr → PointG2
  /-- The method `(*G2).MapToCurve`. -/
  g2MapToCurve : Bytes → Except String PointG2
  /-- The method `(*G2).InCorrectSubgroup`. -/
  g2InCorrectSubgroup : PointG2 → Bool
  /-- The method `(*Fr).FromBytes` on a fresh scalar. -/
  frFromBytes : Bytes → Fr
  /-- The state of the engine `kilic.NewEngine()` returns. -/
  newEngine : Engine
  /-- The method `(*Engine).AddPair`: the engine state after the call. -/
  addPair : Engine → PointG1 → PointG2 → Engine
  /-- The method `(*Engine).Check`. -/
  check : Engine → Bool

/-- A `(T, error)` result of the curve library as an outcome of this package. -/
def ofEngine {α : Type} : Except String α → Res Err α
  | .ok a => .ok a
  | .error msg => .err (.engine msg)

/-- Go `KilicG1Add`. -/
def KilicG1Add (K : Kilic) (input : Bytes) : Res Err Bytes :=
  if input.length ≠ 256 then .err .errEIP2537InvalidInputLength
  else do
    let p0Bytes ← decodeG1Point (← sliceTo input 128)
    let p0 ← ofEngine (K.g1FromBytes p0Bytes)
    let p1Bytes ← decodeG1Point (← sliceFrom input 128)
    let p1 ← ofEngine (K.g1FromBytes p1Bytes)
    let r := K.g1Add p0 p1
    encodeG1Point (K.g1ToBytes r)

/-- Go `KilicG1Mul`. -/
def KilicG1Mul (K : Kilic) (input : Bytes) : Res Err Bytes :=
  if input.length ≠ 160 then .err .errEIP2537InvalidInputLength
  else do
    let pointBytes ← decodeG1Point (← sliceTo input 128)
    let p0 ← ofEngine (K.g1FromBytes pointBytes)
    let e := K.frFromBytes (← sliceFrom input 128)
    let r := K.g1MulScalar p0 e
    encodeG1Point (K.g1ToBytes r)

/-- The decoding loop of `KilicG1MultiExp`, with `n` iterations left, loop variable `i`
and the entries of `points` and `scalars` assigned so far. -/
def g1MultiExpLoop (K : Kilic) (input : Bytes) :
    Nat → Nat → List K.PointG1 → List K.Fr → Res Err (List K.PointG1 × List K.Fr)
  | 0, _, points, scalars => .ok (points, scalars)
  | n + 1, i, points, scalars => do
    let off := 160 * i
    let t0 := off
    let t1 := off + 128
    let t2 := off + 160
    let pointBytes ← decodeG1Point (← slice input t0 t1)
    let point ← ofEngine (K.g1FromBytes pointBytes)
    let scalar := K.frFromBytes (← slice input t1 t2)
    g1MultiExpLoop K input n (i + 1) (points ++ [point]) (scalars ++ [scalar])

/-- Go `KilicG1MultiExp`. -/
def KilicG1MultiExp (K : Kilic) (input : Bytes) : Res Err Bytes :=
  let k := input.length / 160
  if input.length = 0 ∨ input.length % 160 ≠ 0 then .err .errEIP2537InvalidInputLength
  else do
    let (points, scalars) ← g1MultiExpLoop K input k 0 [] []
    let r := K.g1MultiExp points scalars
    encodeG1Point (K.g1ToBytes r)

/-- Go `KilicG2Add`. -/
def KilicG2Add (K : Kilic) (input : Bytes) : Res Err Bytes :=
  if input.length ≠ 512 then .err .errEIP2537InvalidInputLength
  else do
    let p0Bytes ← decodeG2Point (← sliceTo input 256)
    let p0 ← ofEngine (K.g2FromBytes p0Bytes)
    let p1Bytes ← decodeG2Point (← sliceFrom input 256)
    let p1 ← ofEngine (K.g2FromBytes p1Bytes)
    let r := K.g2Add p0 p1
    encodeG2Point (K.g2ToBytes r)

/-- Go `KilicG2Mul`. -/
def KilicG2Mul (K : Kilic) (input : Bytes) : Res Err Bytes :=
  if input.length ≠ 288 then .err .errEIP2537InvalidInputLength
  else do
    let pointBytes ← decodeG2Point (← sliceTo input 256)
    let p0 ← ofEngine (K.g2FromBytes pointBytes)
    let e := K.frFromBytes (← sliceFrom input 256)
    let r := K.g2MulScalar p0 e
    encodeG2Point (K.g2ToBytes r)

/-- The decoding loop of `KilicG2MultiExp`, with `n` iterations left, loop variable `i`
and the entries of `points` and `scalars` assigned so far. -/
def g2MultiExpLoop (K : Kilic) (input : Bytes) :
    Nat → Nat → List K.PointG2 → List K.Fr → Res Err (List K.PointG2 × List K.Fr)
  | 0, _, points, scalars => .ok (points, scalars)
  | n + 1, i, points, scalars => do
    let off := 288 * i
    let t0 := off
    let t1 := off + 256
    let t2 := off + 288
    let pointBytes ← decodeG2Point (← slice input t0 t1)
    let point ← ofEngine (K.g2FromBytes pointBytes)
    let scalar := K.frFromBytes (← slice input t1 t2)
    g2MultiExpLoop K input n (i + 1) (points ++ [point]) (scalars ++ [scalar])

/-- Go `KilicG2MultiExp`. -/
def KilicG2MultiExp (K : Kilic) (input : Bytes) : Res Err Bytes :=
  let k := input.length / 288
  if input.length = 0 ∨ input.length % 288 ≠ 0 then .err .errEIP2537InvalidInputLength
  else do
    let (points, scalars) ← g2MultiExpLoop K input k 0 [] []
    let r := K.g2MultiExp points scalars
    encodeG2Point (K.g2ToBytes r)

/-- The decoding part of one iteration of the loop of `KilicPairing` (pair number `i`):
the G1 point, then the G2 point. -/
def decodePair (K : Kilic) (input : Bytes) (i : Nat) : Res Err (K.PointG1 × K.PointG2) := do
  let off := 384 * i
  let t0 := off
  let t1 := off + 128
  let t2 := off + 384
  let p1Bytes ← decodeG1Point (← slice input t0 t1)
  let p1 ← ofEngine (K.g1FromBytes p1Bytes)
  let p2Bytes ← decodeG2Point (← slice input t1 t2)
  let p2 ← ofEngine (K.g2FromBytes p2Bytes)
  pure (p1, p2)

/-- The two subgroup checks of one iteration of the loop of `KilicPairing`. -/
def subgroupChecks (K : Kilic) (p1 : K.PointG1) (p2 : K.PointG2) : Res Err Unit :=
  if !K.g1InCorrectSubgroup p1 then .err .errEIP2537G1PointSubgroup
  else if !K.g2InCorrectSubgroup p2 then .err .errEIP2537G2PointSubgroup
  else .ok ()

/-- The loop of `KilicPairing`, with `n` iterations left, loop variable `i` and engine
state `e`: each iteration decodes a pair, applies the subgroup checks and then calls
`e.AddPair`. The result is the outcome of the loop together with the state of the engine
at that moment. -/
def pairingLoop (K : Kilic) (input : Bytes) : Nat → Nat → K.Engine → Res Err Unit × K.Engine
  | 0, _, e => (.ok (), e)
  | n + 1, i, e =>
    match decodePair K input i with
    | .ok (p1, p2) =>
      match subgroupChecks K p1 p2 with
      | .ok () => pairingLoop K input n (i + 1) (K.addPair e p1 p2)
      | .err err => (.err err, e)
      | .panic => (.panic, e)
    | .err err => (.err err, e)
    | .panic => (.panic, e)

/-- The part of `KilicPairing` after the length check, for `k` pairs: its outcome and the
state of the pairing engine `e` when it returns. -/
def pairingRun (K : Kilic) (input : Bytes) (k : Nat) : Res Err Bytes × K.Engine :=
  let e := K.newEngine
  match pairingLoop K input k 0 e with
  | (.ok (), e) =>
    let out := make 32
    if K.check e then (setIndex out 31 1, e) else (.ok out, e)
  | (.err err, e) => (.err err, e)
  | (.panic, e) => (.panic, e)

/-- Go `KilicPairing`. -/
def KilicPairing (K : Kilic) (input : Bytes) : Res Err Bytes :=
  let k := input.length / 384
  if input.length = 0 ∨ input.length % 384 ≠ 0 then .err .errEIP2537InvalidInputLength
  else (pairingRun K input k).1

/-- Go `KilicMapG1`. -/
def KilicMapG1 (K : Kilic) (input : Bytes) : Res Err Bytes :=
  if input.length ≠ 64 then .err .errEIP2537InvalidInputLength
  else do
    let fe ← decodeFieldElement input
    let r ← ofEngine (K.g1MapToCurve fe)
    encodeG1Point (K.g1ToBytes r)

/-- Go `KilicMapG2`. -/
def KilicMapG2 (K : Kilic) (input : Bytes) : Res Err Bytes :=
  if input.length ≠ 128 then .err .errEIP2537InvalidInputLength
  else do
    let fe := make 96
    let c0 ← decodeFieldElement (← sliceTo input 64)
    let fe ← copyFrom fe 48 c0
    let c1 ← decodeFieldElement (← sliceFrom input 64)
    let fe ← copyInto fe 0 48 c1
    let r ← ofEngine (K.g2MapToCurve fe)
    encodeG2Point (K.g2ToBytes r)

/-- The outcome is not the input-length error `errEIP2537InvalidInputLength`. -/
def NotLengthErr {α : Type} (r : Res Err α) : Prop :=
  r ≠ .err .errEIP2537InvalidInputLength

/-- Both operands of a pair pass the subgroup checks of `KilicPairing`. -/
def inSubgroups (K : Kilic) (p : K.PointG1 × K.PointG2) : Bool :=
  K.g1InCorrectSubgroup p.1 && K.g2InCorrectSubgroup p.2

/-- The engine state after `AddPair` has been called on `e` for each pair of `ps` in turn. -/
def addPairs (K : Kilic) (e : K.Engine) (ps : List (K.PointG1 × K.PointG2)) : K.Engine :=
  ps.foldl (fun e p => K.addPair e p.1 p.2) e

/-- A toy curve library for concrete evaluation: both groups are the integers modulo 256,
the pairing of `a` and `b` is `a * b`, the correct subgroup is the even residues, and a
point is serialised as zero bytes followed by the residue. -/
@[reducible] def toyKilic : Kilic where
  PointG1 := Byte
  PointG2 := Byte
  Fr := Nat
  Engine := List (Byte × Byte)
  g1FromBytes := fun b =>
    if b.length = 96 then .ok (b.getLastD 0) else .error "input string should be equal 96 bytes"
  g1ToBytes := fun x => make 95 ++ [x]
  g1Add := fun x y => x + y
  g1MulScalar := fun x e => Fin.ofNat e * x
  g1MultiExp := fun ps es => ((ps.zip es).map (fun pe => Fin.ofNat pe.2 * pe.1)).sum
  g1MapToCurve := fun b => .ok (b.getLastD 0)
  g1InCorrectSubgroup := fun x => x.val % 2 == 0
  g2FromBytes := fun b =>
    if b.length = 192 then .ok (b.getLastD 0) else .error "input string should be equal 192 bytes"
  g2ToBytes := fun x => make 191 ++ [x]
  g2Add := fun x y => x + y
  g2MulScalar := fun x e => Fin.ofNat e * x
  g2MultiExp := fun ps es => ((ps.zip es).map (fun pe => Fin.ofNat pe.2 * pe.1)).sum
  g2MapToCurve := fun b => .ok (b.getLastD 0)
  g2InCorrectSubgroup := fun x => x.val % 2 == 0
  frFromBytes := fun b => b.foldl (fun acc x => 256 * acc + x.val) 0
  newEngine := []
  addPair := fun e p q => e ++ [(p, q)]
  check := fun e => (e.map (fun pq => pq.1 * pq.2)).sum == 0

end cross_eip2537

namespace cross_bls

open Go

/-- Error values of package `cross_bls`: the package-level variables of `lib.go`, the
`errors.New` values created inline in `bls_blst.go`, and the errors handed back by an
external library (which are none of the former). -/
inductive Err where
  /-- The value of `errZeroSecretKey`. -/
  | errZeroSecretKey
  /-- The value of `errZeroPublicKey`. -/
  | errZeroPublicKey
  /-- The value of `errInfinitePublicKey`. -/
  | errInfinitePublicKey
  /-- The value of `errInvalidPublicKey`. -/
  | errInvalidPublicKey
  /-- The value of `errZeroSignature`. -/
  | errZeroSignature
  /-- The value of `errInfiniteSignature`. -/
  | errInfiniteSignature
  /-- The value of `errInvalidSignature`. -/
  | errInvalidSignature
  /-- The value of `errSecretKeySize`. -/
  | errSecretKeySize
  /-- The value of `errInvalidSecretKey`. -/
  | errInvalidSecretKey
  /-- The value of `errPublicKeySize`. -/
  | errPublicKeySize
  /-- The value of `errSignatureSize`. -/
  | errSignatureSize
  /-- The error "invalid public key size" created in `BLSTPublicKey.FromBytes`. -/
  | blstInvalidPublicKeySize
  /-- The error "cannot uncompress given public key in bytes". -/
  | blstCannotUncompress
  /-- The error "invalid BLS public key". -/
  | blstInvalidBLSPublicKey
  /-- An error returned by an external library. -/
  | foreign (msg : String)
  deriving DecidableEq, Repr

/-- Go constant `SignatureSize`. -/
def SignatureSize : Nat := 96

/-- Go constant `PublicKeySize`. -/
def PublicKeySize : Nat := 48

/-- Go constant `SecretKeySize`. -/
def SecretKeySize : Nat := 32

/-- Go constant `libHerumi`. -/
def libHerumi : String := "herumi"

/-- Go constant `libBLST`. -/
def libBLST : String := "blst"

/-- Go constant `libKilic`. -/
def libKilic : String := "kilic"

/-- The operations of `github.com/herumi/bls-eth-go-binary/bls` that `bls_herumi.go` and
`initHerumi` call. -/
structure HerumiLib where
  /-- The type `herumi.SecretKey`. -/
  SecretKey : Type
  /-- The type `herumi.PublicKey`. -/
  PublicKey : Type
  /-- The type `herumi.Sign`. -/
  Sign : Type
  /-- The error of `herumi.Init(herumi.BLS12_381)`, if any. -/
  initError : Option String
  /-- The error of `herumi.SetETHmode(herumi.EthModeDraft07)`, if any. -/
  setETHmodeError : Option String
  /-- The method `(*SecretKey).Deserialize` on a fresh key. -/
  secretKeyDeserialize : Bytes → Except String SecretKey
  /-- The method `(*PublicKey).Deserialize` on a fresh key. -/
  publicKeyDeserialize : Bytes → Except String PublicKey
  /-- The method `(*PublicKey).IsValidOrder`. -/
  publicKeyIsValidOrder : PublicKey → Bool
  /-- The method `(*PublicKey).IsZero`. -/
  publicKeyIsZero : PublicKey → Bool
  /-- The method `(*Sign).Deserialize` on a fresh signature. -/
  signDeserialize : Bytes → Except String Sign
  /-- The method `(*Sign).IsValidOrder`. -/
  signIsValidOrder : Sign → Bool
  /-- The method `(*Sign).IsZero`. -/
  signIsZero : Sign → Bool
  /-- The method `(*SecretKey).IsEqual`. -/
  secretKeyIsEqual : SecretKey → SecretKey → Bool
  /-- The method `(*SecretKey).GetPublicKey`. -/
  secretKeyGetPublicKey : SecretKey → PublicKey
  /-- The method `(*SecretKey).Sign`, on the message as a string. -/
  secretKeySign : SecretKey → Bytes → Sign
  /-- The method `(*SecretKey).Serialize`. -/
  secretKeySerialize : SecretKey → Bytes
  /-- The method `(*PublicKey).Serialize`. -/
  publicKeySerialize : PublicKey → Bytes
  /-- The method `(*PublicKey).IsEqual`. -/
  publicKeyIsEqual : PublicKey → PublicKey → Bool
  /-- The zero value `new(herumi.PublicKey)`. -/
  publicKeyNew : PublicKey
  /-- The method `(*PublicKey).Add`: the value of the receiver after the call. -/
  publicKeyAdd : PublicKey → PublicKey → PublicKey
  /-- The method `(*Sign).Serialize`. -/
  signSerialize : Sign → Bytes
  /-- The method `(*Sign).IsEqual`. -/
  signIsEqual : Sign → Sign → Bool
  /-- The method `(*Sign).Verify`, on the message as a string. -/
  signVerify : Sign → PublicKey → Bytes → Bool
  /-- The method `(*Sign).FastAggregateVerify`. -/
  signFastAggregateVerify : Sign → List PublicKey → Bytes → Bool
  /-- The method `(*Sign).AggregateVerify`. -/
  signAggregateVerify : Sign → List PublicKey → Bytes → Bool
  /-- The method `(*Sign).Aggregate` on a fresh signature: its value after the call. -/
  signAggregate : List Sign → Sign

/-- The operations of `github.com/supranational/blst/bindings/go` that `bls_blst.go`
calls; a nil pointer result is `none`. -/
structure BlstLib where
  /-- The type `blst.SecretKey`. -/
  SecretKey : Type
  /-- The type `blst.P1Affine`. -/
  P1Affine : Type
  /-- The type `blst.P2Affine`. -/
  P2Affine : Type
  /-- The method `(*SecretKey).Deserialize` on a fresh key. -/
  secretKeyDeserialize : Bytes → Option SecretKey
  /-- The method `(*P1Affine).Uncompress` on a fresh point. -/
  p1Uncompress : Bytes → Option P1Affine
  /-- The method `(*P1Affine).KeyValidate`. -/
  p1KeyValidate : P1Affine → Bool
  /-- The method `(*P2Affine).Uncompress` on a fresh point. -/
  p2Uncompress : Bytes → Option P2Affine
  /-- The method `KeyValidate` the code calls on a `*blst.P2Affine`. -/
  p2KeyValidate : P2Affine → Bool
  /-- The method `(*SecretKey).Equals`. -/
  secretKeyEquals : SecretKey → SecretKey → Bool
  /-- The method `(*SecretKey).Serialize`. -/
  secretKeySerialize : SecretKey → Bytes
  /-- The method `(*P1Affine).From` on a fresh point. -/
  p1From : SecretKey → P1Affine
  /-- The method `(*P1Affine).Compress`. -/
  p1Compress : P1Affine → Bytes
  /-- The method `(*P1Affine).Equals`. -/
  p1Equals : P1Affine → P1Affine → Bool
  /-- The method `(*P2Affine).Sign` on a fresh point, with key, message and tag. -/
  p2Sign : SecretKey → Bytes → Bytes → P2Affine
  /-- The method `(*P2Affine).Compress`. -/
  p2Compress : P2Affine → Bytes
  /-- The method `(*P2Affine).Equals`. -/
  p2Equals : P2Affine → P2Affine → Bool
  /-- The method `(*P2Affine).Verify`: signature, group-check flag, key, key-validation
  flag, message, tag. -/
  p2Verify : P2Affine → Bool → P1Affine → Bool → Bytes → Bytes → Bool
  /-- The method `(*P2Affine).FastAggregateVerify`: signature, group-check flag, keys,
  message, tag. -/
  p2FastAggregateVerify : P2Affine → Bool → List P1Affine → Bytes → Bytes → Bool
  /-- The method `(*P2Affine).AggregateVerify`: signature, group-check flag, keys,
  key-validation flag, messages, tag. -/
  p2AggregateVerify : P2Affine → Bool → List P1Affine → Bool → List Bytes → Bytes → Bool
  /-- The affine point of a fresh `blst.P1Aggregate` after `Aggregate(points, false)`. -/
  p1AggregateToAffine : List P1Affine → P1Affine
  /-- The affine point of a fresh `blst.P2Aggregate` after `Aggregate(points, false)`. -/
  p2AggregateToAffine : List P2Affine → P2Affine

/-- The operations of `github.com/kilic/bls12-381` that `bls_kilic.go` and `initKilic`
call. The point values are those the package can hold: points of the two prime-order
subgroups, in any internal representation. -/
structure KilicLib where
  /-- The type `kilic.Fr`. -/
  Fr : Type
  /-- The type `kilic.PointG1`. -/
  PointG1 : Type
  /-- The type `kilic.PointG2`. -/
  PointG2 : Type
  /-- The method `(*Fr).FromBytes` on a fresh scalar. -/
  frFromBytes : Bytes → Fr
  /-- The method `(*Fr).Cmp`, on two non-nil scalars. -/
  frCmp : Fr → Fr → Int
  /-- The bytes `kilic.NewG1().Q().Bytes()`. -/
  g1QBytes : Bytes
  /-- The method `(*G1).FromCompressed`. -/
  g1FromCompressed : Bytes → Except String PointG1
  /-- The method `(*G2).FromCompressed`. -/
  g2FromCompressed : Bytes → Except String PointG2
  /-- The method `(*Fr).ToBytes`. -/
  frToBytes : Fr → Bytes
  /-- The method `(*Fr).Equal`. -/
  frEqual : Fr → Fr → Bool
  /-- The method `(*G1).One`. -/
  g1One : PointG1
  /-- The method `(*G1).Zero`. -/
  g1Zero : PointG1
  /-- The method `(*G1).Add`: the value left in its first argument. -/
  g1Add : PointG1 → PointG1 → PointG1
  /-- The method `(*G1).MulScalar`: the value left in its first argument. -/
  g1MulScalar : PointG1 → Fr → PointG1
  /-- The method `(*G1).Equal`. -/
  g1Equal : PointG1 → PointG1 → Bool
  /-- The method `(*G1).ToCompressed`. -/
  g1ToCompressed : PointG1 → Bytes
  /-- The method `(*G2).Zero`. -/
  g2Zero : PointG2
  /-- The method `(*G2).Add`: the value left in its first argument. -/
  g2Add : PointG2 → PointG2 → PointG2
  /-- The method `(*G2).MulScalar`: the value left in its first argument. -/
  g2MulScalar : PointG2 → Fr → PointG2
  /-- The method `(*G2).Equal`. -/
  g2Equal : PointG2 → PointG2 → Bool
  /-- The method `(*G2).ToCompressed`. -/
  g2ToCompressed : PointG2 → Bytes
  /-- The method `(*G2).HashToCurve`, on a message and a domain separation tag. -/
  g2HashToCurve : Bytes → Bytes → Except String PointG2
  /-- The state of a `*kilic.Engine`: what `AddPair` and `AddPairInv` have accumulated. -/
  Engine : Type
  /-- The state of the engine `kilic.NewEngine()` returns. -/
  newEngine : Engine
  /-- The method `(*Engine).AddPair`: the engine state after the call. -/
  addPair : Engine → PointG1 → PointG2 → Engine
  /-- The method `(*Engine).AddPairInv`: the engine state after the call. -/
  addPairInv : Engine → PointG1 → PointG2 → Engine
  /-- The method `(*Engine).Check`. -/
  check : Engine → Bool

/-- The three external curve libraries behind the package. -/
structure Libs where
  /-- The herumi library. -/
  herumi : HerumiLib
  /-- The blst library. -/
  blst : BlstLib
  /-- The kilic library. -/
  kilic : KilicLib

/-- A value of the Go interface `SecretKey`: a pointer to one of the three wrapper structs,
or nil. -/
inductive SecretKey (L : Libs) where
  /-- A `*HerumiSecretKey`. -/
  | herumi (s : L.herumi.SecretKey)
  /-- A `*BLSTSecretKey`. -/
  | blst (s : L.blst.SecretKey)
  /-- A `*KilicSecretKey`. -/
  | kilic (s : L.kilic.Fr)
  /-- The nil interface value. -/
  | nil

/-- A value of the Go interface `PublicKey`. -/
inductive PublicKey (L : Libs) where
  /-- A `*HerumiPublicKey`. -/
  | herumi (p : L.herumi.PublicKey)
  /-- A `*BLSTPublicKey`. -/
  | blst (p : L.blst.P1Affine)
  /-- A `*KilicPublicKey`. -/
  | kilic (p : L.kilic.PointG1)
  /-- The nil interface value. -/
  | nil

/-- A value of the Go interface `Signature`. -/
inductive Signature (L : Libs) where
  /-- A `*HerumiSignature`. -/
  | herumi (p : L.herumi.Sign)
  /-- A `*BLSTSignature`. -/
  | blst (p : L.blst.P2Affine)
  /-- A `*KilicSignature`. -/
  | kilic (p : L.kilic.PointG2)
  /-- The nil interface value. -/
  | nil

/-- The mutable package-level variables of `cross_bls`. -/
structure Globals (L : Libs) where
  /-- The variable `library`. -/
  library : String
  /-- The variable `infinitePublicKey` (nil is the empty slice). -/
  infinitePublicKey : Bytes
  /-- The variable `infiniteSignature` (nil is the empty slice). -/
  infiniteSignature : Bytes
  /-- The variable `kilicGroupOrder` (a nil pointer is `none`). -/
  kilicGroupOrder : Option L.kilic.Fr
  /-- The variable `blstInitialized`. -/
  blstInitialized : Bool
  /-- The variable `kilicInitialized`. -/
  kilicInitialized : Bool
  /-- The variable `herumiInitialized`. -/
  herumiInitialized : Bool

/-- The package-level variables as their declarations initialise them, before `init()`. -/
def declaredGlobals (L : Libs) : Globals L where
  library := libHerumi
  infinitePublicKey := []
  infiniteSignature := []
  kilicGroupOrder := none
  blstInitialized := false
  kilicInitialized := false
  herumiInitialized := false

/-- Go variable `zeroSecretKey`. -/
def zeroSecretKey : Bytes := make SecretKeySize

/-- Go variable `zeroPublicKey`. -/
def zeroPublicKey : Bytes := make PublicKeySize

/-- Go variable `zeroSignature`. -/
def zeroSignature : Bytes := make SignatureSize

/-- Go `bytes.Equal`. -/
def bytesEqual (a b : Bytes) : Bool := decide (a = b)

/-- The value of one hexadecimal digit, as in Go `encoding/hex`. -/
def fromHexChar (c : Char) : Option Nat :=
  let n := c.toNat
  if 48 ≤ n ∧ n ≤ 57 then some (n - 48)
  else if 97 ≤ n ∧ n ≤ 102 then some (n - 97 + 10)
  else if 65 ≤ n ∧ n ≤ 70 then some (n - 65 + 10)
  else none

/-- Go `hex.DecodeString` on the characters of a string: `none` when it returns an error
(an odd length or a character that is no hexadecimal digit). -/
def hexDecodeString : List Char → Option Bytes
  | [] => some []
  | [_] => none
  | p :: q :: rest =>
    match fromHexChar p, fromHexChar q, hexDecodeString rest with
    | some a, some b, some tl => some (Fin.ofNat (16 * a + b) :: tl)
    | _, _, _ => none

/-- The string `infinitePublicKeyStr` of `_init`. -/
def infinitePublicKeyStr : String :=
  "c00000000000000000000000000000000000000000000000000000000000000000000000000000000000000000000000"

/-- The string `infiniteSignatureStr` of `_init`. -/
def infiniteSignatureStr : String :=
  "c00000000000000000000000000000000000000000000000000000000000000000000000000000000000000000000000000000000000000000000000000000000000000000000000000000000000000000000000000000000000000000000000"

/-- Go `initBLST` (`blst.SetMaxProcs` has no effect on the modelled state). -/
def initBLST {L : Libs} (g : Globals L) : Globals L :=
  if !g.blstInitialized then { g with blstInitialized := true } else g

/-- Go `initHerumi`: panics when the library fails to initialise. -/
def initHerumi {L : Libs} (g : Globals L) : Res Err (Globals L) :=
  if !g.herumiInitialized then
    match L.herumi.initError with
    | some _ => .panic
    | none =>
      match L.herumi.setETHmodeError with
      | some _ => .panic
      | none => .ok { g with herumiInitialized := true }
  else .ok g

/-- Go `initKilic`. -/
def initKilic {L : Libs} (g : Globals L) : Globals L :=
  if !g.kilicInitialized then
    { g with kilicGroupOrder := some (L.kilic.frFromBytes L.kilic.g1QBytes),
             kilicInitialized := true }
  else g

/-- Go `_init`, which `init()` runs when the package is loaded: it sets the two infinity
patterns and initialises the selected library. -/
def _init {L : Libs} (g : Globals L) : Res Err (Globals L) :=
  match hexDecodeString infinitePublicKeyStr.toList with
  | none => .panic
  | some ipk =>
    let g := { g with infinitePublicKey := ipk }
    match hexDecodeString infiniteSignatureStr.toList with
    | none => .panic
    | some isig =>
      let g := { g with infiniteSignature := isig }
      if g.library = libHerumi then initHerumi g
      else if g.library = libBLST then .ok (initBLST g)
      else if g.library = libKilic then .ok (initKilic g)
      else .ok g

/-- Go `UseHerumi`. -/
def UseHerumi {L : Libs} (g : Globals L) : Res Err (Globals L) :=
  initHerumi { g with library := libHerumi }

/-- Go `UseBLST`. -/
def UseBLST {L : Libs} (g : Globals L) : Globals L :=
  initBLST { g with library := libBLST }

/-- Go `UseKilic`. -/
def UseKilic {L : Libs} (g : Globals L) : Globals L :=
  initKilic { g with library := libKilic }

/-- A `(T, error)` result of an external library as an outcome of this package. -/
def ofForeign {α : Type} : Except String α → Res Err α
  | .ok a => .ok a
  | .error msg => .err (.foreign msg)

/-- Go `herumiSecretKeyFromBytes`. -/
def herumiSecretKeyFromBytes (L : Libs) (inp : Bytes) : Res Err (SecretKey L) :=
  if inp.length ≠ SecretKeySize then .err .errSecretKeySize
  else
    match L.herumi.secretKeyDeserialize inp with
    | .error _ => .err .errInvalidSecretKey
    | .ok secretKey => .ok (.herumi secretKey)

/-- Go `blstSecretKeyFromBytes`. -/
def blstSecretKeyFromBytes (L : Libs) (inp : Bytes) : Res Err (SecretKey L) :=
  if inp.length ≠ SecretKeySize then .err .errSecretKeySize
  else
    match L.blst.secretKeyDeserialize inp with
    | none => .err .errInvalidSecretKey
    | some secretKey => .ok (.blst secretKey)

/-- Go `kilicSecretKeyFromBytes`; comparing with a nil `kilicGroupOrder` panics. -/
def kilicSecretKeyFromBytes (L : Libs) (g : Globals L) (inp : Bytes) : Res Err (SecretKey L) :=
  if inp.length ≠ SecretKeySize then .err .errSecretKeySize
  else
    let s := L.kilic.frFromBytes inp
    match g.kilicGroupOrder with
    | none => .panic
    | some order =>
      if L.kilic.frCmp s order ≠ -1 then .err .errInvalidSecretKey
      else .ok (.kilic s)

/-- Go `(*HerumiPublicKey).FromBytes`. -/
def HerumiPublicKey.FromBytes (L : Libs) (compresed : Bytes) : Res Err (PublicKey L) :=
  if compresed.length ≠ PublicKeySize then .err .errPublicKeySize
  else do
    let herumiPublicKey ← ofForeign (L.herumi.publicKeyDeserialize compresed)
    if !L.herumi.publicKeyIsValidOrder herumiPublicKey then .err .errInvalidPublicKey
    else if L.herumi.publicKeyIsZero herumiPublicKey then .err .errZeroPublicKey
    else .ok (.herumi herumiPublicKey)

/-- Go `(*BLSTPublicKey).FromBytes`. -/
def BLSTPublicKey.FromBytes (L : Libs) (compressed : Bytes) : Res Err (PublicKey L) :=
  if compressed.length ≠ PublicKeySize then .err .blstInvalidPublicKeySize
  else
    match L.blst.p1Uncompress compressed with
    | none => .err .blstCannotUncompress
    | some blstPublicKey =>
      if !L.blst.p1KeyValidate blstPublicKey then .err .blstInvalidBLSPublicKey
      else .ok (.blst blstPublicKey)

/-- Go `(*KilicPublicKey).FromBytes`. -/
def KilicPublicKey.FromBytes (L : Libs) (compressed : Bytes) : Res Err (PublicKey L) :=
  if compressed.length ≠ PublicKeySize then .err .errPublicKeySize
  else do
    let kilicPublicKey ← ofForeign (L.kilic.g1FromCompressed compressed)
    .ok (.kilic kilicPublicKey)

/-- Go `(*HerumiSignature).FromBytes`. -/
def HerumiSignature.FromBytes (L : Libs) (compresed : Bytes) : Res Err (Signature L) :=
  if compresed.length ≠ SignatureSize then .err .errSignatureSize
  else do
    let herumiSignature ← ofForeign (L.herumi.signDeserialize compresed)
    if !L.herumi.signIsValidOrder herumiSignature then .err .errInvalidSignature
    else if L.herumi.signIsZero herumiSignature then .err .errZeroSignature
    else .ok (.herumi herumiSignature)

/-- Go `(*BLSTSignature).FromBytes`. -/
def BLSTSignature.FromBytes (L : Libs) (compressed : Bytes) : Res Err (Signature L) :=
  if compressed.length ≠ SignatureSize then .err .errSignatureSize
  else
    match L.blst.p2Uncompress compressed with
    | none => .err .errInvalidSignature
    | some blstSignature =>
      if !L.blst.p2KeyValidate blstSignature then .err .errInvalidSignature
      else .ok (.blst blstSignature)

/-- Go `(*KilicSignature).FromBytes`. -/
def KilicSignature.FromBytes (L : Libs) (compressed : Bytes) : Res Err (Signature L) :=
  if compressed.length ≠ SignatureSize then .err .errSignatureSize
  else do
    let kilicSignature ← ofForeign (L.kilic.g2FromCompressed compressed)
    .ok (.kilic kilicSignature)

/-- Go `SecretKeyFromBytes`. When `library` names none of the three libraries the switch
assigns nothing and the nil key is returned with a nil error. -/
def SecretKeyFromBytes (L : Libs) (g : Globals L) (_secretKey : Bytes) :
    Res Err (SecretKey L) :=
  if _secretKey.length ≠ SecretKeySize then .err .errSecretKeySize
  else if bytesEqual zeroSecretKey _secretKey then .err .errZeroSecretKey
  else if g.library = libHerumi then herumiSecretKeyFromBytes L _secretKey
  else if g.library = libBLST then blstSecretKeyFromBytes L _secretKey
  else if g.library = libKilic then kilicSecretKeyFromBytes L g _secretKey
  else .ok .nil

/-- Go `PublicKeyFromBytes`. -/
def PublicKeyFromBytes (L : Libs) (g : Globals L) (compressed : Bytes) :
    Res Err (PublicKey L) :=
  if compressed.length ≠ PublicKeySize then .err .errPublicKeySize
  else if bytesEqual zeroPublicKey compressed then .err .errZeroPublicKey
  else if bytesEqual g.infinitePublicKey compressed then .err .errInfinitePublicKey
  else if g.library = libHerumi then HerumiPublicKey.FromBytes L compressed
  else if g.library = libBLST then BLSTPublicKey.FromBytes L compressed
  else if g.library = libKilic then KilicPublicKey.FromBytes L compressed
  else .ok .nil

/-- Go `SignatureFromBytes`. -/
def SignatureFromBytes (L : Libs) (g : Globals L) (compressed : Bytes) :
    Res Err (Signature L) :=
  if compressed.length ≠ SignatureSize then .err .errSignatureSize
  else if bytesEqual zeroSignature compressed then .err .errZeroSignature
  else if bytesEqual g.infiniteSignature compressed then .err .errInfiniteSignature
  else if g.library = libHerumi then HerumiSignature.FromBytes L compressed
  else if g.library = libBLST then BLSTSignature.FromBytes L compressed
  else if g.library = libKilic then KilicSignature.FromBytes L compressed
  else .ok .nil

/-- Go variable `dst`, the bytes of its string literal. -/
def dst : Bytes :=
  "BLS_SIG_BLS12381G2_XMD:SHA-256_SSWU_RO_POP_".toList.map (fun c => Fin.ofNat c.toNat)

/-- Go variable `blstOptionCheckSignatureSubgroupInVerification`. -/
def blstOptionCheckSignatureSubgroupInVerification : Bool := false

/-- Go variable `blstOptionValidatePublicKeyInVerification`. -/
def blstOptionValidatePublicKeyInVerification : Bool := false

/-- Go type assertion `secretKey.(*HerumiSecretKey).s`: panics on another dynamic type. -/
def SecretKey.asHerumi {L : Libs} : SecretKey L → Res Err L.herumi.SecretKey
  | .herumi s => .ok s
  | _ => .panic

/-- Go type assertion `secretKey.(*BLSTSecretKey).s`. -/
def SecretKey.asBLST {L : Libs} : SecretKey L → Res Err L.blst.SecretKey
  | .blst s => .ok s
  | _ => .panic

/-- Go type assertion `secretKey.(*KilicSecretKey).s`. -/
def SecretKey.asKilic {L : Libs} : SecretKey L → Res Err L.kilic.Fr
  | .kilic s => .ok s
  | _ => .panic

/-- Go type assertion `publicKey.(*HerumiPublicKey).p`. -/
def PublicKey.asHerumi {L : Libs} : PublicKey L → Res Err L.herumi.PublicKey
  | .herumi p => .ok p
  | _ => .panic

/-- Go type assertion `publicKey.(*BLSTPublicKey).p`. -/
def PublicKey.asBLST {L : Libs} : PublicKey L → Res Err L.blst.P1Affine
  | .blst p => .ok p
  | _ => .panic

/-- Go type assertion `publicKey.(*KilicPublicKey).p`. -/
def PublicKey.asKilic {L : Libs} : PublicKey L → Res Err L.kilic.PointG1
  | .kilic p => .ok p
  | _ => .panic

/-- Go type assertion `signature.(*HerumiSignature).p`. -/
def Signature.asHerumi {L : Libs} : Signature L → Res Err L.herumi.Sign
  | .herumi p => .ok p
  | _ => .panic

/-- Go type assertion `signature.(*BLSTSignature).p`. -/
def Signature.asBLST {L : Libs} : Signature L → Res Err L.blst.P2Affine
  | .blst p => .ok p
  | _ => .panic

/-- Go type assertion `signature.(*KilicSignature).p`. -/
def Signature.asKilic {L : Libs} : Signature L → Res Err L.kilic.PointG2
  | .kilic p => .ok p
  | _ => .panic

/-- A Go loop `for i := 0; i < len(xs); i++ { ys[i] = f(xs[i]) }` whose body may panic. -/
def forEach {α β : Type} (f : α → Res Err β) : List α → Res Err (List β)
  | [] => .ok []
  | x :: xs => do
    let y ← f x
    let ys ← forEach f xs
    .ok (y :: ys)

/-! ### `bls_kilic.go` -/

/-- Go `(*KilicSecretKey).Equal`. -/
def KilicSecretKey.Equal (L : Libs) (s : L.kilic.Fr) (other : SecretKey L) : Res Err Bool := do
  let o ← other.asKilic
  .ok (L.kilic.frEqual s o)

/-- Go `(*KilicSecretKey).PublicKey`. -/
def KilicSecretKey.PublicKey (L : Libs) (s : L.kilic.Fr) : PublicKey L :=
  .kilic (L.kilic.g1MulScalar L.kilic.g1One s)

/-- Go `(*KilicSecretKey).Sign`: the nil signature when hashing fails. -/
def KilicSecretKey.Sign (L : Libs) (s : L.kilic.Fr) (message : Bytes) : Signature L :=
  match L.kilic.g2HashToCurve message dst with
  | .error _ => .nil
  | .ok M => .kilic (L.kilic.g2MulScalar M s)

/-- Go `(*KilicSecretKey).ToBytes`. -/
def KilicSecretKey.ToBytes (L : Libs) (s : L.kilic.Fr) : Bytes :=
  L.kilic.frToBytes s

/-- Go `(*KilicPublicKey).ToBytes`. -/
def KilicPublicKey.ToBytes (L : Libs) (p : L.kilic.PointG1) : Bytes :=
  L.kilic.g1ToCompressed p

/-- Go `(*KilicPublicKey).Equal`. -/
def KilicPublicKey.Equal (L : Libs) (p : L.kilic.PointG1) (other : PublicKey L) :
    Res Err Bool := do
  let o ← other.asKilic
  .ok (L.kilic.g1Equal p o)

/-- Go `(*KilicSignature).ToBytes`. -/
def KilicSignature.ToBytes (L : Libs) (p : L.kilic.PointG2) : Bytes :=
  L.kilic.g2ToCompressed p

/-- Go `(*KilicSignature).Equal`. -/
def KilicSignature.Equal (L : Libs) (p : L.kilic.PointG2) (other : Signature L) :
    Res Err Bool := do
  let o ← other.asKilic
  .ok (L.kilic.g2Equal p o)

/-- Go `(*KilicSignature).Verify`. -/
def KilicSignature.Verify (L : Libs) (signature : L.kilic.PointG2) (publicKey : PublicKey L)
    (message : Bytes) : Res Err Bool :=
  let e := L.kilic.newEngine
  match L.kilic.g2HashToCurve message dst with
  | .error _ => .ok false
  | .ok M => do
    let p ← publicKey.asKilic
    let e := L.kilic.addPair e p M
    let e := L.kilic.addPairInv e L.kilic.g1One signature
    .ok (L.kilic.check e)

/-- The loop of `kilicAggregatePublicKey` over `publicKeys[1:]`, from the running sum. -/
def kilicAggregatePublicKeyLoop (L : Libs) :
    List (PublicKey L) → L.kilic.PointG1 → Res Err L.kilic.PointG1
  | [], aggregated => .ok aggregated
  | publicKey :: rest, aggregated => do
    let p ← publicKey.asKilic
    kilicAggregatePublicKeyLoop L rest (L.kilic.g1Add aggregated p)

/-- Go `kilicAggregatePublicKey`. Its argument `g` only selects which `*kilic.G1` value
computes (a fresh one when nil) and is left out. -/
def kilicAggregatePublicKey (L : Libs) (publicKeys : List (PublicKey L)) :
    Res Err (PublicKey L) :=
  match publicKeys with
  | [] => .ok (.kilic L.kilic.g1Zero)
  | first :: rest => do
    let aggregated ← first.asKilic
    let aggregated ← kilicAggregatePublicKeyLoop L rest aggregated
    .ok (.kilic aggregated)

/-- The loop of `kilicAggregateSignature` over `signatures[1:]`, from the running sum. -/
def kilicAggregateSignatureLoop (L : Libs) :
    List (Signature L) → L.kilic.PointG2 → Res Err L.kilic.PointG2
  | [], aggregated => .ok aggregated
  | signature :: rest, aggregated => do
    let p ← signature.asKilic
    kilicAggregateSignatureLoop L rest (L.kilic.g2Add aggregated p)

/-- Go `kilicAggregateSignature`, without its argument `g` (see `kilicAggregatePublicKey`). -/
def kilicAggregateSignature (L : Libs) (signatures : List (Signature L)) :
    Res Err (Signature L) :=
  match signatures with
  | [] => .ok (.kilic L.kilic.g2Zero)
  | first :: rest => do
    let aggregated ← first.asKilic
    let aggregated ← kilicAggregateSignatureLoop L rest aggregated
    .ok (.kilic aggregated)

/-- Go `(*KilicSignature).FastAggregateVerify`. -/
def KilicSignature.FastAggregateVerify (L : Libs) (signature : L.kilic.PointG2)
    (publicKeys : List (PublicKey L)) (message : Bytes) : Res Err Bool :=
  let e := L.kilic.newEngine
  match L.kilic.g2HashToCurve message dst with
  | .error _ => .ok false
  | .ok M => do
    let aggregated ← kilicAggregatePublicKey L publicKeys
    let p ← aggregated.asKilic
    let e := L.kilic.addPair e p M
    let e := L.kilic.addPairInv e L.kilic.g1One signature
    .ok (L.kilic.check e)

/-- The loop of `(*KilicSignature).AggregateVerify` over the messages and the public keys
at the same positions (the lists have the same length when it runs): `none` when the
method returns false from inside the loop, else the engine state after the loop. -/
def kilicAggregateVerifyLoop (L : Libs) :
    List (PublicKey L) → List Bytes → L.kilic.Engine → Res Err (Option L.kilic.Engine)
  | publicKey :: publicKeys, message :: messages, e =>
    match L.kilic.g2HashToCurve message dst with
    | .error _ => .ok none
    | .ok M => do
      let p ← publicKey.asKilic
      kilicAggregateVerifyLoop L publicKeys messages (L.kilic.addPair e p M)
  | _, _, e => .ok (some e)

/-- Go `(*KilicSignature).AggregateVerify`. -/
def KilicSignature.AggregateVerify (L : Libs) (signature : L.kilic.PointG2)
    (publicKeys : List (PublicKey L)) (messages : List Bytes) : Res Err Bool :=
  if publicKeys.length = 0 then .ok false
  else if messages.length ≠ publicKeys.length then .ok false
  else do
    let e := L.kilic.newEngine
    let e := L.kilic.addPairInv e L.kilic.g1One signature
    match ← kilicAggregateVerifyLoop L publicKeys messages e with
    | none => .ok false
    | some e => .ok (L.kilic.check e)

/-! ### `bls_herumi.go` -/

/-- Go `(*HerumiSecretKey).Equal`. -/
def HerumiSecretKey.Equal (L : Libs) (s : L.herumi.SecretKey) (other : SecretKey L) :
    Res Err Bool := do
  let o ← other.asHerumi
  .ok (L.herumi.secretKeyIsEqual s o)

/-- Go `(*HerumiSecretKey).PublicKey`. -/
def HerumiSecretKey.PublicKey (L : Libs) (s : L.herumi.SecretKey) : PublicKey L :=
  .herumi (L.herumi.secretKeyGetPublicKey s)

/-- Go `(*HerumiSecretKey).Sign`. -/
def HerumiSecretKey.Sign (L : Libs) (s : L.herumi.SecretKey) (message : Bytes) :
    Signature L :=
  .herumi (L.herumi.secretKeySign s message)

/-- Go `(*HerumiSecretKey).ToBytes`. -/
def HerumiSecretKey.ToBytes (L : Libs) (s : L.herumi.SecretKey) : Bytes :=
  L.herumi.secretKeySerialize s

/-- Go `(*HerumiPublicKey).ToBytes`. -/
def HerumiPublicKey.ToBytes (L : Libs) (p : L.herumi.PublicKey) : Bytes :=
  L.herumi.publicKeySerialize p

/-- Go `(*HerumiPublicKey).Equal`. -/
def HerumiPublicKey.Equal (L : Libs) (p : L.herumi.PublicKey) (other : PublicKey L) :
    Res Err Bool := do
  let o ← other.asHerumi
  .ok (L.herumi.publicKeyIsEqual p o)

/-- Go `(*HerumiSignature).ToBytes`. -/
def HerumiSignature.ToBytes (L : Libs) (p : L.herumi.Sign) : Bytes :=
  L.herumi.signSerialize p

/-- Go `(*HerumiSignature).Equal`. -/
def HerumiSignature.Equal (L : Libs) (p : L.herumi.Sign) (other : Signature L) :
    Res Err Bool := do
  let o ← other.asHerumi
  .ok (L.herumi.signIsEqual p o)

/-- Go `(*HerumiSignature).Verify`. -/
def HerumiSignature.Verify (L : Libs) (signature : L.herumi.Sign) (publicKey : PublicKey L)
    (message : Bytes) : Res Err Bool := do
  let p ← publicKey.asHerumi
  .ok (L.herumi.signVerify signature p message)

/-- Go `(*HerumiSignature).FastAggregateVerify`. -/
def HerumiSignature.FastAggregateVerify (L : Libs) (signature : L.herumi.Sign)
    (publicKeys : List (PublicKey L)) (message : Bytes) : Res Err Bool :=
  if publicKeys.length = 0 then .ok false
  else do
    let herumiPublicKeys ← forEach PublicKey.asHerumi publicKeys
    .ok (L.herumi.signFastAggregateVerify signature herumiPublicKeys message)

/-- The loop of `(*HerumiSignature).AggregateVerify` over the public keys and the messages
at the same positions: the converted keys and the bytes appended to `_messages`. -/
def herumiAggregateVerifyLoop (L : Libs) :
    List (PublicKey L) → List Bytes → Res Err (List L.herumi.PublicKey × Bytes)
  | publicKey :: publicKeys, message :: messages => do
    let p ← publicKey.asHerumi
    let (ps, ms) ← herumiAggregateVerifyLoop L publicKeys messages
    .ok (p :: ps, message ++ ms)
  | _, _ => .ok ([], [])

/-- Go `(*HerumiSignature).AggregateVerify`. -/
def HerumiSignature.AggregateVerify (L : Libs) (signature : L.herumi.Sign)
    (publicKeys : List (PublicKey L)) (messages : List Bytes) : Res Err Bool :=
  let size := publicKeys.length
  if size = 0 then .ok false
  else if messages.length ≠ size then .ok false
  else do
    let (herumiPublicKeys, _messages) ← herumiAggregateVerifyLoop L publicKeys messages
    .ok (L.herumi.signAggregateVerify signature herumiPublicKeys _messages)

/-- Go `herumiAggregateSignature`. -/
def herumiAggregateSignature (L : Libs) (signatures : List (Signature L)) :
    Res Err (Signature L) := do
  let herimuSignatures ← forEach Signature.asHerumi signatures
  .ok (.herumi (L.herumi.signAggregate herimuSignatures))

/-- The loop of `herumiAggregatePublicKey`, from the running sum. -/
def herumiAggregatePublicKeyLoop (L : Libs) :
    List (PublicKey L) → L.herumi.PublicKey → Res Err L.herumi.PublicKey
  | [], aggregatedPublicKey => .ok aggregatedPublicKey
  | publicKey :: rest, aggregatedPublicKey => do
    let p ← publicKey.asHerumi
    herumiAggregatePublicKeyLoop L rest (L.herumi.publicKeyAdd aggregatedPublicKey p)

/-- Go `herumiAggregatePublicKey`. -/
def herumiAggregatePublicKey (L : Libs) (publicKeys : List (PublicKey L)) :
    Res Err (PublicKey L) := do
  let aggregatedPublicKey ← herumiAggregatePublicKeyLoop L publicKeys L.herumi.publicKeyNew
  .ok (.herumi aggregatedPublicKey)

/-! ### `bls_blst.go` -/

/-- Go `(*BLSTSecretKey).Equal`. -/
def BLSTSecretKey.Equal (L : Libs) (s : L.blst.SecretKey) (other : SecretKey L) :
    Res Err Bool := do
  let o ← other.asBLST
  .ok (L.blst.secretKeyEquals s o)

/-- Go `(*BLSTSecretKey).PublicKey`. -/
def BLSTSecretKey.PublicKey (L : Libs) (s : L.blst.SecretKey) : PublicKey L :=
  .blst (L.blst.p1From s)

/-- Go `(*BLSTSecretKey).Sign`. -/
def BLSTSecretKey.Sign (L : Libs) (s : L.blst.SecretKey) (message : Bytes) : Signature L :=
  .blst (L.blst.p2Sign s message dst)

/-- Go `(*BLSTSecretKey).ToBytes`. -/
def BLSTSecretKey.ToBytes (L : Libs) (s : L.blst.SecretKey) : Bytes :=
  L.blst.secretKeySerialize s

/-- Go `(*BLSTPublicKey).ToBytes`. -/
def BLSTPublicKey.ToBytes (L : Libs) (p : L.blst.P1Affine) : Bytes :=
  L.blst.p1Compress p

/-- Go `(*BLSTPublicKey).Equal`. -/
def BLSTPublicKey.Equal (L : Libs) (p : L.blst.P1Affine) (other : PublicKey L) :
    Res Err Bool := do
  let o ← other.asBLST
  .ok (L.blst.p1Equals p o)

/-- Go `(*BLSTSignature).ToBytes`. -/
def BLSTSignature.ToBytes (L : Libs) (p : L.blst.P2Affine) : Bytes :=
  L.blst.p2Compress p

/-- Go `(*BLSTSignature).Equal`. -/
def BLSTSignature.Equal (L : Libs) (p : L.blst.P2Affine) (other : Signature L) :
    Res Err Bool := do
  let o ← other.asBLST
  .ok (L.blst.p2Equals p o)

/-- Go `(*BLSTSignature).Verify`. -/
def BLSTSignature.Verify (L : Libs) (signature : L.blst.P2Affine) (publicKey : PublicKey L)
    (message : Bytes) : Res Err Bool := do
  let p ← publicKey.asBLST
  .ok (L.blst.p2Verify signature blstOptionCheckSignatureSubgroupInVerification p
    blstOptionValidatePublicKeyInVerification message dst)

/-- Go `(*BLSTSignature).FastAggregateVerify`. -/
def BLSTSignature.FastAggregateVerify (L : Libs) (signature : L.blst.P2Affine)
    (publicKeys : List (PublicKey L)) (message : Bytes) : Res Err Bool := do
  let blstPublicKeys ← forEach PublicKey.asBLST publicKeys
  .ok (L.blst.p2FastAggregateVerify signature blstOptionCheckSignatureSubgroupInVerification
    blstPublicKeys message dst)

/-- Go `(*BLSTSignature).AggregateVerify`. -/
def BLSTSignature.AggregateVerify (L : Libs) (signature : L.blst.P2Affine)
    (publicKeys : List (PublicKey L)) (messages : List Bytes) : Res Err Bool :=
  let size := publicKeys.length
  if size = 0 then .ok false
  else if messages.length ≠ size then .ok false
  else do
    let blstPublicKeys ← forEach PublicKey.asBLST publicKeys
    .ok (L.blst.p2AggregateVerify signature blstOptionCheckSignatureSubgroupInVerification
      blstPublicKeys blstOptionValidatePublicKeyInVerification messages dst)

/-- Go `blstAggregateSignature`. -/
def blstAggregateSignature (L : Libs) (signatures : List (Signature L)) :
    Res Err (Signature L) := do
  let blstSignatures ← forEach Signature.asBLST signatures
  .ok (.blst (L.blst.p2AggregateToAffine blstSignatures))

/-- Go `blstAggregatePublicKey`. -/
def blstAggregatePublicKey (L : Libs) (publicKeys : List (PublicKey L)) :
    Res Err (PublicKey L) := do
  let blstPublicKeys ← forEach PublicKey.asBLST publicKeys
  .ok (.blst (L.blst.p1AggregateToAffine blstPublicKeys))

/-! ### Method calls on interface values and `bls.go` -/

/-- Go `secretKey.Sign(message)` on an interface value: the method of its dynamic type; a
call on the nil interface panics. -/
def SecretKey.Sign {L : Libs} (secretKey : SecretKey L) (message : Bytes) :
    Res Err (Signature L) :=
  match secretKey with
  | .herumi s => .ok (HerumiSecretKey.Sign L s message)
  | .blst s => .ok (BLSTSecretKey.Sign L s message)
  | .kilic s => .ok (KilicSecretKey.Sign L s message)
  | .nil => .panic

/-- Go `secretKey.ToBytes()` on an interface value. -/
def SecretKey.ToBytes {L : Libs} (secretKey : SecretKey L) : Res Err Bytes :=
  match secretKey with
  | .herumi s => .ok (HerumiSecretKey.ToBytes L s)
  | .blst s => .ok (BLSTSecretKey.ToBytes L s)
  | .kilic s => .ok (KilicSecretKey.ToBytes L s)
  | .nil => .panic

/-- Go `secretKey.Equal(other)` on an interface value. -/
def SecretKey.Equal {L : Libs} (secretKey other : SecretKey L) : Res Err Bool :=
  match secretKey with
  | .herumi s => HerumiSecretKey.Equal L s other
  | .blst s => BLSTSecretKey.Equal L s other
  | .kilic s => KilicSecretKey.Equal L s other
  | .nil => .panic

/-- Go `secretKey.PublicKey()` on an interface value. -/
def SecretKey.PublicKey {L : Libs} (secretKey : SecretKey L) : Res Err (PublicKey L) :=
  match secretKey with
  | .herumi s => .ok (HerumiSecretKey.PublicKey L s)
  | .blst s => .ok (BLSTSecretKey.PublicKey L s)
  | .kilic s => .ok (KilicSecretKey.PublicKey L s)
  | .nil => .panic

/-- Go `publicKey.ToBytes()` on an interface value. -/
def PublicKey.ToBytes {L : Libs} (publicKey : PublicKey L) : Res Err Bytes :=
  match publicKey with
  | .herumi p => .ok (HerumiPublicKey.ToBytes L p)
  | .blst p => .ok (BLSTPublicKey.ToBytes L p)
  | .kilic p => .ok (KilicPublicKey.ToBytes L p)
  | .nil => .panic

/-- Go `publicKey.Equal(other)` on an interface value. -/
def PublicKey.Equal {L : Libs} (publicKey other : PublicKey L) : Res Err Bool :=
  match publicKey with
  | .herumi p => HerumiPublicKey.Equal L p other
  | .blst p => BLSTPublicKey.Equal L p other
  | .kilic p => KilicPublicKey.Equal L p other
  | .nil => .panic

/-- Go `signature.ToBytes()` on an interface value. -/
def Signature.ToBytes {L : Libs} (signature : Signature L) : Res Err Bytes :=
  match signature with
  | .herumi p => .ok (HerumiSignature.ToBytes L p)
  | .blst p => .ok (BLSTSignature.ToBytes L p)
  | .kilic p => .ok (KilicSignature.ToBytes L p)
  | .nil => .panic

/-- Go `signature.Equal(other)` on an interface value. -/
def Signature.Equal {L : Libs} (signature other : Signature L) : Res Err Bool :=
  match signature with
  | .herumi p => HerumiSignature.Equal L p other
  | .blst p => BLSTSignature.Equal L p other
  | .kilic p => KilicSignature.Equal L p other
  | .nil => .panic

/-- Go `signature.Verify(publicKey, message)` on an interface value. -/
def Signature.Verify {L : Libs} (signature : Signature L) (publicKey : PublicKey L)
    (message : Bytes) : Res Err Bool :=
  match signature with
  | .herumi p => HerumiSignature.Verify L p publicKey message
  | .blst p => BLSTSignature.Verify L p publicKey message
  | .kilic p => KilicSignature.Verify L p publicKey message
  | .nil => .panic

/-- Go `signature.FastAggregateVerify(publicKeys, message)` on an interface value. -/
def Signature.FastAggregateVerify {L : Libs} (signature : Signature L)
    (publicKeys : List (PublicKey L)) (message : Bytes) : Res Err Bool :=
  match signature with
  | .herumi p => HerumiSignature.FastAggregateVerify L p publicKeys message
  | .blst p => BLSTSignature.FastAggregateVerify L p publicKeys message
  | .kilic p => KilicSignature.FastAggregateVerify L p publicKeys message
  | .nil => .panic

/-- Go `signature.AggregateVerify(publicKeys, messages)` on an interface value. -/
def Signature.AggregateVerify {L : Libs} (signature : Signature L)
    (publicKeys : List (PublicKey L)) (messages : List Bytes) : Res Err Bool :=
  match signature with
  | .herumi p => HerumiSignature.AggregateVerify L p publicKeys messages
  | .blst p => BLSTSignature.AggregateVerify L p publicKeys messages
  | .kilic p => KilicSignature.AggregateVerify L p publicKeys messages
  | .nil => .panic

/-- Go `AggreagatePublicKeys`. When `library` names none of the three libraries the nil key
is returned. -/
def AggreagatePublicKeys (L : Libs) (g : Globals L) (publicKeys : List (PublicKey L)) :
    Res Err (PublicKey L) :=
  if g.library = libHerumi then herumiAggregatePublicKey L publicKeys
  else if g.library = libBLST then blstAggregatePublicKey L publicKeys
  else if g.library = libKilic then kilicAggregatePublicKey L publicKeys
  else .ok .nil

/-- Go `AggreagateSignatures`. -/
def AggreagateSignatures (L : Libs) (g : Globals L) (signatures : List (Signature L)) :
    Res Err (Signature L) :=
  if g.library = libHerumi then herumiAggregateSignature L signatures
  else if g.library = libBLST then blstAggregateSignature L signatures
  else if g.library = libKilic then kilicAggregateSignature L signatures
  else .ok .nil

/-- The integer a byte string denotes when read big-endian. -/
def beValue (b : Bytes) : Nat := b.foldl (fun acc x => 256 * acc + x.val) 0

/-- The `n` bytes that denote `v` modulo `256 ^ n` when read big-endian. -/
def toBE (v : Nat) : Nat → Bytes
  | 0 => []
  | n + 1 => toBE (v / 256) n ++ [Fin.ofNat (v % 256)]

/-- The order `r` of the BLS12-381 groups. -/
def groupOrder : Nat := 0x73eda753299d7d483339d80809a1d80553bda402fffe5bfeffffffff00000001

/-- Modelled from the spec: what the values of the external kilic library stand for, for
groups of prime order `r` (the library is the spec's curve engine, a collaborator outside
the repository). A scalar stands for an integer; a point of G1 (of G2) for the multiple of
the generator it is, read modulo `r`; an engine state for the product of the pairings
added to it, as the exponent, modulo `r`, of the pairing of the two generators. -/
structure Meaning (K : KilicLib) (r : Nat) where
  /-- The integer a scalar holds. -/
  scalar : K.Fr → Nat
  /-- The multiple of the generator `g.One()` a point of G1 is. -/
  point1 : K.PointG1 → ZMod r
  /-- The multiple of the generator a point of G2 is. -/
  point2 : K.PointG2 → ZMod r
  /-- The exponent of the product of pairings an engine has accumulated. -/
  product : K.Engine → ZMod r

/-- Modelled from the spec: the behaviour of the scalar type `kilic.Fr` of the external
library, after the spec's data model (a secret key is a scalar mod the group order `r`
whose canonical form is exactly 32 bytes, big-endian). `FromBytes` reads 32 bytes
big-endian and, as a scalar mod `r`, reduces a value above `r` modulo `r`; a value up to
`r` itself is kept. The bytes of `Q()` give the group order `r`, `Cmp` is `-1` exactly on
a smaller value, `ToBytes` is the 32-byte big-endian form and `Equal` compares values. -/
structure FrContract (K : KilicLib) (r : Nat) (μ : Meaning K r) : Prop where
  /-- The scalar of 32 bytes is their big-endian value, reduced modulo `r` when it is
  above `r`. -/
  fromBytes : ∀ b : Bytes, b.length = 32 →
    μ.scalar (K.frFromBytes b) = if beValue b ≤ r then beValue b else beValue b % r
  /-- The scalar read from the bytes of `Q()` is the group order. -/
  order : μ.scalar (K.frFromBytes K.g1QBytes) = r
  /-- The method `Cmp` returns `-1` exactly when the first value is the smaller. -/
  cmp : ∀ a b : K.Fr, K.frCmp a b = -1 ↔ μ.scalar a < μ.scalar b
  /-- The method `ToBytes` gives the 32-byte big-endian form of the value. -/
  toBytes : ∀ s : K.Fr, K.frToBytes s = toBE (μ.scalar s) 32
  /-- The method `Equal` holds exactly on equal values. -/
  equal : ∀ a b : K.Fr, K.frEqual a b = true ↔ μ.scalar a = μ.scalar b

/-- Modelled from the spec: the compressed forms of the external kilic library, after the
spec's canonical encodings (48 and 96 bytes, a flag-byte-prefixed pattern for the point at
infinity, compress and decompress as inverse operations of the curve engine). A compressed
G1 (G2) point is 48 (96) bytes whose first byte has the compression flag `0x80`, and the
infinity flag `0x40` exactly for the identity; decompressing a compressed point gives an
Equal point. -/
structure CompressContract (K : KilicLib) (r : Nat) (μ : Meaning K r) : Prop where
  /-- The layout of a compressed G1 point. -/
  g1ToCompressed : ∀ p : K.PointG1, ∃ b0 rest, K.g1ToCompressed p = b0 :: rest
    ∧ rest.length = 47 ∧ 128 ≤ b0.val ∧ (64 ≤ b0.val % 128 ↔ μ.point1 p = 0)
  /-- Decompression inverts compression on G1, up to `Equal`. -/
  g1FromCompressed : ∀ p : K.PointG1, ∃ q,
    K.g1FromCompressed (K.g1ToCompressed p) = .ok q ∧ K.g1Equal p q = true
  /-- The layout of a compressed G2 point. -/
  g2ToCompressed : ∀ p : K.PointG2, ∃ b0 rest, K.g2ToCompressed p = b0 :: rest
    ∧ rest.length = 95 ∧ 128 ≤ b0.val ∧ (64 ≤ b0.val % 128 ↔ μ.point2 p = 0)
  /-- Decompression inverts compression on G2, up to `Equal`. -/
  g2FromCompressed : ∀ p : K.PointG2, ∃ q,
    K.g2FromCompressed (K.g2ToCompressed p) = .ok q ∧ K.g2Equal p q = true

/-- Modelled from the spec: the group and pairing operations of the external kilic library,
after the spec's curve engine contract (point addition and scalar multiplication in G1 and
G2, hash-to-curve, a batched pairing check over pairs, point equality). The operations
compute in two groups of order `r` generated by `One`, hashing to the curve succeeds, and
the pairing is bilinear, so that the pairing of `a * G1` and `b * G2` is the `a * b`-th
power of the pairing of the generators and `Check` tells whether the accumulated product
is the identity. -/
structure CurveContract (K : KilicLib) (r : Nat) (μ : Meaning K r) : Prop where
  /-- The generator of G1. -/
  g1One : μ.point1 K.g1One = 1
  /-- The identity of G1. -/
  g1Zero : μ.point1 K.g1Zero = 0
  /-- Addition in G1. -/
  g1Add : ∀ p q, μ.point1 (K.g1Add p q) = μ.point1 p + μ.point1 q
  /-- Scalar multiplication in G1. -/
  g1MulScalar : ∀ p s, μ.point1 (K.g1MulScalar p s) = (μ.scalar s : ZMod r) * μ.point1 p
  /-- Equality of G1 points. -/
  g1Equal : ∀ p q, K.g1Equal p q = true ↔ μ.point1 p = μ.point1 q
  /-- The identity of G2. -/
  g2Zero : μ.point2 K.g2Zero = 0
  /-- Addition in G2. -/
  g2Add : ∀ p q, μ.point2 (K.g2Add p q) = μ.point2 p + μ.point2 q
  /-- Scalar multiplication in G2. -/
  g2MulScalar : ∀ p s, μ.point2 (K.g2MulScalar p s) = (μ.scalar s : ZMod r) * μ.point2 p
  /-- Equality of G2 points. -/
  g2Equal : ∀ p q, K.g2Equal p q = true ↔ μ.point2 p = μ.point2 q
  /-- Hashing a message to G2 with the package tag succeeds. -/
  g2HashToCurve : ∀ message : Bytes, ∃ M, K.g2HashToCurve message dst = .ok M
  /-- A new engine holds the empty product. -/
  newEngine : μ.product K.newEngine = 0
  /-- The method `AddPair` multiplies the product by the pairing of its arguments. -/
  addPair : ∀ e p q, μ.product (K.addPair e p q) = μ.product e + μ.point1 p * μ.point2 q
  /-- The method `AddPairInv` multiplies the product by the inverse of that pairing. -/
  addPairInv : ∀ e p q,
    μ.product (K.addPairInv e p q) = μ.product e - μ.point1 p * μ.point2 q
  /-- The method `Check` tells whether the product is the identity. -/
  check : ∀ e, K.check e = true ↔ μ.product e = 0

/-- The multiple of the G2 generator a message hashes to with the package tag (zero when
hashing fails). -/
def hashedPoint (K : KilicLib) (r : Nat) (μ : Meaning K r) (message : Bytes) : ZMod r :=
  match K.g2HashToCurve message dst with
  | .ok M => μ.point2 M
  | .error _ => 0

/-- Modelled from the spec: the hash to the curve of the external kilic library sends no
message to the identity of G2, as the spec's verification properties take it (a signature
made under one key never verifies under another key). -/
def HashContract (K : KilicLib) (r : Nat) (μ : Meaning K r) : Prop :=
  ∀ message : Bytes, hashedPoint K r μ message ≠ 0

/-- The G2 point of the signature `(*KilicSecretKey).Sign` returns (the identity when
hashing fails and the signature is nil). -/
def signedPoint (K : KilicLib) (s : K.Fr) (message : Bytes) : K.PointG2 :=
  match K.g2HashToCurve message dst with
  | .ok M => K.g2MulScalar M s
  | .error _ => K.g2Zero

/-- A toy herumi library for concrete evaluation: keys and signatures are byte strings,
every deserialisation succeeds, the public key is the secret key, a signature is key
followed by message, and aggregation is concatenation. -/
@[reducible] def toyHerumiLib : HerumiLib where
  SecretKey := Bytes
  PublicKey := Bytes
  Sign := Bytes
  initError := none
  setETHmodeError := none
  secretKeyDeserialize := fun b => .ok b
  publicKeyDeserialize := fun b => .ok b
  publicKeyIsValidOrder := fun _ => true
  publicKeyIsZero := fun _ => false
  signDeserialize := fun b => .ok b
  signIsValidOrder := fun _ => true
  signIsZero := fun _ => false
  secretKeyIsEqual := fun a b => decide (a = b)
  secretKeyGetPublicKey := fun s => s
  secretKeySign := fun s m => s ++ m
  secretKeySerialize := fun s => s
  publicKeySerialize := fun p => p
  publicKeyIsEqual := fun a b => decide (a = b)
  publicKeyNew := []
  publicKeyAdd := fun a b => a ++ b
  signSerialize := fun p => p
  signIsEqual := fun a b => decide (a = b)
  signVerify := fun sig pk m => decide (sig = pk ++ m)
  signFastAggregateVerify := fun sig pks m => decide (sig = (pks.map (fun pk => pk ++ m)).flatten)
  signAggregateVerify := fun sig pks m => decide (sig = pks.flatten ++ m)
  signAggregate := fun sigs => sigs.flatten

/-- A toy blst library for concrete evaluation, on the pattern of `toyHerumiLib`. -/
@[reducible] def toyBlstLib : BlstLib where
  SecretKey := Bytes
  P1Affine := Bytes
  P2Affine := Bytes
  secretKeyDeserialize := fun b => some b
  p1Uncompress := fun b => some b
  p1KeyValidate := fun _ => true
  p2Uncompress := fun b => some b
  p2KeyValidate := fun _ => true
  secretKeyEquals := fun a b => decide (a = b)
  secretKeySerialize := fun s => s
  p1From := fun s => s
  p1Compress := fun p => p
  p1Equals := fun a b => decide (a = b)
  p2Sign := fun s m _ => s ++ m
  p2Compress := fun p => p
  p2Equals := fun a b => decide (a = b)
  p2Verify := fun sig _ pk _ m _ => decide (sig = pk ++ m)
  p2FastAggregateVerify := fun sig _ pks m _ => decide (sig = (pks.map (fun pk => pk ++ m)).flatten)
  p2AggregateVerify := fun sig _ pks _ ms _ =>
    decide (sig = ((pks.zip ms).map (fun pm => pm.1 ++ pm.2)).flatten)
  p1AggregateToAffine := fun ps => ps.flatten
  p2AggregateToAffine := fun ps => ps.flatten

/-- A toy kilic library for concrete evaluation, with groups of order `r`. A scalar is a
natural number, read from bytes big-endian and reduced modulo `r` when above `r`. A point of either group is a
natural number standing for that multiple of the generator, so that a point has many
representations; the pairing of `a` and `b` is `a * b`, and the engine holds the sum of
the pairings added so far as an integer. A compressed point is a flag byte (`0x80`, plus
`0x40` for the identity) followed by the reduced multiple; the hash of a message is the
multiple its bytes denote. -/
@[reducible] def toyKilicLib (r : Nat) : KilicLib where
  Fr := Nat
  PointG1 := Nat
  PointG2 := Nat
  frFromBytes := fun b => if beValue b ≤ r then beValue b else beValue b % r
  frCmp := fun a b => if a < b then -1 else if a = b then 0 else 1
  g1QBytes := toBE r 32
  g1FromCompressed := fun b =>
    match b with
    | [] => .error "input string should be equal or larger than 48"
    | _ :: rest => .ok (beValue rest)
  g2FromCompressed := fun b =>
    match b with
    | [] => .error "input string should be equal or larger than 96"
    | _ :: rest => .ok (beValue rest)
  frToBytes := fun s => toBE s 32
  frEqual := fun a b => decide (a = b)
  g1One := 1
  g1Zero := 0
  g1Add := fun p q => p + q
  g1MulScalar := fun p s => s * p
  g1Equal := fun p q => decide (p % r = q % r)
  g1ToCompressed := fun p =>
    Fin.ofNat (if p % r = 0 then 192 else 128) :: toBE (p % r) 47
  g2Zero := 0
  g2Add := fun p q => p + q
  g2MulScalar := fun p s => s * p
  g2Equal := fun p q => decide (p % r = q % r)
  g2ToCompressed := fun p =>
    Fin.ofNat (if p % r = 0 then 192 else 128) :: toBE (p % r) 95
  g2HashToCurve := fun m _ => .ok (beValue m)
  Engine := Int
  newEngine := 0
  addPair := fun e p q => e + (p : Int) * (q : Int)
  addPairInv := fun e p q => e - (p : Int) * (q : Int)
  check := fun e => decide (e % (r : Int) = 0)

/-- What the values of `toyKilicLib r` stand for. -/
def toyMeaning (r : Nat) : Meaning (toyKilicLib r) r where
  scalar := fun s => s
  point1 := fun p => (p : ZMod r)
  point2 := fun p => (p : ZMod r)
  product := fun e => (e : ZMod r)

/-- The toy kilic library `toyKilicLib r` with a hash that sends no message to the identity:
the hash of a message is the multiple `1 + (v mod (r - 1))` of the generator, for the value
`v` its bytes denote. -/
@[reducible] def toyKilicLibH (r : Nat) : KilicLib :=
  { toyKilicLib r with g2HashToCurve := fun m _ => .ok (beValue m % (r - 1) + 1) }

/-- What the values of `toyKilicLibH r` stand for. -/
def toyMeaningH (r : Nat) : Meaning (toyKilicLibH r) r where
  scalar := fun s => s
  point1 := fun p => (p : ZMod r)
  point2 := fun p => (p : ZMod r)
  product := fun e => (e : ZMod r)

/-- Toy external libraries for concrete evaluation, the kilic one with groups of the order
of BLS12-381. -/
@[reducible] def toyLibs : Libs where
  herumi := toyHerumiLib
  blst := toyBlstLib
  kilic := toyKilicLib groupOrder

/-- Toy external libraries for concrete evaluation, the kilic one with groups of order 7. -/
@[reducible] def toyLibs7 : Libs where
  herumi := toyHerumiLib
  blst := toyBlstLib
  kilic := toyKilicLib 7

/-- Modelled from the spec: what the values of the external herumi library stand for, on
the pattern of `Meaning` (a secret key is a scalar, a public key a point of G1, a signature
a point of G2). -/
structure HerumiMeaning (H : HerumiLib) (r : Nat) where
  /-- The integer a secret key holds. -/
  scalar : H.SecretKey → Nat
  /-- The multiple of the generator of G1 a public key is. -/
  point1 : H.PublicKey → ZMod r
  /-- The multiple of the generator of G2 a signature is. -/
  point2 : H.Sign → ZMod r

/-- Modelled from the spec: what the values of the external blst library stand for, on the
pattern of `Meaning`. -/
structure BlstMeaning (B : BlstLib) (r : Nat) where
  /-- The integer a secret key holds. -/
  scalar : B.SecretKey → Nat
  /-- The multiple of the generator of G1 a public key is. -/
  point1 : B.P1Affine → ZMod r
  /-- The multiple of the generator of G2 a signature is. -/
  point2 : B.P2Affine → ZMod r

/-- Modelled from the spec: the canonical forms every backend shares (the same algebraic
point always serializes to the same bytes, identically across every backend, and the
hash to the curve is parameterized by the one domain separation tag): the compressed form
of each point of G1 and of G2, and the point of G2 a message hashes to under `dst`. -/
structure Canonical (r : Nat) where
  /-- The canonical compressed form of a point of G1. -/
  enc1 : ZMod r → Bytes
  /-- The canonical compressed form of a point of G2. -/
  enc2 : ZMod r → Bytes
  /-- The point of G2 a message hashes to with the package tag. -/
  hash : Bytes → ZMod r

/-- Modelled from the spec: the external herumi library as a curve engine with the
canonical forms. A secret key deserialized from 32 bytes holds their big-endian value,
which is below the group order, and serializes to the 32-byte big-endian form; its public
key is that multiple of the generator; a signature is the hashed message multiplied by the
key; public keys and signatures serialize to the canonical compressed forms. -/
structure HerumiContract (H : HerumiLib) (r : Nat) (μ : HerumiMeaning H r)
    (c : Canonical r) : Prop where
  /-- A deserialized secret key holds the big-endian value of its 32 bytes, and only a
  value below the group order is deserialized. -/
  deserialize : ∀ b s, b.length = 32 → H.secretKeyDeserialize b = .ok s →
    μ.scalar s = beValue b ∧ beValue b < r
  /-- A secret key serializes to its 32-byte big-endian form. -/
  serialize : ∀ s, H.secretKeySerialize s = toBE (μ.scalar s) 32
  /-- The public key of a secret key. -/
  getPublicKey : ∀ s, μ.point1 (H.secretKeyGetPublicKey s) = (μ.scalar s : ZMod r)
  /-- A public key serializes to the canonical form of its point. -/
  publicKeySerialize : ∀ p, H.publicKeySerialize p = c.enc1 (μ.point1 p)
  /-- A signature is the hashed message multiplied by the secret key. -/
  sign : ∀ s m, μ.point2 (H.secretKeySign s m) = (μ.scalar s : ZMod r) * c.hash m
  /-- A signature serializes to the canonical form of its point. -/
  signSerialize : ∀ q, H.signSerialize q = c.enc2 (μ.point2 q)

/-- Modelled from the spec: the external blst library as a curve engine with the canonical
forms, on the pattern of `HerumiContract`; signing is with the tag `dst` the package
passes. -/
structure BlstContract (B : BlstLib) (r : Nat) (μ : BlstMeaning B r)
    (c : Canonical r) : Prop where
  /-- A deserialized secret key holds the big-endian value of its 32 bytes, and only a
  value below the group order is deserialized. -/
  deserialize : ∀ b s, b.length = 32 → B.secretKeyDeserialize b = some s →
    μ.scalar s = beValue b ∧ beValue b < r
  /-- A secret key serializes to its 32-byte big-endian form. -/
  serialize : ∀ s, B.secretKeySerialize s = toBE (μ.scalar s) 32
  /-- The public key of a secret key. -/
  p1From : ∀ s, μ.point1 (B.p1From s) = (μ.scalar s : ZMod r)
  /-- A public key compresses to the canonical form of its point. -/
  p1Compress : ∀ p, B.p1Compress p = c.enc1 (μ.point1 p)
  /-- A signature under the package tag is the hashed message multiplied by the key. -/
  p2Sign : ∀ s m, μ.point2 (B.p2Sign s m dst) = (μ.scalar s : ZMod r) * c.hash m
  /-- A signature compresses to the canonical form of its point. -/
  p2Compress : ∀ q, B.p2Compress q = c.enc2 (μ.point2 q)

/-- Modelled from the spec: the compressed forms and the hash of the external kilic
library are the canonical ones. -/
structure KilicCanonical (K : KilicLib) (r : Nat) (μ : Meaning K r)
    (c : Canonical r) : Prop where
  /-- A point of G1 compresses to its canonical form. -/
  g1ToCompressed : ∀ p, K.g1ToCompressed p = c.enc1 (μ.point1 p)
  /-- A point of G2 compresses to its canonical form. -/
  g2ToCompressed : ∀ q, K.g2ToCompressed q = c.enc2 (μ.point2 q)
  /-- The hash of a message under the package tag is the canonical one. -/
  g2HashToCurve : ∀ m M, K.g2HashToCurve m dst = .ok M → μ.point2 M = c.hash m

/-- A toy herumi library for concrete evaluation that computes as `toyKilicLib r` does: a
secret key is a natural number below `r` read big-endian, a point is the natural number
of that multiple of the generator, and the compressed forms and the hash are those of
`toyKilicLib r`. -/
@[reducible] def toyCurveHerumiLib (r : Nat) : HerumiLib where
  SecretKey := Nat
  PublicKey := Nat
  Sign := Nat
  initError := none
  setETHmodeError := none
  secretKeyDeserialize := fun b =>
    if beValue b < r then .ok (beValue b) else .error "err"
  publicKeyDeserialize := (toyKilicLib r).g1FromCompressed
  publicKeyIsValidOrder := fun _ => true
  publicKeyIsZero := fun p => decide (p % r = 0)
  signDeserialize := (toyKilicLib r).g2FromCompressed
  signIsValidOrder := fun _ => true
  signIsZero := fun q => decide (q % r = 0)
  secretKeyIsEqual := fun a b => decide (a = b)
  secretKeyGetPublicKey := fun s => s
  secretKeySign := fun s m => s * beValue m
  secretKeySerialize := fun s => toBE s 32
  publicKeySerialize := (toyKilicLib r).g1ToCompressed
  publicKeyIsEqual := fun a b => decide (a % r = b % r)
  publicKeyNew := 0
  publicKeyAdd := fun a b => a + b
  signSerialize := (toyKilicLib r).g2ToCompressed
  signIsEqual := fun a b => decide (a % r = b % r)
  signVerify := fun sig pk m => decide ((pk * beValue m) % r = sig % r)
  signFastAggregateVerify := fun sig pks m => decide ((pks.sum * beValue m) % r = sig % r)
  signAggregateVerify := fun sig pks m => decide ((pks.sum * beValue m) % r = sig % r)
  signAggregate := fun sigs => sigs.sum

/-- A toy blst library for concrete evaluation, on the pattern of `toyCurveHerumiLib`. -/
@[reducible] def toyCurveBlstLib (r : Nat) : BlstLib where
  SecretKey := Nat
  P1Affine := Nat
  P2Affine := Nat
  secretKeyDeserialize := fun b => if beValue b < r then some (beValue b) else none
  p1Uncompress := fun b =>
    match b with
    | [] => none
    | _ :: rest => some (beValue rest)
  p1KeyValidate := fun p => !decide (p % r = 0)
  p2Uncompress := fun b =>
    match b with
    | [] => none
    | _ :: rest => some (beValue rest)
  p2KeyValidate := fun q => !decide (q % r = 0)
  secretKeyEquals := fun a b => decide (a = b)
  secretKeySerialize := fun s => toBE s 32
  p1From := fun s => s
  p1Compress := (toyKilicLib r).g1ToCompressed
  p1Equals := fun a b => decide (a % r = b % r)
  p2Sign := fun s m _ => s * beValue m
  p2Compress := (toyKilicLib r).g2ToCompressed
  p2Equals := fun a b => decide (a % r = b % r)
  p2Verify := fun sig _ pk _ m _ => decide ((pk * beValue m) % r = sig % r)
  p2FastAggregateVerify := fun sig _ pks m _ => decide ((pks.sum * beValue m) % r = sig % r)
  p2AggregateVerify := fun sig _ pks _ ms _ =>
    decide ((((pks.zip ms).map (fun pm => pm.1 * beValue pm.2)).sum) % r = sig % r)
  p1AggregateToAffine := fun ps => ps.sum
  p2AggregateToAffine := fun qs => qs.sum

/-- What the values of `toyCurveHerumiLib r` stand for. -/
def toyHerumiMeaning (r : Nat) : HerumiMeaning (toyCurveHerumiLib r) r where
  scalar := fun s => s
  point1 := fun p => (p : ZMod r)
  point2 := fun q => (q : ZMod r)

/-- What the values of `toyCurveBlstLib r` stand for. -/
def toyBlstMeaning (r : Nat) : BlstMeaning (toyCurveBlstLib r) r where
  scalar := fun s => s
  point1 := fun p => (p : ZMod r)
  point2 := fun q => (q : ZMod r)

/-- The canonical forms of the toy libraries: a flag byte (`0x80`, plus `0x40` for the
identity) followed by the reduced multiple, and the multiple the bytes of a message
denote as its hash. -/
def toyCanonical (r : Nat) : Canonical r where
  enc1 := fun x => Fin.ofNat (if x.val = 0 then 192 else 128) :: toBE x.val 47
  enc2 := fun x => Fin.ofNat (if x.val = 0 then 192 else 128) :: toBE x.val 95
  hash := fun m => (beValue m : ZMod r)

/-- Toy external libraries for concrete evaluation, the kilic one with groups of order 7
and a hash that sends no message to the identity. -/
@[reducible] def toyLibsH7 : Libs where
  herumi := toyHerumiLib
  blst := toyBlstLib
  kilic := toyKilicLibH 7

/-- Toy external libraries for concrete evaluation that agree with each other, with groups
of order 7. -/
@[reducible] def toyCurveLibs7 : Libs where
  herumi := toyCurveHerumiLib 7
  blst := toyCurveBlstLib 7
  kilic := toyKilicLib 7

end cross_bls

/-! ## Sample inputs -/

namespace cross_eip2537

open Go

/-- A raw 96-byte G1 point: `x` is 48 bytes `0x01`, `y` is 48 bytes `0x02`. -/
def sampleG1Raw : Bytes := List.replicate 48 1 ++ List.replicate 48 2

/-- A raw 192-byte G2 point with four distinguishable 48-byte coefficients. -/
def sampleG2Raw : Bytes :=
  List.replicate 48 1 ++ List.replicate 48 2 ++ List.replicate 48 3 ++ List.replicate 48 4

/-- A 256-byte ABI G2 point: four zero-padded field elements `x0, x1, y0, y1`. -/
def sampleG2Abi : Bytes :=
  make 16 ++ List.replicate 48 1 ++ make 16 ++ List.replicate 48 2
    ++ make 16 ++ List.replicate 48 3 ++ make 16 ++ List.replicate 48 4

/-- A 384-byte `KilicPairing` input for `toyKilic`: the pair `(2, 128)`, both operands in
the correct subgroup, with pairing product `2 * 128 = 0`. -/
def samplePairingInput : Bytes :=
  make 127 ++ [2] ++ (make 191 ++ [128] ++ make 64)

/-- A 768-byte `KilicPairing` input for `toyKilic`: the pair `(2, 4)`, both operands in the
correct subgroup, followed by the pair `(3, 4)`, whose G1 operand is not. -/
def samplePairingBadSecond : Bytes :=
  make 127 ++ [2] ++ (make 191 ++ [4] ++ make 64)
    ++ (make 127 ++ [3] ++ (make 191 ++ [4] ++ make 64))

/-- The raw 96 bytes of the `toyKilic` G1 point `3`. -/
def sampleToyG1Three : Bytes := make 95 ++ [3]

/-- The raw 96 bytes of the `toyKilic` G1 point `4`. -/
def sampleToyG1Four : Bytes := make 95 ++ [4]

end cross_eip2537

namespace cross_bls

open Go

/-- The package state `_init` leaves from the declared one with the toy libraries. -/
def sampleInitialised : Globals toyLibs where
  library := libHerumi
  infinitePublicKey := 0xc0 :: make 47
  infiniteSignature := 0xc0 :: make 95
  kilicGroupOrder := none
  blstInitialized := false
  kilicInitialized := false
  herumiInitialized := true

end cross_bls

/-! ## Lemmas -/

namespace Go

theorem slice_ok {ε : Type} (s : Bytes) (lo hi : Nat) (h1 : lo ≤ hi) (h2 : hi ≤ s.length) :
    (slice s lo hi : Res ε Bytes) = .ok ((s.take hi).drop lo) := by
  simp [slice, window, h1, h2]

theorem window_length (s : Bytes) (lo hi : Nat) (h : hi ≤ s.length) :
    (window s lo hi).length = hi - lo := by
  simp [window, List.length_drop, List.length_take, h]

/-- Adjacent windows concatenate. -/
theorem window_append (s : Bytes) (a b c : Nat) (hab : a ≤ b) (hbc : b ≤ c)
    (hc : c ≤ s.length) : window s a b ++ window s b c = window s a c := by
  unfold window
  have h1 : List.take b s = List.take b (List.take c s) := by
    rw [List.take_take, Nat.min_eq_left hbc]
  have h2 : (List.take b (List.take c s)).length = b := by
    rw [List.take_take, Nat.min_eq_left hbc, List.length_take]; omega
  conv_rhs => rw [← List.take_append_drop b (List.take c s)]
  rw [List.drop_append_eq_append_drop, h2, h1]
  have : a - b = 0 := by omega
  rw [this, List.drop_zero]

theorem window_full (s : Bytes) : window s 0 s.length = s := by
  simp [window]

theorem copyInto_ok {ε : Type} (dst : Bytes) (lo hi : Nat) (src : Bytes) (h1 : lo ≤ hi)
    (h2 : hi ≤ dst.length) :
    (copyInto dst lo hi src : Res ε Bytes)
      = .ok (dst.take lo ++ src.take (min (hi - lo) src.length)
          ++ dst.drop (lo + min (hi - lo) src.length)) := by
  simp [copyInto, h1, h2]

/-- Copying `src` into the window `[lo, hi)` of `pre ++ mid ++ post`, where `mid` starts at
offset `lo`, is as long as `src` and ends within the window, replaces `mid` by `src`. -/
theorem copyInto_window {ε : Type} (dst pre mid post src : Bytes) (lo hi : Nat)
    (hdst : dst = pre ++ mid ++ post)
    (hpre : pre.length = lo) (hmid : mid.length = src.length) (hfit : lo + src.length ≤ hi)
    (hhi : hi ≤ dst.length) :
    (copyInto dst lo hi src : Res ε Bytes) = .ok (pre ++ src ++ post) := by
  subst hdst
  rw [copyInto_ok _ _ _ _ (by omega) hhi]
  have h3 : min (hi - lo) src.length = src.length := by omega
  rw [h3, List.take_length]
  have h4 : List.take lo (pre ++ mid ++ post) = pre := by
    rw [List.append_assoc, ← hpre, List.take_left]
  have h5 : List.drop (lo + src.length) (pre ++ mid ++ post) = post := by
    have : lo + src.length = (pre ++ mid).length := by
      simp only [List.length_append]; omega
    rw [this, List.drop_left]
  rw [h4, h5]

/-- The slice `[lo, hi)` of `pre ++ mid ++ post`, where `mid` occupies exactly that range. -/
theorem slice_window {ε : Type} (s pre mid post : Bytes) (lo hi : Nat)
    (hs : s = pre ++ mid ++ post)
    (hpre : pre.length = lo) (hmid : lo + mid.length = hi) :
    (slice s lo hi : Res ε Bytes) = .ok mid := by
  subst hs
  have hlen : hi ≤ (pre ++ mid ++ post).length := by
    simp only [List.length_append]; omega
  rw [slice_ok _ _ _ (by omega) hlen]
  have h1 : List.take hi (pre ++ mid ++ post) = pre ++ mid := by
    have : hi = (pre ++ mid).length := by simp only [List.length_append]; omega
    rw [this, List.take_left]
  rw [h1, ← hpre, List.drop_left]

@[simp] theorem bind_ok {ε α β : Type} (a : α) (f : α → Res ε β) :
    (Res.ok a >>= f) = f a := rfl

@[simp] theorem bind_err {ε α β : Type} (e : ε) (f : α → Res ε β) :
    ((Res.err e : Res ε α) >>= f) = .err e := rfl

@[simp] theorem bind_panic {ε α β : Type} (f : α → Res ε β) :
    ((Res.panic : Res ε α) >>= f) = .panic := rfl

theorem length_make (n : Nat) : (make n).length = n := by
  simp [make]

theorem make_add (a b : Nat) : make (a + b) = make a ++ make b := by
  unfold make
  exact List.replicate_add a b 0

end Go

namespace cross_eip2537

open Go

theorem topBytesLoop_eq (inp : Bytes) (n : Nat) :
    ∀ i, i + n ≤ inp.length →
      topBytesLoop inp n i
        = if (inp.drop i).take n = List.replicate n 0 then .ok ()
          else .err .invalidFieldElementTopBytes := by
  induction n with
  | zero => intro i _; simp [topBytesLoop]
  | succ n ih =>
    intro i hi
    have hlt : i < inp.length := by omega
    have hd : inp.drop i = inp[i] :: inp.drop (i + 1) := List.drop_eq_getElem_cons hlt
    rw [topBytesLoop, hd, List.take_succ_cons, List.replicate_succ]
    simp only [index, List.get?_eq_getElem?, List.getElem?_eq_getElem hlt, List.cons.injEq]
    by_cases hb : inp[i] = 0
    · rw [ih (i + 1) (by omega)]
      simp only [hb, ne_eq, not_true_eq_false, if_false, true_and]
    · simp only [hb, ne_eq, not_false_eq_true, if_true, false_and, if_false]

/-- Closed form of `decodeFieldElement`. -/
theorem decodeFieldElement_eq (inp : Bytes) :
    decodeFieldElement inp
      = if inp.length = 64 then
          (if inp.take 16 = List.replicate 16 0 then .ok (inp.drop 16)
           else .err .invalidFieldElementTopBytes)
        else .err .invalidFieldElementLength := by
  unfold decodeFieldElement
  by_cases hlen : inp.length = 64
  · simp only [hlen, ne_eq, not_true_eq_false, if_false, if_true]
    have h := topBytesLoop_eq inp 16 0 (by omega)
    simp only [List.drop_zero] at h
    by_cases hz : inp.take 16 = List.replicate 16 0
    · simp only [hz, if_true] at h ⊢
      have hs : (sliceFrom inp 16 : Res Err Bytes) = .ok (inp.drop 16) := by
        unfold sliceFrom
        rw [slice_ok _ _ _ (by omega) (le_refl _), List.take_length]
      have hc : (copyFrom (make 48) 0 (inp.drop 16) : Res Err Bytes) = .ok (inp.drop 16) := by
        have := copyInto_window (ε := Err) (make 48) [] (make 48) [] (inp.drop 16) 0 48
          (by simp) rfl (by simp [length_make, hlen]) (by simp [hlen]) (by simp [length_make])
        rw [copyFrom, length_make]
        simpa only [List.nil_append, List.append_nil] using this
      simp only [bind_ok, h, hs, hc]
    · simp only [hz, if_false] at h ⊢
      simp only [bind_err, h]
  · simp [hlen]

/-- A 48-byte field element behind 16 zero bytes decodes to itself. -/
theorem decodeFieldElement_pad (x : Bytes) (hx : x.length = 48) :
    decodeFieldElement (make 16 ++ x) = .ok x := by
  rw [decodeFieldElement_eq]
  have h1 : (make 16 ++ x).length = 64 := by simp [length_make, hx]
  have h2 : (make 16 ++ x).take 16 = List.replicate 16 0 := by
    rw [List.take_left' (length_make 16)]; rfl
  have h3 : (make 16 ++ x).drop 16 = x := by
    rw [List.drop_left' (length_make 16)]
  simp only [h1, h2, h3, if_true]

/-- Closed form of `encodeG1Point` on a 96-byte point `x ++ y`. -/
theorem encodeG1Point_append (x y : Bytes) (hx : x.length = 48) (hy : y.length = 48) :
    encodeG1Point (x ++ y) = .ok (make 16 ++ x ++ make 16 ++ y) := by
  unfold encodeG1Point
  have s1 : (sliceTo (x ++ y) 48 : Res Err Bytes) = .ok x :=
    slice_window (x ++ y) [] x y 0 48 (by simp) rfl (by omega)
  have s2 : (sliceFrom (x ++ y) 48 : Res Err Bytes) = .ok y :=
    slice_window (x ++ y) x y [] 48 _ (by simp) hx (by simp [hx, hy])
  have c1 : (copyFrom (make 128) 16 x : Res Err Bytes) = .ok (make 16 ++ x ++ make 64) :=
    copyInto_window (make 128) (make 16) (make 48) (make 64) x 16 _
      (by rw [← make_add, ← make_add]) (length_make 16) (by rw [length_make, hx])
      (by rw [length_make, hx]; omega) (le_refl _)
  have c2 : (copyFrom (make 16 ++ x ++ make 64) (64 + 16) y : Res Err Bytes)
      = .ok (make 16 ++ x ++ make 16 ++ y) := by
    have := copyInto_window (ε := Err) (make 16 ++ x ++ make 64) (make 16 ++ x ++ make 16)
      (make 48) [] y (64 + 16) (make 16 ++ x ++ make 64).length
      (by rw [List.append_nil, List.append_assoc _ (make 16) (make 48), ← make_add])
      (by simp [length_make, hx]) (by rw [length_make, hy])
      (by simp [length_make, hx, hy]) (le_refl _)
    rw [copyFrom]
    simpa only [List.append_nil] using this
  simp only [bind_ok, s1, s2, c1, c2]

/-- Closed form of `decodeG1Point` on two padded field elements. -/
theorem decodeG1Point_pad (x y : Bytes) (hx : x.length = 48) (hy : y.length = 48) :
    decodeG1Point (make 16 ++ x ++ make 16 ++ y) = .ok (x ++ y) := by
  unfold decodeG1Point
  have hlen : (make 16 ++ x ++ make 16 ++ y).length = 128 := by simp [length_make, hx, hy]
  have s1 : (sliceTo (make 16 ++ x ++ make 16 ++ y) 64 : Res Err Bytes) = .ok (make 16 ++ x) :=
    slice_window _ [] (make 16 ++ x) (make 16 ++ y) 0 64 (by simp) rfl
      (by simp [length_make, hx])
  have s2 : (sliceFrom (make 16 ++ x ++ make 16 ++ y) 64 : Res Err Bytes)
      = .ok (make 16 ++ y) :=
    slice_window _ (make 16 ++ x) (make 16 ++ y) [] 64 _ (by simp)
      (by simp [length_make, hx]) (by simp [length_make, hx, hy])
  have c1 : (copyInto (make 96) 0 48 x : Res Err Bytes) = .ok (x ++ make 48) :=
    copyInto_window (make 96) [] (make 48) (make 48) x 0 48
      (by rw [List.nil_append, ← make_add]) rfl (by rw [length_make, hx])
      (by omega) (by rw [length_make]; omega)
  have c2 : (copyFrom (x ++ make 48) 48 y : Res Err Bytes) = .ok (x ++ y) := by
    have := copyInto_window (ε := Err) (x ++ make 48) x (make 48) [] y 48 (x ++ make 48).length
      (by simp) hx (by rw [length_make, hy]) (by simp [length_make, hx, hy]) (le_refl _)
    rw [copyFrom]
    simpa only [List.append_nil] using this
  simp only [hlen, ne_eq, not_true_eq_false, if_false, bind_ok, s1, s2,
    decodeFieldElement_pad x hx, decodeFieldElement_pad y hy, c1, c2]

/-- Closed form of `encodeG2Point` on a 192-byte point `a ++ b ++ c ++ d`. -/
theorem encodeG2Point_append (a b c d : Bytes) (ha : a.length = 48) (hb : b.length = 48)
    (hc : c.length = 48) (hd : d.length = 48) :
    encodeG2Point (a ++ b ++ c ++ d)
      = .ok (make 16 ++ b ++ make 16 ++ a ++ make 16 ++ d ++ make 16 ++ c) := by
  unfold encodeG2Point
  have m1 : make 256 = make 16 ++ make 48 ++ make 192 := by
    rw [← make_add, ← make_add]
  have m2 : make 192 = make 16 ++ make 48 ++ make 128 := by
    rw [← make_add, ← make_add]
  have m3 : make 128 = make 16 ++ make 48 ++ make 64 := by
    rw [← make_add, ← make_add]
  have m4 : make 64 = make 16 ++ make 48 := by
    rw [← make_add]
  have s1 : (slice (a ++ b ++ c ++ d) 48 96 : Res Err Bytes) = .ok b :=
    slice_window _ a b (c ++ d) 48 96 (by simp only [List.append_assoc]) ha (by omega)
  have s2 : (sliceTo (a ++ b ++ c ++ d) 48 : Res Err Bytes) = .ok a :=
    slice_window _ [] a (b ++ c ++ d) 0 48 (by simp only [List.append_assoc, List.nil_append])
      rfl (by omega)
  have s3 : (sliceFrom (a ++ b ++ c ++ d) 144 : Res Err Bytes) = .ok d :=
    slice_window _ (a ++ b ++ c) d [] 144 _ (by simp only [List.append_nil])
      (by simp only [List.length_append]; omega) (by simp only [List.length_append]; omega)
  have s4 : (slice (a ++ b ++ c ++ d) 96 144 : Res Err Bytes) = .ok c :=
    slice_window _ (a ++ b) c d 96 144 rfl
      (by simp only [List.length_append]; omega) (by omega)
  have c1 : (copyInto (make 256) 16 (16 + 48) b : Res Err Bytes)
      = .ok (make 16 ++ b ++ make 192) :=
    copyInto_window _ (make 16) (make 48) (make 192) b 16 _ m1 (length_make 16)
      (by rw [length_make, hb]) (by omega) (by rw [length_make]; omega)
  have c2 : (copyInto (make 16 ++ b ++ make 192) 80 (80 + 48) a : Res Err Bytes)
      = .ok (make 16 ++ b ++ make 16 ++ a ++ make 128) :=
    copyInto_window _ (make 16 ++ b ++ make 16) (make 48) (make 128) a 80 _
      (by rw [m2]; simp only [List.append_assoc])
      (by simp only [List.length_append, length_make]; omega) (by rw [length_make, ha])
      (by omega) (by simp only [List.length_append, length_make]; omega)
  have c3 : (copyInto (make 16 ++ b ++ make 16 ++ a ++ make 128) 144 (144 + 48) d
      : Res Err Bytes) = .ok (make 16 ++ b ++ make 16 ++ a ++ make 16 ++ d ++ make 64) :=
    copyInto_window _ (make 16 ++ b ++ make 16 ++ a ++ make 16) (make 48) (make 64) d 144 _
      (by rw [m3]; simp only [List.append_assoc])
      (by simp only [List.length_append, length_make]; omega) (by rw [length_make, hd])
      (by omega) (by simp only [List.length_append, length_make]; omega)
  have c4 : (copyInto (make 16 ++ b ++ make 16 ++ a ++ make 16 ++ d ++ make 64) 208 (208 + 48) c
      : Res Err Bytes)
      = .ok (make 16 ++ b ++ make 16 ++ a ++ make 16 ++ d ++ make 16 ++ c) := by
    have := copyInto_window (ε := Err)
      (make 16 ++ b ++ make 16 ++ a ++ make 16 ++ d ++ make 64)
      (make 16 ++ b ++ make 16 ++ a ++ make 16 ++ d ++ make 16) (make 48) [] c 208 (208 + 48)
      (by rw [m4]; simp only [List.append_assoc, List.append_nil])
      (by simp only [List.length_append, length_make]; omega) (by rw [length_make, hc])
      (by omega) (by simp only [List.length_append, length_make]; omega)
    simpa only [List.append_nil] using this
  simp only [bind_ok, s1, s2, s3, s4, c1, c2, c3, c4]

/-- Closed form of `decodeG2Point` on four padded field elements. -/
theorem decodeG2Point_pad (x0 x1 y0 y1 : Bytes) (h0 : x0.length = 48) (h1 : x1.length = 48)
    (h2 : y0.length = 48) (h3 : y1.length = 48) :
    decodeG2Point (make 16 ++ x0 ++ make 16 ++ x1 ++ make 16 ++ y0 ++ make 16 ++ y1)
      = .ok (x1 ++ x0 ++ y1 ++ y0) := by
  unfold decodeG2Point
  have hlen : (make 16 ++ x0 ++ make 16 ++ x1 ++ make 16 ++ y0 ++ make 16 ++ y1).length
      = 256 := by
    simp only [List.length_append, length_make]; omega
  have m1 : make 192 = make 48 ++ make 48 ++ make 48 ++ make 48 := by
    rw [← make_add, ← make_add, ← make_add]
  have s1 : (sliceTo (make 16 ++ x0 ++ make 16 ++ x1 ++ make 16 ++ y0 ++ make 16 ++ y1) 64
      : Res Err Bytes) = .ok (make 16 ++ x0) :=
    slice_window _ [] (make 16 ++ x0) (make 16 ++ x1 ++ make 16 ++ y0 ++ make 16 ++ y1) 0 64
      (by simp only [List.append_assoc, List.nil_append]) rfl
      (by simp only [List.length_append, length_make]; omega)
  have s2 : (slice (make 16 ++ x0 ++ make 16 ++ x1 ++ make 16 ++ y0 ++ make 16 ++ y1) 64 128
      : Res Err Bytes) = .ok (make 16 ++ x1) :=
    slice_window _ (make 16 ++ x0) (make 16 ++ x1) (make 16 ++ y0 ++ make 16 ++ y1) 64 128
      (by simp only [List.append_assoc])
      (by simp only [List.length_append, length_make]; omega)
      (by simp only [List.length_append, length_make]; omega)
  have s3 : (slice (make 16 ++ x0 ++ make 16 ++ x1 ++ make 16 ++ y0 ++ make 16 ++ y1) 128 192
      : Res Err Bytes) = .ok (make 16 ++ y0) :=
    slice_window _ (make 16 ++ x0 ++ make 16 ++ x1) (make 16 ++ y0) (make 16 ++ y1) 128 192
      (by simp only [List.append_assoc])
      (by simp only [List.length_append, length_make]; omega)
      (by simp only [List.length_append, length_make]; omega)
  have s4 : (sliceFrom (make 16 ++ x0 ++ make 16 ++ x1 ++ make 16 ++ y0 ++ make 16 ++ y1) 192
      : Res Err Bytes) = .ok (make 16 ++ y1) :=
    slice_window _ (make 16 ++ x0 ++ make 16 ++ x1 ++ make 16 ++ y0) (make 16 ++ y1) [] 192 _
      (by simp only [List.append_assoc, List.append_nil])
      (by simp only [List.length_append, length_make]; omega)
      (by simp only [List.length_append, length_make]; omega)
  have c1 : (copyInto (make 192) 0 48 x1 : Res Err Bytes)
      = .ok (x1 ++ make 48 ++ make 48 ++ make 48) := by
    have := copyInto_window (ε := Err) (make 192) [] (make 48) (make 48 ++ make 48 ++ make 48)
      x1 0 48 (by rw [m1]; simp only [List.append_assoc, List.nil_append]) rfl
      (by rw [length_make, h1]) (by omega) (by rw [length_make]; omega)
    simpa only [List.nil_append, List.append_assoc] using this
  have c2 : (copyInto (x1 ++ make 48 ++ make 48 ++ make 48) 48 96 x0 : Res Err Bytes)
      = .ok (x1 ++ x0 ++ make 48 ++ make 48) := by
    have := copyInto_window (ε := Err) (x1 ++ make 48 ++ make 48 ++ make 48) x1 (make 48)
      (make 48 ++ make 48) x0 48 96 (by simp only [List.append_assoc]) h1
      (by rw [length_make, h0]) (by omega)
      (by simp only [List.length_append, length_make]; omega)
    simpa only [List.append_assoc] using this
  have c3 : (copyInto (x1 ++ x0 ++ make 48 ++ make 48) 96 144 y1 : Res Err Bytes)
      = .ok (x1 ++ x0 ++ y1 ++ make 48) :=
    copyInto_window _ (x1 ++ x0) (make 48) (make 48) y1 96 144 rfl
      (by simp only [List.length_append]; omega) (by rw [length_make, h3]) (by omega)
      (by simp only [List.length_append, length_make]; omega)
  have c4 : (copyInto (x1 ++ x0 ++ y1 ++ make 48) 144 192 y0 : Res Err Bytes)
      = .ok (x1 ++ x0 ++ y1 ++ y0) := by
    have := copyInto_window (ε := Err) (x1 ++ x0 ++ y1 ++ make 48) (x1 ++ x0 ++ y1) (make 48) []
      y0 144 192 (by simp only [List.append_nil])
      (by simp only [List.length_append]; omega) (by rw [length_make, h2]) (by omega)
      (by simp only [List.length_append, length_make]; omega)
    simpa only [List.append_nil] using this
  simp only [hlen, ne_eq, not_true_eq_false, if_false, bind_ok, s1, s2, s3, s4,
    decodeFieldElement_pad x0 h0, decodeFieldElement_pad x1 h1, decodeFieldElement_pad y0 h2,
    decodeFieldElement_pad y1 h3, c1, c2, c3, c4]

/-- A 96-byte slice is the concatenation of its two 48-byte halves. -/
theorem split96 (p : Bytes) (hp : p.length = 96) : p = window p 0 48 ++ window p 48 96 := by
  rw [window_append p 0 48 96 (by omega) (by omega) (by omega), ← hp, window_full]

/-- A 192-byte slice is the concatenation of its four 48-byte quarters. -/
theorem split192 (p : Bytes) (hp : p.length = 192) :
    p = window p 0 48 ++ window p 48 96 ++ window p 96 144 ++ window p 144 192 := by
  rw [window_append p 0 48 96 (by omega) (by omega) (by omega),
    window_append p 0 96 144 (by omega) (by omega) (by omega),
    window_append p 0 144 192 (by omega) (by omega) (by omega), ← hp, window_full]

/-- A 256-byte slice is the concatenation of eight windows: pad and value of four
field elements. -/
theorem split256 (p : Bytes) (hp : p.length = 256) :
    p = window p 0 16 ++ window p 16 64 ++ window p 64 80 ++ window p 80 128
        ++ window p 128 144 ++ window p 144 192 ++ window p 192 208 ++ window p 208 256 := by
  rw [window_append p 0 16 64 (by omega) (by omega) (by omega),
    window_append p 0 64 80 (by omega) (by omega) (by omega),
    window_append p 0 80 128 (by omega) (by omega) (by omega),
    window_append p 0 128 144 (by omega) (by omega) (by omega),
    window_append p 0 144 192 (by omega) (by omega) (by omega),
    window_append p 0 192 208 (by omega) (by omega) (by omega),
    window_append p 0 208 256 (by omega) (by omega) (by omega), ← hp, window_full]

/-- Round trip of the G1 codec on 96 raw bytes. -/
theorem decodeG1Point_encodeG1Point (p : Bytes) (hp : p.length = 96) :
    encodeG1Point p = .ok (make 16 ++ window p 0 48 ++ make 16 ++ window p 48 96)
      ∧ decodeG1Point (make 16 ++ window p 0 48 ++ make 16 ++ window p 48 96) = .ok p := by
  have hx : (window p 0 48).length = 48 := by rw [window_length _ _ _ (by omega)]
  have hy : (window p 48 96).length = 48 := by rw [window_length _ _ _ (by omega)]
  constructor
  · conv_lhs => rw [split96 p hp]
    exact encodeG1Point_append _ _ hx hy
  · rw [decodeG1Point_pad _ _ hx hy, ← split96 p hp]

theorem notLengthErr_bind {α β : Type} (x : Res Err α) (f : α → Res Err β)
    (hx : NotLengthErr x) (hf : ∀ a, NotLengthErr (f a)) : NotLengthErr (x >>= f) := by
  cases x with
  | ok a => exact hf a
  | err e =>
    intro h
    simp only [bind_err, Res.err.injEq] at h
    exact hx (by rw [h])
  | panic =>
    intro h
    simp only [bind_panic] at h
    cases h

theorem notLengthErr_err {α : Type} (e : Err) :
    NotLengthErr (Res.err e : Res Err α) ↔ e ≠ .errEIP2537InvalidInputLength := by
  unfold NotLengthErr
  simp only [ne_eq, Res.err.injEq]

theorem notLengthErr_slice (s : Bytes) (lo hi : Nat) :
    NotLengthErr (slice s lo hi : Res Err Bytes) := by
  unfold NotLengthErr Go.slice
  split <;> intro h <;> cases h

theorem notLengthErr_sliceTo (s : Bytes) (hi : Nat) :
    NotLengthErr (sliceTo s hi : Res Err Bytes) := notLengthErr_slice _ _ _

theorem notLengthErr_sliceFrom (s : Bytes) (lo : Nat) :
    NotLengthErr (sliceFrom s lo : Res Err Bytes) := notLengthErr_slice _ _ _

theorem notLengthErr_copyInto (dst : Bytes) (lo hi : Nat) (src : Bytes) :
    NotLengthErr (copyInto dst lo hi src : Res Err Bytes) := by
  unfold NotLengthErr copyInto
  split <;> intro h <;> cases h

theorem notLengthErr_copyFrom (dst : Bytes) (lo : Nat) (src : Bytes) :
    NotLengthErr (copyFrom dst lo src : Res Err Bytes) := notLengthErr_copyInto _ _ _ _

theorem notLengthErr_setIndex (s : Bytes) (i : Nat) (b : Byte) :
    NotLengthErr (setIndex s i b : Res Err Bytes) := by
  unfold NotLengthErr setIndex
  split <;> intro h <;> cases h

theorem notLengthErr_ofEngine {α : Type} (x : Except String α) :
    NotLengthErr (ofEngine x) := by
  cases x <;> intro h <;> cases h

theorem notLengthErr_decodeFieldElement (inp : Bytes) :
    NotLengthErr (decodeFieldElement inp) := by
  unfold NotLengthErr
  rw [decodeFieldElement_eq]
  split
  · split <;> intro h <;> cases h
  · intro h; cases h

theorem notLengthErr_decodeG1Point (inp : Bytes) : NotLengthErr (decodeG1Point inp) := by
  unfold decodeG1Point
  split
  · intro h; cases h
  · refine notLengthErr_bind _ _ (notLengthErr_sliceTo _ _) fun _ => ?_
    refine notLengthErr_bind _ _ (notLengthErr_decodeFieldElement _) fun _ => ?_
    refine notLengthErr_bind _ _ (notLengthErr_sliceFrom _ _) fun _ => ?_
    refine notLengthErr_bind _ _ (notLengthErr_decodeFieldElement _) fun _ => ?_
    refine notLengthErr_bind _ _ (notLengthErr_copyInto _ _ _ _) fun _ => ?_
    exact notLengthErr_copyFrom _ _ _

theorem notLengthErr_decodeG2Point (inp : Bytes) : NotLengthErr (decodeG2Point inp) := by
  unfold decodeG2Point
  split
  · intro h; cases h
  · refine notLengthErr_bind _ _ (notLengthErr_sliceTo _ _) fun _ => ?_
    refine notLengthErr_bind _ _ (notLengthErr_decodeFieldElement _) fun _ => ?_
    refine notLengthErr_bind _ _ (notLengthErr_slice _ _ _) fun _ => ?_
    refine notLengthErr_bind _ _ (notLengthErr_decodeFieldElement _) fun _ => ?_
    refine notLengthErr_bind _ _ (notLengthErr_slice _ _ _) fun _ => ?_
    refine notLengthErr_bind _ _ (notLengthErr_decodeFieldElement _) fun _ => ?_
    refine notLengthErr_bind _ _ (notLengthErr_sliceFrom _ _) fun _ => ?_
    refine notLengthErr_bind _ _ (notLengthErr_decodeFieldElement _) fun _ => ?_
    refine notLengthErr_bind _ _ (notLengthErr_copyInto _ _ _ _) fun _ => ?_
    refine notLengthErr_bind _ _ (notLengthErr_copyInto _ _ _ _) fun _ => ?_
    refine notLengthErr_bind _ _ (notLengthErr_copyInto _ _ _ _) fun _ => ?_
    exact notLengthErr_copyInto _ _ _ _

theorem notLengthErr_encodeG1Point (outRaw : Bytes) : NotLengthErr (encodeG1Point outRaw) := by
  unfold encodeG1Point
  refine notLengthErr_bind _ _ (notLengthErr_sliceTo _ _) fun _ => ?_
  refine notLengthErr_bind _ _ (notLengthErr_copyFrom _ _ _) fun _ => ?_
  refine notLengthErr_bind _ _ (notLengthErr_sliceFrom _ _) fun _ => ?_
  exact notLengthErr_copyFrom _ _ _

theorem notLengthErr_encodeG2Point (outRaw : Bytes) : NotLengthErr (encodeG2Point outRaw) := by
  unfold encodeG2Point
  refine notLengthErr_bind _ _ (notLengthErr_slice _ _ _) fun _ => ?_
  refine notLengthErr_bind _ _ (notLengthErr_copyInto _ _ _ _) fun _ => ?_
  refine notLengthErr_bind _ _ (notLengthErr_sliceTo _ _) fun _ => ?_
  refine notLengthErr_bind _ _ (notLengthErr_copyInto _ _ _ _) fun _ => ?_
  refine notLengthErr_bind _ _ (notLengthErr_sliceFrom _ _) fun _ => ?_
  refine notLengthErr_bind _ _ (notLengthErr_copyInto _ _ _ _) fun _ => ?_
  refine notLengthErr_bind _ _ (notLengthErr_slice _ _ _) fun _ => ?_
  exact notLengthErr_copyInto _ _ _ _

theorem notLengthErr_g1MultiExpLoop (K : Kilic) (input : Bytes) (n : Nat) :
    ∀ i points scalars, NotLengthErr (g1MultiExpLoop K input n i points scalars) := by
  induction n with
  | zero => intro i points scalars h; cases h
  | succ n ih =>
    intro i points scalars
    unfold g1MultiExpLoop
    refine notLengthErr_bind _ _ (notLengthErr_slice _ _ _) fun _ => ?_
    refine notLengthErr_bind _ _ (notLengthErr_decodeG1Point _) fun _ => ?_
    refine notLengthErr_bind _ _ (notLengthErr_ofEngine _) fun _ => ?_
    refine notLengthErr_bind _ _ (notLengthErr_slice _ _ _) fun _ => ?_
    exact ih _ _ _

theorem notLengthErr_g2MultiExpLoop (K : Kilic) (input : Bytes) (n : Nat) :
    ∀ i points scalars, NotLengthErr (g2MultiExpLoop K input n i points scalars) := by
  induction n with
  | zero => intro i points scalars h; cases h
  | succ n ih =>
    intro i points scalars
    unfold g2MultiExpLoop
    refine notLengthErr_bind _ _ (notLengthErr_slice _ _ _) fun _ => ?_
    refine notLengthErr_bind _ _ (notLengthErr_decodeG2Point _) fun _ => ?_
    refine notLengthErr_bind _ _ (notLengthErr_ofEngine _) fun _ => ?_
    refine notLengthErr_bind _ _ (notLengthErr_slice _ _ _) fun _ => ?_
    exact ih _ _ _

theorem notLengthErr_decodePair (K : Kilic) (input : Bytes) (i : Nat) :
    NotLengthErr (decodePair K input i) := by
  unfold decodePair
  refine notLengthErr_bind _ _ (notLengthErr_slice _ _ _) fun _ => ?_
  refine notLengthErr_bind _ _ (notLengthErr_decodeG1Point _) fun _ => ?_
  refine notLengthErr_bind _ _ (notLengthErr_ofEngine _) fun _ => ?_
  refine notLengthErr_bind _ _ (notLengthErr_slice _ _ _) fun _ => ?_
  refine notLengthErr_bind _ _ (notLengthErr_decodeG2Point _) fun _ => ?_
  refine notLengthErr_bind _ _ (notLengthErr_ofEngine _) fun _ => ?_
  intro h; cases h

theorem notLengthErr_subgroupChecks (K : Kilic) (p1 : K.PointG1) (p2 : K.PointG2) :
    NotLengthErr (subgroupChecks K p1 p2) := by
  unfold subgroupChecks
  split
  · intro h; cases h
  · split <;> intro h <;> cases h

theorem pairingLoop_zero (K : Kilic) (input : Bytes) (i : Nat) (e : K.Engine) :
    pairingLoop K input 0 i e = (.ok (), e) := rfl

/-- One iteration of the pairing loop that passes decoding and both subgroup checks. -/
theorem pairingLoop_succ_ok (K : Kilic) (input : Bytes) (n i : Nat) (e : K.Engine)
    (p1 : K.PointG1) (p2 : K.PointG2) (hdec : decodePair K input i = .ok (p1, p2))
    (hsub : subgroupChecks K p1 p2 = .ok ()) :
    pairingLoop K input (n + 1) i e = pairingLoop K input n (i + 1) (K.addPair e p1 p2) := by
  rw [pairingLoop, hdec]
  dsimp only
  rw [hsub]

/-- One iteration of the pairing loop that passes decoding and fails a subgroup check. -/
theorem pairingLoop_succ_subgroup (K : Kilic) (input : Bytes) (n i : Nat) (e : K.Engine)
    (p1 : K.PointG1) (p2 : K.PointG2) (err : Err) (hdec : decodePair K input i = .ok (p1, p2))
    (hsub : subgroupChecks K p1 p2 = .err err) :
    pairingLoop K input (n + 1) i e = (.err err, e) := by
  rw [pairingLoop, hdec]
  dsimp only
  rw [hsub]

theorem pairingLoop_succ_subgroup_panic (K : Kilic) (input : Bytes) (n i : Nat) (e : K.Engine)
    (p1 : K.PointG1) (p2 : K.PointG2) (hdec : decodePair K input i = .ok (p1, p2))
    (hsub : subgroupChecks K p1 p2 = .panic) :
    pairingLoop K input (n + 1) i e = (.panic, e) := by
  rw [pairingLoop, hdec]
  dsimp only
  rw [hsub]

theorem pairingLoop_succ_err (K : Kilic) (input : Bytes) (n i : Nat) (e : K.Engine)
    (err : Err) (hdec : decodePair K input i = .err err) :
    pairingLoop K input (n + 1) i e = (.err err, e) := by
  rw [pairingLoop, hdec]

theorem pairingLoop_succ_panic (K : Kilic) (input : Bytes) (n i : Nat) (e : K.Engine)
    (hdec : decodePair K input i = .panic) :
    pairingLoop K input (n + 1) i e = (.panic, e) := by
  rw [pairingLoop, hdec]

theorem pairingRun_ok (K : Kilic) (input : Bytes) (k : Nat) (e : K.Engine)
    (h : pairingLoop K input k 0 K.newEngine = (.ok (), e)) :
    pairingRun K input k
      = if K.check e then (setIndex (make 32) 31 1, e) else (.ok (make 32), e) := by
  simp only [pairingRun, h]

theorem pairingRun_err (K : Kilic) (input : Bytes) (k : Nat) (e : K.Engine) (err : Err)
    (h : pairingLoop K input k 0 K.newEngine = (.err err, e)) :
    pairingRun K input k = (.err err, e) := by
  simp only [pairingRun, h]

theorem pairingRun_panic (K : Kilic) (input : Bytes) (k : Nat) (e : K.Engine)
    (h : pairingLoop K input k 0 K.newEngine = (.panic, e)) :
    pairingRun K input k = (.panic, e) := by
  simp only [pairingRun, h]

theorem notLengthErr_pairingLoop (K : Kilic) (input : Bytes) (n : Nat) :
    ∀ i e, NotLengthErr (pairingLoop K input n i e).1 := by
  induction n with
  | zero => intro i e h; cases h
  | succ n ih =>
    intro i e
    have hd := notLengthErr_decodePair K input i
    cases hdec : decodePair K input i with
    | ok p =>
      obtain ⟨p1, p2⟩ := p
      have hs := notLengthErr_subgroupChecks K p1 p2
      cases hsub : subgroupChecks K p1 p2 with
      | ok u => rw [pairingLoop_succ_ok K input n i e p1 p2 hdec hsub]; exact ih _ _
      | err err =>
        rw [pairingLoop_succ_subgroup K input n i e p1 p2 err hdec hsub]
        rw [hsub, notLengthErr_err] at hs
        exact (notLengthErr_err err).mpr hs
      | panic =>
        rw [pairingLoop_succ_subgroup_panic K input n i e p1 p2 hdec hsub]
        intro h; cases h
    | err err =>
      rw [pairingLoop_succ_err K input n i e err hdec]
      rw [hdec, notLengthErr_err] at hd
      exact (notLengthErr_err err).mpr hd
    | panic =>
      rw [pairingLoop_succ_panic K input n i e hdec]
      intro h; cases h

theorem notLengthErr_pairingRun (K : Kilic) (input : Bytes) (k : Nat) :
    NotLengthErr (pairingRun K input k).1 := by
  have hl := notLengthErr_pairingLoop K input k 0 K.newEngine
  cases hloop : pairingLoop K input k 0 K.newEngine with
  | mk o e =>
    rw [hloop] at hl
    cases o with
    | ok u =>
      rw [pairingRun_ok K input k e hloop]
      by_cases hc : K.check e = true
      · rw [if_pos hc]; exact notLengthErr_setIndex (make 32) 31 1
      · rw [if_neg hc]; intro h; cases h
    | err err =>
      rw [pairingRun_err K input k e err hloop]
      exact (notLengthErr_err err).mpr ((notLengthErr_err err).mp hl)
    | panic => rw [pairingRun_panic K input k e hloop]; intro h; cases h

theorem not_multiple_iff (n m : Nat) (hm : 0 < m) :
    (n = 0 ∨ n % m ≠ 0) ↔ ¬ ∃ k, 1 ≤ k ∧ n = m * k := by
  constructor
  · rintro h ⟨k, hk, rfl⟩
    rcases h with h | h
    · have := Nat.mul_pos hm hk
      omega
    · exact h (Nat.mul_mod_right m k)
  · intro h
    by_contra hc
    push_neg at hc
    obtain ⟨h0, h1⟩ := hc
    apply h
    refine ⟨n / m, ?_, ?_⟩
    · exact (Nat.one_le_div_iff hm).mpr (Nat.le_of_dvd (Nat.pos_of_ne_zero h0)
        (Nat.dvd_of_mod_eq_zero h1))
    · exact (Nat.mul_div_cancel' (Nat.dvd_of_mod_eq_zero h1)).symm

theorem KilicG1Add_length (K : Kilic) (input : Bytes) :
    KilicG1Add K input = .err .errEIP2537InvalidInputLength ↔ input.length ≠ 256 := by
  unfold KilicG1Add
  by_cases h : input.length ≠ 256
  · rw [if_pos h]
    exact iff_of_true rfl h
  · rw [if_neg h]
    refine iff_of_false ?_ h
    refine notLengthErr_bind _ _ (notLengthErr_sliceTo _ _) fun _ => ?_
    refine notLengthErr_bind _ _ (notLengthErr_decodeG1Point _) fun _ => ?_
    refine notLengthErr_bind _ _ (notLengthErr_ofEngine _) fun _ => ?_
    refine notLengthErr_bind _ _ (notLengthErr_sliceFrom _ _) fun _ => ?_
    refine notLengthErr_bind _ _ (notLengthErr_decodeG1Point _) fun _ => ?_
    refine notLengthErr_bind _ _ (notLengthErr_ofEngine _) fun _ => ?_
    exact notLengthErr_encodeG1Point _

theorem KilicG1Mul_length (K : Kilic) (input : Bytes) :
    KilicG1Mul K input = .err .errEIP2537InvalidInputLength ↔ input.length ≠ 160 := by
  unfold KilicG1Mul
  by_cases h : input.length ≠ 160
  · rw [if_pos h]
    exact iff_of_true rfl h
  · rw [if_neg h]
    refine iff_of_false ?_ h
    refine notLengthErr_bind _ _ (notLengthErr_sliceTo _ _) fun _ => ?_
    refine notLengthErr_bind _ _ (notLengthErr_decodeG1Point _) fun _ => ?_
    refine notLengthErr_bind _ _ (notLengthErr_ofEngine _) fun _ => ?_
    refine notLengthErr_bind _ _ (notLengthErr_sliceFrom _ _) fun _ => ?_
    exact notLengthErr_encodeG1Point _

theorem KilicG2Add_length (K : Kilic) (input : Bytes) :
    KilicG2Add K input = .err .errEIP2537InvalidInputLength ↔ input.length ≠ 512 := by
  unfold KilicG2Add
  by_cases h : input.length ≠ 512
  · rw [if_pos h]
    exact iff_of_true rfl h
  · rw [if_neg h]
    refine iff_of_false ?_ h
    refine notLengthErr_bind _ _ (notLengthErr_sliceTo _ _) fun _ => ?_
    refine notLengthErr_bind _ _ (notLengthErr_decodeG2Point _) fun _ => ?_
    refine notLengthErr_bind _ _ (notLengthErr_ofEngine _) fun _ => ?_
    refine notLengthErr_bind _ _ (notLengthErr_sliceFrom _ _) fun _ => ?_
    refine notLengthErr_bind _ _ (notLengthErr_decodeG2Point _) fun _ => ?_
    refine notLengthErr_bind _ _ (notLengthErr_ofEngine _) fun _ => ?_
    exact notLengthErr_encodeG2Point _

theorem KilicG2Mul_length (K : Kilic) (input : Bytes) :
    KilicG2Mul K input = .err .errEIP2537InvalidInputLength ↔ input.length ≠ 288 := by
  unfold KilicG2Mul
  by_cases h : input.length ≠ 288
  · rw [if_pos h]
    exact iff_of_true rfl h
  · rw [if_neg h]
    refine iff_of_false ?_ h
    refine notLengthErr_bind _ _ (notLengthErr_sliceTo _ _) fun _ => ?_
    refine notLengthErr_bind _ _ (notLengthErr_decodeG2Point _) fun _ => ?_
    refine notLengthErr_bind _ _ (notLengthErr_ofEngine _) fun _ => ?_
    refine notLengthErr_bind _ _ (notLengthErr_sliceFrom _ _) fun _ => ?_
    exact notLengthErr_encodeG2Point _

theorem KilicMapG1_length (K : Kilic) (input : Bytes) :
    KilicMapG1 K input = .err .errEIP2537InvalidInputLength ↔ input.length ≠ 64 := by
  unfold KilicMapG1
  by_cases h : input.length ≠ 64
  · rw [if_pos h]
    exact iff_of_true rfl h
  · rw [if_neg h]
    refine iff_of_false ?_ h
    refine notLengthErr_bind _ _ (notLengthErr_decodeFieldElement _) fun _ => ?_
    refine notLengthErr_bind _ _ (notLengthErr_ofEngine _) fun _ => ?_
    exact notLengthErr_encodeG1Point _

theorem KilicMapG2_length (K : Kilic) (input : Bytes) :
    KilicMapG2 K input = .err .errEIP2537InvalidInputLength ↔ input.length ≠ 128 := by
  unfold KilicMapG2
  by_cases h : input.length ≠ 128
  · rw [if_pos h]
    exact iff_of_true rfl h
  · rw [if_neg h]
    refine iff_of_false ?_ h
    refine notLengthErr_bind _ _ (notLengthErr_sliceTo _ _) fun _ => ?_
    refine notLengthErr_bind _ _ (notLengthErr_decodeFieldElement _) fun _ => ?_
    refine notLengthErr_bind _ _ (notLengthErr_copyFrom _ _ _) fun _ => ?_
    refine notLengthErr_bind _ _ (notLengthErr_sliceFrom _ _) fun _ => ?_
    refine notLengthErr_bind _ _ (notLengthErr_decodeFieldElement _) fun _ => ?_
    refine notLengthErr_bind _ _ (notLengthErr_copyInto _ _ _ _) fun _ => ?_
    refine notLengthErr_bind _ _ (notLengthErr_ofEngine _) fun _ => ?_
    exact notLengthErr_encodeG2Point _

theorem KilicG1MultiExp_length (K : Kilic) (input : Bytes) :
    KilicG1MultiExp K input = .err .errEIP2537InvalidInputLength
      ↔ ¬ ∃ k, 1 ≤ k ∧ input.length = 160 * k := by
  rw [← not_multiple_iff _ 160 (by omega)]
  unfold KilicG1MultiExp
  by_cases h : input.length = 0 ∨ input.length % 160 ≠ 0
  · simp only [if_pos h]
    exact iff_of_true trivial h
  · simp only [if_neg h]
    refine iff_of_false ?_ h
    refine notLengthErr_bind _ _ (notLengthErr_g1MultiExpLoop K input _ _ _ _) fun x => ?_
    exact notLengthErr_encodeG1Point _

theorem KilicG2MultiExp_length (K : Kilic) (input : Bytes) :
    KilicG2MultiExp K input = .err .errEIP2537InvalidInputLength
      ↔ ¬ ∃ k, 1 ≤ k ∧ input.length = 288 * k := by
  rw [← not_multiple_iff _ 288 (by omega)]
  unfold KilicG2MultiExp
  by_cases h : input.length = 0 ∨ input.length % 288 ≠ 0
  · simp only [if_pos h]
    exact iff_of_true trivial h
  · simp only [if_neg h]
    refine iff_of_false ?_ h
    refine notLengthErr_bind _ _ (notLengthErr_g2MultiExpLoop K input _ _ _ _) fun x => ?_
    exact notLengthErr_encodeG2Point _

theorem KilicPairing_length (K : Kilic) (input : Bytes) :
    KilicPairing K input = .err .errEIP2537InvalidInputLength
      ↔ ¬ ∃ k, 1 ≤ k ∧ input.length = 384 * k := by
  rw [← not_multiple_iff _ 384 (by omega)]
  unfold KilicPairing
  by_cases h : input.length = 0 ∨ input.length % 384 ≠ 0
  · simp only [if_pos h]
    exact iff_of_true trivial h
  · simp only [if_neg h]
    exact iff_of_false (notLengthErr_pairingRun K input _) h

theorem subgroupChecks_of_inSubgroups (K : Kilic) (p : K.PointG1 × K.PointG2)
    (h : inSubgroups K p = true) : subgroupChecks K p.1 p.2 = .ok () := by
  unfold inSubgroups at h
  rw [Bool.and_eq_true] at h
  simp only [subgroupChecks, h.1, h.2, Bool.not_true, Bool.false_eq_true, if_false]

theorem subgroupChecks_of_not_inSubgroups (K : Kilic) (p : K.PointG1 × K.PointG2)
    (h : inSubgroups K p = false) :
    subgroupChecks K p.1 p.2 = .err .errEIP2537G1PointSubgroup
      ∨ subgroupChecks K p.1 p.2 = .err .errEIP2537G2PointSubgroup := by
  unfold inSubgroups at h
  unfold subgroupChecks
  cases h1 : K.g1InCorrectSubgroup p.1
  · left; rfl
  · right
    rw [h1, Bool.true_and] at h
    simp only [h, Bool.not_true, Bool.not_false, Bool.false_eq_true, if_false, if_true]

theorem inSubgroups_of_subgroupChecks (K : Kilic) (p : K.PointG1 × K.PointG2)
    (h : subgroupChecks K p.1 p.2 = .ok ()) : inSubgroups K p = true := by
  cases hin : inSubgroups K p
  · rcases subgroupChecks_of_not_inSubgroups K p hin with h' | h' <;> rw [h'] at h <;> cases h
  · rfl

/-- The pairing loop on pairs that all decode: it accumulates the pairs as long as they pass
the subgroup checks and stops with a subgroup error at the first that does not. -/
theorem pairingLoop_decoded (K : Kilic) (input : Bytes) :
    ∀ (ps : List (K.PointG1 × K.PointG2)) (i : Nat) (e : K.Engine),
      (∀ j (hj : j < ps.length), decodePair K input (i + j) = .ok ps[j]) →
      (ps.all (inSubgroups K) = true →
          pairingLoop K input ps.length i e = (.ok (), addPairs K e ps))
      ∧ (ps.all (inSubgroups K) = false →
          (pairingLoop K input ps.length i e).2 = addPairs K e (ps.takeWhile (inSubgroups K))
          ∧ ((pairingLoop K input ps.length i e).1 = .err .errEIP2537G1PointSubgroup
            ∨ (pairingLoop K input ps.length i e).1 = .err .errEIP2537G2PointSubgroup)) := by
  intro ps
  induction ps with
  | nil =>
    intro i e _
    constructor
    · intro _; rfl
    · intro h; simp only [List.all_nil] at h; cases h
  | cons p ps ih =>
    intro i e hdec
    have h0 : decodePair K input i = .ok (p.1, p.2) := by
      have := hdec 0 (by simp only [List.length_cons]; omega)
      simpa only [Nat.add_zero, List.getElem_cons_zero] using this
    have htl : ∀ j (hj : j < ps.length), decodePair K input (i + 1 + j) = .ok ps[j] := by
      intro j hj
      have := hdec (j + 1) (by simp only [List.length_cons]; omega)
      simpa only [List.getElem_cons_succ, Nat.add_assoc, Nat.add_comm 1 j] using this
    cases hin : inSubgroups K p
    · -- the first pair fails a subgroup check
      constructor
      · intro hall
        simp only [List.all_cons, hin, Bool.false_and] at hall
        cases hall
      · intro _
        have htw : (p :: ps).takeWhile (inSubgroups K) = [] := by
          simp only [List.takeWhile_cons, hin, Bool.false_eq_true, if_false]
        rw [htw]
        rcases subgroupChecks_of_not_inSubgroups K p hin with hs | hs
        · rw [List.length_cons, pairingLoop_succ_subgroup K input _ i e p.1 p.2 _ h0 hs]
          exact ⟨rfl, Or.inl rfl⟩
        · rw [List.length_cons, pairingLoop_succ_subgroup K input _ i e p.1 p.2 _ h0 hs]
          exact ⟨rfl, Or.inr rfl⟩
    · -- the first pair passes and is added
      have hs := subgroupChecks_of_inSubgroups K p hin
      have hstep : pairingLoop K input (p :: ps).length i e
          = pairingLoop K input ps.length (i + 1) (K.addPair e p.1 p.2) := by
        rw [List.length_cons, pairingLoop_succ_ok K input _ i e p.1 p.2 h0 hs]
      obtain ⟨ih1, ih2⟩ := ih (i + 1) (K.addPair e p.1 p.2) htl
      rw [hstep]
      constructor
      · intro hall
        simp only [List.all_cons, hin, Bool.true_and] at hall
        rw [ih1 hall]
        rfl
      · intro hall
        simp only [List.all_cons, hin, Bool.true_and] at hall
        have htw : (p :: ps).takeWhile (inSubgroups K) = p :: ps.takeWhile (inSubgroups K) := by
          simp only [List.takeWhile_cons, hin, if_true]
        rw [htw]
        exact ih2 hall

/-- A pairing loop that runs to its end has decoded every pair, found every operand in the
correct subgroup and added every pair to the engine. -/
theorem pairingLoop_ok_inv (K : Kilic) (input : Bytes) (n : Nat) :
    ∀ (i : Nat) (e e' : K.Engine), pairingLoop K input n i e = (.ok (), e') →
      ∃ ps : List (K.PointG1 × K.PointG2), ps.length = n
        ∧ (∀ j (hj : j < ps.length), decodePair K input (i + j) = .ok ps[j])
        ∧ ps.all (inSubgroups K) = true ∧ e' = addPairs K e ps := by
  induction n with
  | zero =>
    intro i e e' h
    rw [pairingLoop_zero] at h
    refine ⟨[], rfl, ?_, rfl, ?_⟩
    · intro j hj; simp only [List.length_nil] at hj; omega
    · cases h; rfl
  | succ n ih =>
    intro i e e' h
    cases hdec : decodePair K input i with
    | ok p =>
      cases hsub : subgroupChecks K p.1 p.2 with
      | ok u =>
        cases u
        rw [pairingLoop_succ_ok K input n i e p.1 p.2 hdec hsub] at h
        obtain ⟨ps, hlen, hps, hall, he⟩ := ih (i + 1) _ e' h
        refine ⟨p :: ps, by simp only [List.length_cons, hlen], ?_, ?_, ?_⟩
        · intro j hj
          cases j with
          | zero => simpa only [Nat.add_zero, List.getElem_cons_zero] using hdec
          | succ j =>
            have := hps j (by simp only [List.length_cons] at hj; omega)
            simpa only [List.getElem_cons_succ, Nat.add_assoc, Nat.add_comm 1 j] using this
        · simp only [List.all_cons, inSubgroups_of_subgroupChecks K p hsub, hall, Bool.and_self]
        · rw [he]; rfl
      | err err =>
        rw [pairingLoop_succ_subgroup K input n i e p.1 p.2 err hdec hsub] at h
        cases h
      | panic =>
        rw [pairingLoop_succ_subgroup_panic K input n i e p.1 p.2 hdec hsub] at h
        cases h
    | err err =>
      rw [pairingLoop_succ_err K input n i e err hdec] at h
      cases h
    | panic =>
      rw [pairingLoop_succ_panic K input n i e hdec] at h
      cases h

end cross_eip2537

namespace cross_bls

open Go

theorem hexDecodeString_infinitePublicKeyStr :
    hexDecodeString infinitePublicKeyStr.toList = some (0xc0 :: make 47) := by decide

set_option maxRecDepth 20000 in
theorem hexDecodeString_infiniteSignatureStr :
    hexDecodeString infiniteSignatureStr.toList = some (0xc0 :: make 95) := by decide

theorem initHerumi_sentinels {L : Libs} (g g' : Globals L) (h : initHerumi g = .ok g') :
    g'.infinitePublicKey = g.infinitePublicKey
      ∧ g'.infiniteSignature = g.infiniteSignature := by
  unfold initHerumi at h
  split at h
  · split at h
    · cases h
    · split at h
      · cases h
      · cases h; exact ⟨rfl, rfl⟩
  · cases h; exact ⟨rfl, rfl⟩

theorem initBLST_sentinels {L : Libs} (g : Globals L) :
    (initBLST g).infinitePublicKey = g.infinitePublicKey
      ∧ (initBLST g).infiniteSignature = g.infiniteSignature := by
  unfold initBLST
  split <;> exact ⟨rfl, rfl⟩

theorem initKilic_sentinels {L : Libs} (g : Globals L) :
    (initKilic g).infinitePublicKey = g.infinitePublicKey
      ∧ (initKilic g).infiniteSignature = g.infiniteSignature := by
  unfold initKilic
  split <;> exact ⟨rfl, rfl⟩

/-- After `_init` the two infinity patterns are `0xc0` followed by zero bytes. -/
theorem _init_sentinels {L : Libs} (g0 g : Globals L) (h : _init g0 = .ok g) :
    g.infinitePublicKey = 0xc0 :: make 47 ∧ g.infiniteSignature = 0xc0 :: make 95 := by
  unfold _init at h
  rw [hexDecodeString_infinitePublicKeyStr] at h
  dsimp only at h
  rw [hexDecodeString_infiniteSignatureStr] at h
  dsimp only at h
  split at h
  · exact initHerumi_sentinels _ _ h
  · split at h
    · cases h; exact initBLST_sentinels _
    · split at h
      · cases h; exact initKilic_sentinels _
      · cases h; exact ⟨rfl, rfl⟩

theorem beValue_append_singleton (b : Bytes) (x : Byte) :
    beValue (b ++ [x]) = 256 * beValue b + x.val := by
  simp only [beValue, List.foldl_append, List.foldl_cons, List.foldl_nil]

theorem length_toBE (v n : Nat) : (toBE v n).length = n := by
  induction n generalizing v with
  | zero => rfl
  | succ n ih => simp only [toBE, List.length_append, ih, List.length_singleton]

/-- Reading back the `n` big-endian bytes of `v` gives `v` modulo `256 ^ n`. -/
theorem beValue_toBE (v n : Nat) : beValue (toBE v n) = v % 256 ^ n := by
  induction n generalizing v with
  | zero => simp only [toBE, beValue, List.foldl_nil, Nat.pow_zero, Nat.mod_one]
  | succ n ih =>
    have hx : (Fin.ofNat (v % 256) : Byte).val = v % 256 := by
      show v % 256 % 256 = v % 256
      exact Nat.mod_eq_of_lt (Nat.mod_lt _ (by decide))
    rw [toBE, beValue_append_singleton, ih, hx, Nat.pow_succ, Nat.mul_comm (256 ^ n) 256,
      Nat.mod_mul, Nat.add_comm]

/-- Writing the value of a byte string big-endian on as many bytes gives it back. -/
theorem toBE_beValue (b : Bytes) : toBE (beValue b) b.length = b := by
  induction b using List.reverseRecOn with
  | nil => rfl
  | append_singleton b x ih =>
    have hx : x.val < 256 := x.isLt
    have h1 : (256 * beValue b + x.val) / 256 = beValue b := by omega
    have h2 : (Fin.ofNat ((256 * beValue b + x.val) % 256) : Byte) = x := by
      apply Fin.ext
      show (256 * beValue b + x.val) % 256 % 256 = x.val
      omega
    rw [beValue_append_singleton, List.length_append, List.length_singleton, toBE, h1, h2, ih]

theorem toBE_zero (n : Nat) : toBE 0 n = List.replicate n 0 := by
  induction n with
  | zero => rfl
  | succ n ih =>
    rw [toBE, Nat.zero_div, ih, List.replicate_succ']
    rfl

/-- A byte string has value zero exactly when all its bytes are zero. -/
theorem beValue_eq_zero_iff (b : Bytes) : beValue b = 0 ↔ b = List.replicate b.length 0 := by
  constructor
  · intro h
    have := toBE_beValue b
    rw [h, toBE_zero] at this
    exact this.symm
  · intro h
    rw [h, ← toBE_zero, beValue_toBE, Nat.zero_mod]

theorem groupOrder_lt : groupOrder < 256 ^ 32 := by decide

theorem toyKilicLib_frContract (r : Nat) (hr : r < 256 ^ 32) :
    FrContract (toyKilicLib r) r (toyMeaning r) := by
  constructor
  · intro b _
    simp only [toyMeaning, toyKilicLib]
  · simp only [toyMeaning, toyKilicLib]
    rw [beValue_toBE, Nat.mod_eq_of_lt hr, if_pos (Nat.le_refl r)]
  · intro a b
    simp only [toyMeaning, toyKilicLib]
    by_cases h : a < b
    · rw [if_pos h]
      exact iff_of_true rfl h
    · rw [if_neg h]
      refine iff_of_false ?_ h
      split <;> decide
  · intro s
    simp only [toyMeaning, toyKilicLib]
  · intro a b
    simp only [toyMeaning, toyKilicLib, decide_eq_true_eq]

theorem bytesEqual_iff (a b : Bytes) : bytesEqual a b = true ↔ a = b := by
  unfold bytesEqual
  exact decide_eq_true_iff

/-- The zero test of `SecretKeyFromBytes`, on 32 bytes, is the test of a zero value. -/
theorem bytesEqual_zeroSecretKey (b : Bytes) (hb : b.length = 32) :
    bytesEqual zeroSecretKey b = true ↔ beValue b = 0 := by
  rw [bytesEqual_iff, beValue_eq_zero_iff, hb]
  constructor
  · intro h; rw [← h]; rfl
  · intro h; rw [h]; rfl

/-- The scalar the library reads from 32 bytes is below the group order unless the bytes
denote the group order itself. -/
theorem scalar_frFromBytes_lt (K : KilicLib) (r : Nat) (μ : Meaning K r)
    (hK : FrContract K r μ) (hr : 0 < r) (b : Bytes) (hb : b.length = 32) :
    μ.scalar (K.frFromBytes b) < r ↔ beValue b ≠ r := by
  rw [hK.fromBytes b hb]
  by_cases hle : beValue b ≤ r
  · rw [if_pos hle]
    omega
  · rw [if_neg hle]
    exact iff_of_true (Nat.mod_lt _ hr) (by omega)

/-- The kilic range check: with `kilicGroupOrder` as `initKilic` sets it, the comparison
runs on the scalar the library read, so 32 bytes are rejected only when they denote the
group order itself. -/
theorem kilicSecretKeyFromBytes_eq (L : Libs) (g : Globals L) (r : Nat)
    (μ : Meaning L.kilic r) (hK : FrContract L.kilic r μ) (hr : 0 < r)
    (hord : g.kilicGroupOrder = some (L.kilic.frFromBytes L.kilic.g1QBytes))
    (b : Bytes) (hb : b.length = 32) :
    kilicSecretKeyFromBytes L g b
      = if beValue b = r then .err .errInvalidSecretKey
        else .ok (.kilic (L.kilic.frFromBytes b)) := by
  unfold kilicSecretKeyFromBytes
  have hlen : ¬ b.length ≠ SecretKeySize := by
    unfold SecretKeySize; exact fun h => h hb
  rw [if_neg hlen, hord]
  dsimp only
  have hcmp := hK.cmp (L.kilic.frFromBytes b) (L.kilic.frFromBytes L.kilic.g1QBytes)
  rw [hK.order, scalar_frFromBytes_lt L.kilic r μ hK hr b hb] at hcmp
  by_cases heq : beValue b = r
  · rw [if_pos (fun h => hcmp.mp h heq), if_pos heq]
  · rw [if_neg (not_not.mpr (hcmp.mpr heq)), if_neg heq]

/-- The whole of `SecretKeyFromBytes` on 32 bytes with the kilic library selected. -/
theorem SecretKeyFromBytes_kilic_eq (L : Libs) (g : Globals L) (r : Nat)
    (μ : Meaning L.kilic r) (hK : FrContract L.kilic r μ) (hr : 0 < r)
    (hlib : g.library = libKilic)
    (hord : g.kilicGroupOrder = some (L.kilic.frFromBytes L.kilic.g1QBytes))
    (b : Bytes) (hb : b.length = 32) :
    SecretKeyFromBytes L g b
      = if beValue b = 0 then .err .errZeroSecretKey
        else if beValue b = r then .err .errInvalidSecretKey
        else .ok (.kilic (L.kilic.frFromBytes b)) := by
  unfold SecretKeyFromBytes
  have hlen : ¬ b.length ≠ SecretKeySize := by
    unfold SecretKeySize; exact fun h => h hb
  have h1 : ¬ libKilic = libHerumi := by decide
  have h2 : ¬ libKilic = libBLST := by decide
  rw [if_neg hlen, hlib, if_neg h1, if_neg h2, if_pos rfl,
    kilicSecretKeyFromBytes_eq L g r μ hK hr hord b hb]
  by_cases hz : beValue b = 0
  · rw [if_pos ((bytesEqual_zeroSecretKey b hb).mpr hz), if_pos hz]
  · rw [if_neg (fun h => hz ((bytesEqual_zeroSecretKey b hb).mp h)), if_neg hz]

/-- After `UseKilic` on a state where the kilic library was not yet initialised, the library
is selected and `kilicGroupOrder` is the scalar of the bytes of `Q()`. -/
theorem UseKilic_selected {L : Libs} (g : Globals L) (h : g.kilicInitialized = false) :
    (UseKilic g).library = libKilic
      ∧ (UseKilic g).kilicGroupOrder = some (L.kilic.frFromBytes L.kilic.g1QBytes) := by
  unfold UseKilic initKilic
  simp only [h, Bool.not_false, if_true, and_self]

theorem toyKilicLib_compressContract (r : Nat) (hr0 : 0 < r) (hr : r ≤ 256 ^ 47) :
    CompressContract (toyKilicLib r) r (toyMeaning r) := by
  have hflag : ∀ p : Nat, 128 ≤ (Fin.ofNat (if p % r = 0 then 192 else 128) : Byte).val
      ∧ (64 ≤ (Fin.ofNat (if p % r = 0 then 192 else 128) : Byte).val % 128
          ↔ ((p : ZMod r) = 0)) := by
    intro p
    rw [ZMod.natCast_zmod_eq_zero_iff_dvd, Nat.dvd_iff_mod_eq_zero]
    by_cases h : p % r = 0
    · rw [if_pos h]
      exact ⟨by decide, iff_of_true (by decide) h⟩
    · rw [if_neg h]
      exact ⟨by decide, iff_of_false (by decide) h⟩
  have hback : ∀ (p n : Nat), 47 ≤ n → beValue (toBE (p % r) n) % r = p % r := by
    intro p n hn
    have h1 : p % r < 256 ^ n :=
      Nat.lt_of_lt_of_le (Nat.mod_lt _ hr0)
        (Nat.le_trans hr (Nat.pow_le_pow_right (by decide) hn))
    rw [beValue_toBE, Nat.mod_eq_of_lt h1, Nat.mod_mod]
  constructor
  · intro p
    exact ⟨_, _, rfl, length_toBE _ _, (hflag p).1, (hflag p).2⟩
  · intro p
    refine ⟨beValue (toBE (p % r) 47), rfl, ?_⟩
    simp only [toyKilicLib, decide_eq_true_eq]
    exact (hback p 47 (le_refl _)).symm
  · intro p
    exact ⟨_, _, rfl, length_toBE _ _, (hflag p).1, (hflag p).2⟩
  · intro p
    refine ⟨beValue (toBE (p % r) 95), rfl, ?_⟩
    simp only [toyKilicLib, decide_eq_true_eq]
    exact (hback p 95 (by decide)).symm

/-- A compressed G1 point of a library meeting `CompressContract` is 48 bytes, is not the
zero pattern, and is the infinity pattern only for the identity. -/
theorem g1ToCompressed_screen (K : KilicLib) (r : Nat) (μ : Meaning K r)
    (hC : CompressContract K r μ) (p : K.PointG1) (hp : μ.point1 p ≠ 0) :
    (K.g1ToCompressed p).length = 48 ∧ K.g1ToCompressed p ≠ make 48
      ∧ K.g1ToCompressed p ≠ 0xc0 :: make 47 := by
  obtain ⟨b0, rest, hb, hlen, hflag, hinf⟩ := hC.g1ToCompressed p
  rw [hb]
  refine ⟨by rw [List.length_cons, hlen], ?_, ?_⟩
  · intro h
    have h0 : b0 = 0 := (List.cons.inj h).1
    rw [h0] at hflag
    exact absurd hflag (by decide)
  · intro h
    have h0 : b0 = 0xc0 := (List.cons.inj h).1
    rw [h0] at hinf
    exact hp (hinf.mp (by decide))

/-- A compressed G2 point of a library meeting `CompressContract` is 96 bytes, is not the
zero pattern, and is the infinity pattern only for the identity. -/
theorem g2ToCompressed_screen (K : KilicLib) (r : Nat) (μ : Meaning K r)
    (hC : CompressContract K r μ) (p : K.PointG2) (hp : μ.point2 p ≠ 0) :
    (K.g2ToCompressed p).length = 96 ∧ K.g2ToCompressed p ≠ make 96
      ∧ K.g2ToCompressed p ≠ 0xc0 :: make 95 := by
  obtain ⟨b0, rest, hb, hlen, hflag, hinf⟩ := hC.g2ToCompressed p
  rw [hb]
  refine ⟨by rw [List.length_cons, hlen], ?_, ?_⟩
  · intro h
    have h0 : b0 = 0 := (List.cons.inj h).1
    rw [h0] at hflag
    exact absurd hflag (by decide)
  · intro h
    have h0 : b0 = 0xc0 := (List.cons.inj h).1
    rw [h0] at hinf
    exact hp (hinf.mp (by decide))

theorem bytesEqual_eq_false (a b : Bytes) (h : a ≠ b) : bytesEqual a b = false := by
  unfold bytesEqual
  exact decide_eq_false h

theorem toyKilicLib_curveContract (r : Nat) :
    CurveContract (toyKilicLib r) r (toyMeaning r) := by
  constructor
  · exact Nat.cast_one
  · exact Nat.cast_zero
  · intro p q
    exact Nat.cast_add p q
  · intro p s
    exact Nat.cast_mul s p
  · intro p q
    simp only [toyMeaning, toyKilicLib, decide_eq_true_eq]
    exact (ZMod.natCast_eq_natCast_iff' p q r).symm
  · exact Nat.cast_zero
  · intro p q
    exact Nat.cast_add p q
  · intro p s
    exact Nat.cast_mul s p
  · intro p q
    simp only [toyMeaning, toyKilicLib, decide_eq_true_eq]
    exact (ZMod.natCast_eq_natCast_iff' p q r).symm
  · intro message
    exact ⟨beValue message, rfl⟩
  · exact Int.cast_zero
  · intro e p q
    simp only [toyMeaning, toyKilicLib]
    push_cast
    rfl
  · intro e p q
    simp only [toyMeaning, toyKilicLib]
    push_cast
    rfl
  · intro e
    simp only [toyMeaning, toyKilicLib, decide_eq_true_eq]
    rw [ZMod.intCast_zmod_eq_zero_iff_dvd, Int.dvd_iff_emod_eq_zero]

theorem toyKilicLibH_curveContract (r : Nat) :
    CurveContract (toyKilicLibH r) r (toyMeaningH r) := by
  constructor
  · exact Nat.cast_one
  · exact Nat.cast_zero
  · intro p q
    exact Nat.cast_add p q
  · intro p s
    exact Nat.cast_mul s p
  · intro p q
    simp only [toyMeaningH, toyKilicLibH, toyKilicLib, decide_eq_true_eq]
    exact (ZMod.natCast_eq_natCast_iff' p q r).symm
  · exact Nat.cast_zero
  · intro p q
    exact Nat.cast_add p q
  · intro p s
    exact Nat.cast_mul s p
  · intro p q
    simp only [toyMeaningH, toyKilicLibH, toyKilicLib, decide_eq_true_eq]
    exact (ZMod.natCast_eq_natCast_iff' p q r).symm
  · intro message
    exact ⟨beValue message % (r - 1) + 1, rfl⟩
  · exact Int.cast_zero
  · intro e p q
    simp only [toyMeaningH, toyKilicLibH, toyKilicLib]
    push_cast
    rfl
  · intro e p q
    simp only [toyMeaningH, toyKilicLibH, toyKilicLib]
    push_cast
    rfl
  · intro e
    simp only [toyMeaningH, toyKilicLibH, toyKilicLib, decide_eq_true_eq]
    rw [ZMod.intCast_zmod_eq_zero_iff_dvd, Int.dvd_iff_emod_eq_zero]

theorem toyKilicLibH_hashContract (r : Nat) (hr : 1 < r) :
    HashContract (toyKilicLibH r) r (toyMeaningH r) := by
  intro message
  show ((beValue message % (r - 1) + 1 : Nat) : ZMod r) ≠ 0
  rw [Ne, ZMod.natCast_zmod_eq_zero_iff_dvd]
  intro hdvd
  have hlt : beValue message % (r - 1) < r - 1 := Nat.mod_lt _ (by omega)
  have hle := Nat.le_of_dvd (Nat.succ_pos _) hdvd
  omega

theorem hashedPoint_of_ok (K : KilicLib) (r : Nat) (μ : Meaning K r) (message : Bytes)
    (M : K.PointG2) (h : K.g2HashToCurve message dst = .ok M) :
    hashedPoint K r μ message = μ.point2 M := by
  unfold hashedPoint
  rw [h]

/-- With hashing succeeding, `Sign` is the hash multiplied by the secret scalar. -/
theorem KilicSecretKey.Sign_eq (L : Libs) (r : Nat) (μ : Meaning L.kilic r)
    (hK : CurveContract L.kilic r μ) (s : L.kilic.Fr) (message : Bytes) :
    ∃ sig, KilicSecretKey.Sign L s message = .kilic sig
      ∧ μ.point2 sig = (μ.scalar s : ZMod r) * hashedPoint L.kilic r μ message := by
  obtain ⟨M, hM⟩ := hK.g2HashToCurve message
  refine ⟨L.kilic.g2MulScalar M s, ?_, ?_⟩
  · unfold KilicSecretKey.Sign
    rw [hM]
  · rw [hK.g2MulScalar, hashedPoint_of_ok _ _ _ _ _ hM]

/-- The public key of a secret scalar is that multiple of the generator. -/
theorem KilicSecretKey.PublicKey_eq (L : Libs) (r : Nat) (μ : Meaning L.kilic r)
    (hK : CurveContract L.kilic r μ) (s : L.kilic.Fr) :
    ∃ p, KilicSecretKey.PublicKey L s = .kilic p ∧ μ.point1 p = (μ.scalar s : ZMod r) :=
  ⟨_, rfl, by rw [hK.g1MulScalar, hK.g1One, mul_one]⟩

/-- `Verify` on a kilic key checks the pairing equation: the key times the hashed message
against the signature. -/
theorem KilicSignature.Verify_eq (L : Libs) (r : Nat) (μ : Meaning L.kilic r)
    (hK : CurveContract L.kilic r μ) (sig : L.kilic.PointG2) (p : L.kilic.PointG1)
    (message : Bytes) :
    ∃ b, KilicSignature.Verify L sig (.kilic p) message = .ok b
      ∧ (b = true ↔ μ.point1 p * hashedPoint L.kilic r μ message = μ.point2 sig) := by
  obtain ⟨M, hM⟩ := hK.g2HashToCurve message
  refine ⟨L.kilic.check
    (L.kilic.addPairInv (L.kilic.addPair L.kilic.newEngine p M) L.kilic.g1One sig), ?_, ?_⟩
  · unfold KilicSignature.Verify
    simp only [hM, PublicKey.asKilic, bind_ok]
  · rw [hK.check, hK.addPairInv, hK.addPair, hK.newEngine, hK.g1One,
      hashedPoint_of_ok _ _ _ _ _ hM, zero_add, one_mul, sub_eq_zero]

theorem kilicAggregatePublicKeyLoop_eq (L : Libs) (r : Nat) (μ : Meaning L.kilic r)
    (hK : CurveContract L.kilic r μ) (ps : List L.kilic.PointG1) :
    ∀ agg : L.kilic.PointG1, ∃ a,
      kilicAggregatePublicKeyLoop L (ps.map PublicKey.kilic) agg = .ok a
        ∧ μ.point1 a = μ.point1 agg + (ps.map μ.point1).sum := by
  induction ps with
  | nil =>
    intro agg
    exact ⟨agg, rfl, by simp only [List.map_nil, List.sum_nil, add_zero]⟩
  | cons p ps ih =>
    intro agg
    obtain ⟨a, ha, hsum⟩ := ih (L.kilic.g1Add agg p)
    refine ⟨a, ?_, ?_⟩
    · simp only [List.map_cons, kilicAggregatePublicKeyLoop, PublicKey.asKilic, bind_ok]
      exact ha
    · rw [hsum, hK.g1Add, List.map_cons, List.sum_cons, add_assoc]

/-- The kilic aggregate of public keys is a point that is the sum of the keys. -/
theorem kilicAggregatePublicKey_eq (L : Libs) (r : Nat) (μ : Meaning L.kilic r)
    (hK : CurveContract L.kilic r μ) (ps : List L.kilic.PointG1) :
    ∃ a, kilicAggregatePublicKey L (ps.map PublicKey.kilic) = .ok (.kilic a)
      ∧ μ.point1 a = (ps.map μ.point1).sum := by
  cases ps with
  | nil => exact ⟨L.kilic.g1Zero, rfl, by rw [hK.g1Zero]; rfl⟩
  | cons p ps =>
    obtain ⟨a, ha, hsum⟩ := kilicAggregatePublicKeyLoop_eq L r μ hK ps p
    refine ⟨a, ?_, ?_⟩
    · simp only [List.map_cons, kilicAggregatePublicKey, PublicKey.asKilic, bind_ok, ha]
    · rw [hsum, List.map_cons, List.sum_cons]

theorem kilicAggregateSignatureLoop_eq (L : Libs) (r : Nat) (μ : Meaning L.kilic r)
    (hK : CurveContract L.kilic r μ) (qs : List L.kilic.PointG2) :
    ∀ agg : L.kilic.PointG2, ∃ a,
      kilicAggregateSignatureLoop L (qs.map Signature.kilic) agg = .ok a
        ∧ μ.point2 a = μ.point2 agg + (qs.map μ.point2).sum := by
  induction qs with
  | nil =>
    intro agg
    exact ⟨agg, rfl, by simp only [List.map_nil, List.sum_nil, add_zero]⟩
  | cons q qs ih =>
    intro agg
    obtain ⟨a, ha, hsum⟩ := ih (L.kilic.g2Add agg q)
    refine ⟨a, ?_, ?_⟩
    · simp only [List.map_cons, kilicAggregateSignatureLoop, Signature.asKilic, bind_ok]
      exact ha
    · rw [hsum, hK.g2Add, List.map_cons, List.sum_cons, add_assoc]

/-- The kilic aggregate of signatures is a point that is the sum of the signatures. -/
theorem kilicAggregateSignature_eq (L : Libs) (r : Nat) (μ : Meaning L.kilic r)
    (hK : CurveContract L.kilic r μ) (qs : List L.kilic.PointG2) :
    ∃ a, kilicAggregateSignature L (qs.map Signature.kilic) = .ok (.kilic a)
      ∧ μ.point2 a = (qs.map μ.point2).sum := by
  cases qs with
  | nil => exact ⟨L.kilic.g2Zero, rfl, by rw [hK.g2Zero]; rfl⟩
  | cons q qs =>
    obtain ⟨a, ha, hsum⟩ := kilicAggregateSignatureLoop_eq L r μ hK qs q
    refine ⟨a, ?_, ?_⟩
    · simp only [List.map_cons, kilicAggregateSignature, Signature.asKilic, bind_ok, ha]
    · rw [hsum, List.map_cons, List.sum_cons]

theorem AggreagatePublicKeys_kilic (L : Libs) (g : Globals L) (hlib : g.library = libKilic)
    (publicKeys : List (PublicKey L)) :
    AggreagatePublicKeys L g publicKeys = kilicAggregatePublicKey L publicKeys := by
  unfold AggreagatePublicKeys
  rw [hlib, if_neg (by decide), if_neg (by decide), if_pos rfl]

theorem AggreagateSignatures_kilic (L : Libs) (g : Globals L) (hlib : g.library = libKilic)
    (signatures : List (Signature L)) :
    AggreagateSignatures L g signatures = kilicAggregateSignature L signatures := by
  unfold AggreagateSignatures
  rw [hlib, if_neg (by decide), if_neg (by decide), if_pos rfl]

/-- `FastAggregateVerify` on kilic keys checks the pairing equation for the sum of the
keys. -/
theorem KilicSignature.FastAggregateVerify_eq (L : Libs) (r : Nat) (μ : Meaning L.kilic r)
    (hK : CurveContract L.kilic r μ) (sig : L.kilic.PointG2) (ps : List L.kilic.PointG1)
    (message : Bytes) :
    ∃ b, KilicSignature.FastAggregateVerify L sig (ps.map PublicKey.kilic) message = .ok b
      ∧ (b = true ↔
          (ps.map μ.point1).sum * hashedPoint L.kilic r μ message = μ.point2 sig) := by
  obtain ⟨M, hM⟩ := hK.g2HashToCurve message
  obtain ⟨a, ha, hsum⟩ := kilicAggregatePublicKey_eq L r μ hK ps
  refine ⟨L.kilic.check
    (L.kilic.addPairInv (L.kilic.addPair L.kilic.newEngine a M) L.kilic.g1One sig), ?_, ?_⟩
  · unfold KilicSignature.FastAggregateVerify
    simp only [hM, ha, PublicKey.asKilic, bind_ok]
  · rw [hK.check, hK.addPairInv, hK.addPair, hK.newEngine, hK.g1One,
      hashedPoint_of_ok _ _ _ _ _ hM, hsum, zero_add, one_mul, sub_eq_zero]

/-- The loop of `AggregateVerify` on kilic keys and as many messages adds the pairing of
each key with its hashed message. -/
theorem kilicAggregateVerifyLoop_eq (L : Libs) (r : Nat) (μ : Meaning L.kilic r)
    (hK : CurveContract L.kilic r μ) (pms : List (L.kilic.PointG1 × Bytes)) :
    ∀ e : L.kilic.Engine, ∃ e',
      kilicAggregateVerifyLoop L (pms.map (fun pm => PublicKey.kilic pm.1))
          (pms.map (fun pm => pm.2)) e = .ok (some e')
        ∧ μ.product e' = μ.product e
            + (pms.map (fun pm => μ.point1 pm.1 * hashedPoint L.kilic r μ pm.2)).sum := by
  induction pms with
  | nil =>
    intro e
    exact ⟨e, rfl, by simp only [List.map_nil, List.sum_nil, add_zero]⟩
  | cons pm pms ih =>
    intro e
    obtain ⟨M, hM⟩ := hK.g2HashToCurve pm.2
    obtain ⟨e', he', hsum⟩ := ih (L.kilic.addPair e pm.1 M)
    refine ⟨e', ?_, ?_⟩
    · simp only [List.map_cons, kilicAggregateVerifyLoop, hM, PublicKey.asKilic, bind_ok]
      exact he'
    · rw [hsum, hK.addPair, List.map_cons, List.sum_cons, hashedPoint_of_ok _ _ _ _ _ hM,
        add_assoc]

/-- `AggregateVerify` on a non-empty list of kilic keys with as many messages checks the
pairing equation: the sum of the keys times their hashed messages against the signature. -/
theorem KilicSignature.AggregateVerify_eq (L : Libs) (r : Nat) (μ : Meaning L.kilic r)
    (hK : CurveContract L.kilic r μ) (sig : L.kilic.PointG2)
    (pms : List (L.kilic.PointG1 × Bytes)) (hne : pms ≠ []) :
    ∃ b, KilicSignature.AggregateVerify L sig (pms.map (fun pm => PublicKey.kilic pm.1))
          (pms.map (fun pm => pm.2)) = .ok b
      ∧ (b = true ↔
          (pms.map (fun pm => μ.point1 pm.1 * hashedPoint L.kilic r μ pm.2)).sum
            = μ.point2 sig) := by
  obtain ⟨e', he', hsum⟩ := kilicAggregateVerifyLoop_eq L r μ hK pms
    (L.kilic.addPairInv L.kilic.newEngine L.kilic.g1One sig)
  have hlen : ¬ (pms.map (fun pm => PublicKey.kilic (L := L) pm.1)).length = 0 := by
    rw [List.length_map]
    exact fun h => hne (List.length_eq_zero.mp h)
  refine ⟨L.kilic.check e', ?_, ?_⟩
  · unfold KilicSignature.AggregateVerify
    rw [if_neg hlen, if_neg (by simp only [List.length_map, ne_eq, not_true_eq_false,
      not_false_eq_true])]
    simp only [he', bind_ok]
  · rw [hK.check, hsum, hK.addPairInv, hK.newEngine, hK.g1One, zero_sub, one_mul,
      neg_add_eq_zero, eq_comm]

theorem KilicSecretKey.Sign_signedPoint (L : Libs) (r : Nat) (μ : Meaning L.kilic r)
    (hK : CurveContract L.kilic r μ) (s : L.kilic.Fr) (message : Bytes) :
    KilicSecretKey.Sign L s message = .kilic (signedPoint L.kilic s message)
      ∧ μ.point2 (signedPoint L.kilic s message)
          = (μ.scalar s : ZMod r) * hashedPoint L.kilic r μ message := by
  obtain ⟨M, hM⟩ := hK.g2HashToCurve message
  unfold KilicSecretKey.Sign signedPoint
  rw [hM]
  exact ⟨rfl, by rw [hK.g2MulScalar, hashedPoint_of_ok _ _ _ _ _ hM]⟩

theorem map_Sign_eq (L : Libs) (r : Nat) (μ : Meaning L.kilic r)
    (hK : CurveContract L.kilic r μ) (sms : List (L.kilic.Fr × Bytes)) :
    sms.map (fun sm => KilicSecretKey.Sign L sm.1 sm.2)
      = (sms.map (fun sm => signedPoint L.kilic sm.1 sm.2)).map Signature.kilic := by
  rw [List.map_map]
  apply List.map_congr_left
  intro sm _
  exact (KilicSecretKey.Sign_signedPoint L r μ hK sm.1 sm.2).1

theorem sum_signedPoint (L : Libs) (r : Nat) (μ : Meaning L.kilic r)
    (hK : CurveContract L.kilic r μ) (sms : List (L.kilic.Fr × Bytes)) :
    ((sms.map (fun sm => signedPoint L.kilic sm.1 sm.2)).map μ.point2).sum
      = (sms.map (fun sm =>
          (μ.scalar sm.1 : ZMod r) * hashedPoint L.kilic r μ sm.2)).sum := by
  rw [List.map_map]
  congr 1
  apply List.map_congr_left
  intro sm _
  exact (KilicSecretKey.Sign_signedPoint L r μ hK sm.1 sm.2).2

/-- The aggregate of the signatures of the keys `sms.1` over the messages `sms.2` passes
`AggregateVerify` against the public keys and the messages. -/
theorem aggregateVerify_signed (L : Libs) (r : Nat) (μ : Meaning L.kilic r)
    (hK : CurveContract L.kilic r μ) (sms : List (L.kilic.Fr × Bytes)) (hne : sms ≠ []) :
    ∃ agg, kilicAggregateSignature L (sms.map (fun sm => KilicSecretKey.Sign L sm.1 sm.2))
        = .ok (.kilic agg)
      ∧ KilicSignature.AggregateVerify L agg
          (sms.map (fun sm => KilicSecretKey.PublicKey L sm.1)) (sms.map (fun sm => sm.2))
        = .ok true := by
  obtain ⟨agg, hagg, hsum⟩ := kilicAggregateSignature_eq L r μ hK
    (sms.map (fun sm => signedPoint L.kilic sm.1 sm.2))
  rw [← map_Sign_eq L r μ hK, sum_signedPoint L r μ hK] at *
  refine ⟨agg, hagg, ?_⟩
  have hne' : sms.map (fun sm => (L.kilic.g1MulScalar L.kilic.g1One sm.1, sm.2)) ≠ [] := by
    intro h
    exact hne (List.map_eq_nil_iff.mp h)
  obtain ⟨b, hb, hiff⟩ := KilicSignature.AggregateVerify_eq L r μ hK agg
    (sms.map (fun sm => (L.kilic.g1MulScalar L.kilic.g1One sm.1, sm.2))) hne'
  simp only [List.map_map, Function.comp_def] at hb hiff
  have hb' : KilicSignature.AggregateVerify L agg
      (sms.map (fun sm => KilicSecretKey.PublicKey L sm.1)) (sms.map (fun sm => sm.2))
      = .ok b := hb
  rw [hb']
  have : b = true := by
    rw [hiff, hsum]
    congr 1
    apply List.map_congr_left
    intro sm _
    rw [hK.g1MulScalar, hK.g1One, mul_one]
  rw [this]

/-- The aggregate of the signatures of the keys `sks` over one message passes
`FastAggregateVerify` against the public keys and the message. -/
theorem fastAggregateVerify_signed (L : Libs) (r : Nat) (μ : Meaning L.kilic r)
    (hK : CurveContract L.kilic r μ) (sks : List L.kilic.Fr) (message : Bytes) :
    ∃ agg, kilicAggregateSignature L (sks.map (fun s => KilicSecretKey.Sign L s message))
        = .ok (.kilic agg)
      ∧ KilicSignature.FastAggregateVerify L agg
          (sks.map (fun s => KilicSecretKey.PublicKey L s)) message = .ok true := by
  have hmap : sks.map (fun s => KilicSecretKey.Sign L s message)
      = (sks.map (fun s => (s, message))).map (fun sm => KilicSecretKey.Sign L sm.1 sm.2) := by
    rw [List.map_map]; rfl
  obtain ⟨agg, hagg, hsum⟩ := kilicAggregateSignature_eq L r μ hK
    ((sks.map (fun s => (s, message))).map (fun sm => signedPoint L.kilic sm.1 sm.2))
  rw [← map_Sign_eq L r μ hK, sum_signedPoint L r μ hK, ← hmap] at *
  refine ⟨agg, hagg, ?_⟩
  obtain ⟨b, hb, hiff⟩ := KilicSignature.FastAggregateVerify_eq L r μ hK agg
    (sks.map (fun s => L.kilic.g1MulScalar L.kilic.g1One s)) message
  simp only [List.map_map, Function.comp_def] at hb hiff hsum
  have hb' : KilicSignature.FastAggregateVerify L agg
      (sks.map (fun s => KilicSecretKey.PublicKey L s)) message = .ok b := hb
  rw [hb']
  have : b = true := by
    rw [hiff, hsum, ← List.sum_map_mul_right]
    congr 1
    apply List.map_congr_left
    intro s _
    rw [hK.g1MulScalar, hK.g1One, mul_one]
  rw [this]

/-- With hashing and groups of prime order `r`, a signature of a message whose hash is not
the identity, made with one scalar below `r`, fails `Verify` against the public key of
another scalar below `r`. -/
theorem verify_other_key_false (L : Libs) (r : Nat) (μ : Meaning L.kilic r)
    (hK : CurveContract L.kilic r μ) (hr : Nat.Prime r) (s1 s2 : L.kilic.Fr)
    (h1 : μ.scalar s1 < r) (h2 : μ.scalar s2 < r)
    (hne : μ.scalar s1 ≠ μ.scalar s2) (m1 : Bytes)
    (hH : hashedPoint L.kilic r μ m1 ≠ 0) :
    (do
      let signature ← SecretKey.Sign (.kilic s1) m1
      let publicKey ← SecretKey.PublicKey (.kilic s2)
      signature.Verify publicKey m1) = (.ok false : Res Err Bool) := by
  haveI : Fact (Nat.Prime r) := ⟨hr⟩
  obtain ⟨sig, hsig, hval⟩ := KilicSecretKey.Sign_eq L r μ hK s1 m1
  obtain ⟨p, hp, hpv⟩ := KilicSecretKey.PublicKey_eq L r μ hK s2
  obtain ⟨b, hb, hiff⟩ := KilicSignature.Verify_eq L r μ hK sig p m1
  have : b = false := by
    cases hbv : b
    · rfl
    · exfalso
      rw [hbv] at hiff
      have heq := hiff.mp rfl
      rw [hpv, hval] at heq
      have hcast : (μ.scalar s2 : ZMod r) = (μ.scalar s1 : ZMod r) :=
        mul_right_cancel₀ hH heq
      rw [ZMod.natCast_eq_natCast_iff', Nat.mod_eq_of_lt h2, Nat.mod_eq_of_lt h1] at hcast
      exact hne hcast.symm
  simp only [SecretKey.Sign, SecretKey.PublicKey, bind_ok, hsig, hp, Signature.Verify, hb, this]

/-- The loop of `kilicAggregatePublicKey` on kilic keys adds them to the running sum from
the left, whatever the library is. -/
theorem kilicAggregatePublicKeyLoop_ok (L : Libs) (ps : List L.kilic.PointG1) :
    ∀ agg : L.kilic.PointG1,
      kilicAggregatePublicKeyLoop L (ps.map PublicKey.kilic) agg
        = .ok (ps.foldl L.kilic.g1Add agg) := by
  induction ps with
  | nil =>
    intro agg
    rfl
  | cons p ps ih =>
    intro agg
    simp only [List.map_cons, kilicAggregatePublicKeyLoop, PublicKey.asKilic, bind_ok,
      List.foldl_cons]
    exact ih _

/-- On kilic keys `kilicAggregatePublicKey` returns a kilic key, whatever the library is. -/
theorem kilicAggregatePublicKey_ok (L : Libs) (ps : List L.kilic.PointG1) :
    ∃ a, kilicAggregatePublicKey L (ps.map PublicKey.kilic) = .ok (.kilic a) := by
  cases ps with
  | nil => exact ⟨L.kilic.g1Zero, rfl⟩
  | cons p ps =>
    refine ⟨ps.foldl L.kilic.g1Add p, ?_⟩
    simp only [List.map_cons, kilicAggregatePublicKey, PublicKey.asKilic, bind_ok,
      kilicAggregatePublicKeyLoop_ok]

/-- With as many messages as public keys, the loop of `(*HerumiSignature).AggregateVerify`
converts the keys and leaves the concatenation of the messages in `_messages`. -/
theorem herumiAggregateVerifyLoop_eq (L : Libs) :
    ∀ (publicKeys : List (PublicKey L)) (messages : List Bytes),
      messages.length = publicKeys.length →
      herumiAggregateVerifyLoop L publicKeys messages
        = (do
            let ps ← forEach PublicKey.asHerumi publicKeys
            .ok (ps, messages.flatten)) := by
  intro publicKeys
  induction publicKeys with
  | nil =>
    intro messages hlen
    cases messages with
    | nil => rfl
    | cons m ms => exact absurd hlen (Nat.succ_ne_zero _)
  | cons pk pks ih =>
    intro messages hlen
    cases messages with
    | nil => exact absurd hlen.symm (Nat.succ_ne_zero _)
    | cons m ms =>
      have hlen' : ms.length = pks.length := Nat.succ.inj hlen
      simp only [herumiAggregateVerifyLoop, forEach, ih ms hlen', List.flatten_cons]
      cases hpk : PublicKey.asHerumi pk with
      | ok p =>
        simp only [bind_ok]
        cases hps : forEach PublicKey.asHerumi pks with
        | ok ps => simp only [bind_ok]
        | err e => simp only [bind_err]
        | panic => simp only [bind_panic]
      | err e => simp only [bind_err]
      | panic => simp only [bind_panic]

/-- What `herumiSecretKeyFromBytes` accepted: 32 bytes the library deserialized. -/
theorem herumiSecretKeyFromBytes_ok (L : Libs) (b : Bytes) (k : SecretKey L)
    (h : herumiSecretKeyFromBytes L b = .ok k) :
    b.length = 32 ∧ ∃ s, L.herumi.secretKeyDeserialize b = .ok s ∧ k = .herumi s := by
  unfold herumiSecretKeyFromBytes at h
  split at h
  · exact Res.noConfusion h
  · rename_i hlen
    refine ⟨not_not.mp hlen, ?_⟩
    split at h
    · exact Res.noConfusion h
    · rename_i s hs
      exact ⟨s, hs, (Res.ok.inj h).symm⟩

/-- What `blstSecretKeyFromBytes` accepted: 32 bytes the library deserialized. -/
theorem blstSecretKeyFromBytes_ok (L : Libs) (b : Bytes) (k : SecretKey L)
    (h : blstSecretKeyFromBytes L b = .ok k) :
    b.length = 32 ∧ ∃ s, L.blst.secretKeyDeserialize b = some s ∧ k = .blst s := by
  unfold blstSecretKeyFromBytes at h
  split at h
  · exact Res.noConfusion h
  · rename_i hlen
    refine ⟨not_not.mp hlen, ?_⟩
    split at h
    · exact Res.noConfusion h
    · rename_i s hs
      exact ⟨s, hs, (Res.ok.inj h).symm⟩

/-- What `kilicSecretKeyFromBytes` accepted: 32 bytes, as the scalar the library read. -/
theorem kilicSecretKeyFromBytes_ok (L : Libs) (g : Globals L) (b : Bytes) (k : SecretKey L)
    (h : kilicSecretKeyFromBytes L g b = .ok k) :
    b.length = 32 ∧ k = .kilic (L.kilic.frFromBytes b) := by
  unfold kilicSecretKeyFromBytes at h
  split at h
  · exact Res.noConfusion h
  · rename_i hlen
    refine ⟨not_not.mp hlen, ?_⟩
    dsimp only at h
    split at h
    · exact Res.noConfusion h
    · split at h
      · exact Res.noConfusion h
      · exact (Res.ok.inj h).symm

theorem toyCurveHerumiLib_contract (r : Nat) :
    HerumiContract (toyCurveHerumiLib r) r (toyHerumiMeaning r) (toyCanonical r) := by
  constructor
  · intro b s _ h
    simp only [toyCurveHerumiLib] at h
    split at h
    · rename_i hlt
      exact ⟨(Except.ok.inj h).symm, hlt⟩
    · exact Except.noConfusion h
  · intro s
    rfl
  · intro s
    rfl
  · intro p
    simp only [toyCurveHerumiLib, toyKilicLib, toyHerumiMeaning, toyCanonical,
      ZMod.val_natCast]
  · intro s m
    exact Nat.cast_mul s (beValue m)
  · intro q
    simp only [toyCurveHerumiLib, toyKilicLib, toyHerumiMeaning, toyCanonical,
      ZMod.val_natCast]

theorem toyCurveBlstLib_contract (r : Nat) :
    BlstContract (toyCurveBlstLib r) r (toyBlstMeaning r) (toyCanonical r) := by
  constructor
  · intro b s _ h
    simp only [toyCurveBlstLib] at h
    split at h
    · rename_i hlt
      exact ⟨(Option.some.inj h).symm, hlt⟩
    · exact Option.noConfusion h
  · intro s
    rfl
  · intro s
    rfl
  · intro p
    simp only [toyCurveBlstLib, toyKilicLib, toyBlstMeaning, toyCanonical, ZMod.val_natCast]
  · intro s m
    exact Nat.cast_mul s (beValue m)
  · intro q
    simp only [toyCurveBlstLib, toyKilicLib, toyBlstMeaning, toyCanonical, ZMod.val_natCast]

theorem toyKilicLib_canonical (r : Nat) :
    KilicCanonical (toyKilicLib r) r (toyMeaning r) (toyCanonical r) := by
  constructor
  · intro p
    simp only [toyKilicLib, toyMeaning, toyCanonical, ZMod.val_natCast]
  · intro q
    simp only [toyKilicLib, toyMeaning, toyCanonical, ZMod.val_natCast]
  · intro m M h
    simp only [toyKilicLib] at h
    rw [← Except.ok.inj h]
    rfl

end cross_bls

/-! ## The claims -/

namespace cross_eip2537

open Go

/-- C1: `decodeFieldElement` succeeds exactly when its input is 64 bytes long and its
first 16 bytes are all zero; it then returns the 48 bytes `in[16:64]` unchanged; on every
other input it returns an error value (wrong length: the length error, else the top-bytes
error) and no bytes, and it never panics. -/
theorem decodeFieldElement_spec (inp : Bytes) :
    decodeFieldElement inp
      = if inp.length = 64 ∧ window inp 0 16 = List.replicate 16 0 then
          .ok (window inp 16 64)
        else if inp.length = 64 then .err .invalidFieldElementTopBytes
        else .err .invalidFieldElementLength := by
  rw [decodeFieldElement_eq]
  by_cases hlen : inp.length = 64
  · have hw : window inp 16 64 = inp.drop 16 := by
      unfold window
      rw [← hlen, List.take_length]
    rw [hw]
    simp only [hlen, true_and, if_true, window, List.drop_zero]
  · simp only [hlen, false_and, if_false]

/-- C2: for every 256-byte input whose four 64-byte field elements `x0, x1, y0, y1` have 16
zero top bytes each, `decodeG2Point` returns the 192 bytes `x1 || x0 || y1 || y0`, each the
48 trailing bytes of its element: `in[80:128] || in[16:64] || in[208:256] || in[144:192]`. -/
theorem decodeG2Point_swaps_coefficients (inp : Bytes) (hlen : inp.length = 256)
    (hx0 : window inp 0 16 = List.replicate 16 0)
    (hx1 : window inp 64 80 = List.replicate 16 0)
    (hy0 : window inp 128 144 = List.replicate 16 0)
    (hy1 : window inp 192 208 = List.replicate 16 0) :
    decodeG2Point inp
      = .ok (window inp 80 128 ++ window inp 16 64 ++ window inp 208 256
          ++ window inp 144 192) := by
  have h := decodeG2Point_pad (window inp 16 64) (window inp 80 128) (window inp 144 192)
    (window inp 208 256) (by rw [window_length _ _ _ (by omega)])
    (by rw [window_length _ _ _ (by omega)]) (by rw [window_length _ _ _ (by omega)])
    (by rw [window_length _ _ _ (by omega)])
  have hs := split256 inp hlen
  rw [hx0, hx1, hy0, hy1] at hs
  rw [← h]
  exact congrArg decodeG2Point hs

set_option maxRecDepth 20000 in
/-- Witness of C2: the sample ABI point meets the hypotheses and decodes with both
coordinates' coefficients swapped. -/
theorem decodeG2Point_swaps_coefficients_witness :
    decodeG2Point sampleG2Abi
      = .ok (window sampleG2Abi 80 128 ++ window sampleG2Abi 16 64
          ++ window sampleG2Abi 208 256 ++ window sampleG2Abi 144 192)
    ∧ window sampleG2Abi 80 128 ++ window sampleG2Abi 16 64
          ++ window sampleG2Abi 208 256 ++ window sampleG2Abi 144 192
        = List.replicate 48 2 ++ List.replicate 48 1 ++ List.replicate 48 4
          ++ List.replicate 48 3 :=
  ⟨decodeG2Point_swaps_coefficients sampleG2Abi (by decide) (by decide) (by decide)
    (by decide) (by decide), by decide⟩

/-- C3: for every 192-byte raw G2 point `p`, `encodeG2Point p` returns (it does not panic)
and `decodeG2Point` of its result succeeds and returns exactly `p`. -/
theorem decodeG2Point_encodeG2Point (p : Bytes) (hp : p.length = 192) :
    (encodeG2Point p >>= decodeG2Point) = .ok p := by
  have ha : (window p 0 48).length = 48 := by rw [window_length _ _ _ (by omega)]
  have hb : (window p 48 96).length = 48 := by rw [window_length _ _ _ (by omega)]
  have hc : (window p 96 144).length = 48 := by rw [window_length _ _ _ (by omega)]
  have hd : (window p 144 192).length = 48 := by rw [window_length _ _ _ (by omega)]
  have he := encodeG2Point_append _ _ _ _ ha hb hc hd
  rw [← split192 p hp] at he
  rw [he, bind_ok, decodeG2Point_pad _ _ _ _ hb ha hd hc, ← split192 p hp]

set_option maxRecDepth 20000 in
/-- Witness of C3 at the sample raw G2 point. -/
theorem decodeG2Point_encodeG2Point_witness :
    (encodeG2Point sampleG2Raw >>= decodeG2Point) = .ok sampleG2Raw :=
  decodeG2Point_encodeG2Point sampleG2Raw (by decide)

/-- C4: for every 96-byte raw G1 point `p`, `encodeG1Point p` is 128 bytes whose bytes
`0..15` and `64..79` are zero, and `decodeG1Point` of it succeeds and returns exactly `p`. -/
theorem encodeG1Point_spec (p : Bytes) (hp : p.length = 96) :
    ∃ out, encodeG1Point p = .ok out ∧ out.length = 128
      ∧ window out 0 16 = List.replicate 16 0 ∧ window out 64 80 = List.replicate 16 0
      ∧ decodeG1Point out = .ok p := by
  obtain ⟨he, hd⟩ := decodeG1Point_encodeG1Point p hp
  have hx : (window p 0 48).length = 48 := by rw [window_length _ _ _ (by omega)]
  have hy : (window p 48 96).length = 48 := by rw [window_length _ _ _ (by omega)]
  refine ⟨_, he, ?_, ?_, ?_, hd⟩
  · simp only [List.length_append, length_make, hx, hy]
  · change List.drop 0 (List.take 16 _) = _
    rw [List.append_assoc, List.append_assoc, List.take_left' (length_make 16)]
    rfl
  · change List.drop 64 (List.take 80 _) = _
    have h64 : (make 16 ++ window p 0 48).length = 64 := by
      simp only [List.length_append, length_make, hx]
    have h80 : (make 16 ++ window p 0 48 ++ make 16).length = 80 := by
      simp only [List.length_append, length_make, hx]
    rw [List.take_left' h80, List.drop_left' h64]
    rfl

set_option maxRecDepth 20000 in
/-- Witness of C4 at the sample raw G1 point. -/
theorem encodeG1Point_spec_witness :
    ∃ out, encodeG1Point sampleG1Raw = .ok out ∧ out.length = 128
      ∧ window out 0 16 = List.replicate 16 0 ∧ window out 64 80 = List.replicate 16 0
      ∧ decodeG1Point out = .ok sampleG1Raw :=
  encodeG1Point_spec sampleG1Raw (by decide)

/-- C5: each kilic precompile operation returns the input-length error
`errEIP2537InvalidInputLength` exactly on the inputs whose length is not the required one:
256 bytes for `KilicG1Add`, 160 for `KilicG1Mul`, 512 for `KilicG2Add`, 288 for `KilicG2Mul`,
64 for `KilicMapG1`, 128 for `KilicMapG2`, and a positive multiple of 160, 288 and 384 for
`KilicG1MultiExp`, `KilicG2MultiExp` and `KilicPairing`; whatever the curve library does,
no input of a required length is rejected with that error. -/
theorem kilic_input_length_error (K : Kilic) (input : Bytes) :
    (KilicG1Add K input = .err .errEIP2537InvalidInputLength ↔ input.length ≠ 256)
    ∧ (KilicG1Mul K input = .err .errEIP2537InvalidInputLength ↔ input.length ≠ 160)
    ∧ (KilicG2Add K input = .err .errEIP2537InvalidInputLength ↔ input.length ≠ 512)
    ∧ (KilicG2Mul K input = .err .errEIP2537InvalidInputLength ↔ input.length ≠ 288)
    ∧ (KilicMapG1 K input = .err .errEIP2537InvalidInputLength ↔ input.length ≠ 64)
    ∧ (KilicMapG2 K input = .err .errEIP2537InvalidInputLength ↔ input.length ≠ 128)
    ∧ (KilicG1MultiExp K input = .err .errEIP2537InvalidInputLength
        ↔ ¬ ∃ k, 1 ≤ k ∧ input.length = 160 * k)
    ∧ (KilicG2MultiExp K input = .err .errEIP2537InvalidInputLength
        ↔ ¬ ∃ k, 1 ≤ k ∧ input.length = 288 * k)
    ∧ (KilicPairing K input = .err .errEIP2537InvalidInputLength
        ↔ ¬ ∃ k, 1 ≤ k ∧ input.length = 384 * k) :=
  ⟨KilicG1Add_length K input, KilicG1Mul_length K input, KilicG2Add_length K input,
    KilicG2Mul_length K input, KilicMapG1_length K input, KilicMapG2_length K input,
    KilicG1MultiExp_length K input, KilicG2MultiExp_length K input,
    KilicPairing_length K input⟩

/-- C6: whenever `KilicPairing` returns without error, its output is exactly 32 bytes, the
first 31 bytes are zero, and the last byte is `0x01` if `Check` of the pairing engine over
the accumulated pairs (every pair of the input, added in order) is true and `0x00`
otherwise. -/
theorem KilicPairing_output (K : Kilic) (input out : Bytes)
    (h : KilicPairing K input = .ok out) :
    out.length = 32 ∧ window out 0 31 = List.replicate 31 0
      ∧ ∃ ps : List (K.PointG1 × K.PointG2), 1 ≤ ps.length ∧ input.length = 384 * ps.length
          ∧ (∀ j (hj : j < ps.length), decodePair K input j = .ok ps[j])
          ∧ (pairingRun K input (input.length / 384)).2 = addPairs K K.newEngine ps
          ∧ out = List.replicate 31 0
              ++ [if K.check (addPairs K K.newEngine ps) then 1 else 0] := by
  unfold KilicPairing at h
  by_cases hg : input.length = 0 ∨ input.length % 384 ≠ 0
  · simp only [if_pos hg] at h
    cases h
  · simp only [if_neg hg] at h
    cases hloop : pairingLoop K input (input.length / 384) 0 K.newEngine with
    | mk o e =>
      cases o with
      | ok u =>
        cases u
        obtain ⟨ps, hlen, hps, _, he⟩ := pairingLoop_ok_inv K input _ 0 _ e hloop
        have hrun := pairingRun_ok K input _ e hloop
        have hout : out = List.replicate 31 0 ++ [if K.check e then 1 else 0] := by
          rw [hrun] at h
          by_cases hc : K.check e = true
          · simp only [if_pos hc] at h ⊢
            have : (setIndex (make 32) 31 1 : Res Err Bytes)
                = .ok (List.replicate 31 0 ++ [1]) := by decide
            rw [this] at h
            cases h; rfl
          · simp only [if_neg hc] at h ⊢
            have : make 32 = List.replicate 31 0 ++ [0] := by decide
            rw [this] at h
            cases h; rfl
        have he2 : (pairingRun K input (input.length / 384)).2 = e := by
          rw [hrun]; split <;> rfl
        refine ⟨?_, ?_, ps, ?_, ?_, ?_, ?_, ?_⟩
        · rw [hout]; rfl
        · rw [hout]
          change List.drop 0 (List.take 31 _) = _
          rw [List.take_left' (List.length_replicate 31 0)]
          rfl
        · omega
        · omega
        · intro j hj
          simpa only [Nat.zero_add] using hps j hj
        · rw [he2, he]
        · rw [hout, he]
      | err err =>
        rw [pairingRun_err K input _ e err hloop] at h
        cases h
      | panic =>
        rw [pairingRun_panic K input _ e hloop] at h
        cases h

set_option maxRecDepth 100000 in
/-- Witness of C6: on the one-pair sample input the toy engine's check holds and the output
is 31 zero bytes followed by `0x01`. -/
theorem KilicPairing_output_witness :
    KilicPairing toyKilic samplePairingInput = .ok (List.replicate 31 0 ++ [1])
      ∧ (List.replicate 31 (0 : Byte) ++ [1]).length = 32
      ∧ window (List.replicate 31 (0 : Byte) ++ [1]) 0 31 = List.replicate 31 0 :=
  ⟨by decide,
    (KilicPairing_output toyKilic samplePairingInput (List.replicate 31 0 ++ [1])
      (by decide)).1,
    (KilicPairing_output toyKilic samplePairingInput (List.replicate 31 0 ++ [1])
      (by decide)).2.1⟩

set_option maxRecDepth 100000 in
/-- Counterexample to C7 as stated: in the two-pair sample both pairs decode and the G1
operand of the second pair is not in the correct subgroup; `KilicPairing` fails with the G1
subgroup error, and at that moment the first pair has been added to the pairing engine. -/
theorem KilicPairing_adds_pairs_before_subgroup_error :
    samplePairingBadSecond.length = 384 * 2
      ∧ decodePair toyKilic samplePairingBadSecond 0 = .ok (2, 4)
      ∧ decodePair toyKilic samplePairingBadSecond 1 = .ok (3, 4)
      ∧ toyKilic.g1InCorrectSubgroup 3 = false
      ∧ KilicPairing toyKilic samplePairingBadSecond = .err .errEIP2537G1PointSubgroup
      ∧ (pairingRun toyKilic samplePairingBadSecond 2).2
          = toyKilic.addPair toyKilic.newEngine 2 4
      ∧ (pairingRun toyKilic samplePairingBadSecond 2).2 ≠ toyKilic.newEngine := by
  decide

/-- C7, amended: for every input of `k ≥ 1` pairs that all decode, if some G1 or G2 operand
is not in the correct subgroup then `KilicPairing` fails with the G1 or the G2 subgroup
error, and at the moment the error is returned the pairing engine holds exactly the pairs
that precede the first offending pair: `AddPair` has been called for each of them, in
order, and for no other pair. -/
theorem KilicPairing_subgroup_error (K : Kilic) (input : Bytes)
    (ps : List (K.PointG1 × K.PointG2)) (hk : 1 ≤ ps.length)
    (hlen : input.length = 384 * ps.length)
    (hdec : ∀ j (hj : j < ps.length), decodePair K input j = .ok ps[j])
    (hbad : ps.all (inSubgroups K) = false) :
    (KilicPairing K input = .err .errEIP2537G1PointSubgroup
        ∨ KilicPairing K input = .err .errEIP2537G2PointSubgroup)
      ∧ (pairingRun K input (input.length / 384)).2
          = addPairs K K.newEngine (ps.takeWhile (inSubgroups K)) := by
  have hk' : input.length / 384 = ps.length := by omega
  have hg : ¬ (input.length = 0 ∨ input.length % 384 ≠ 0) := by omega
  have hdec' : ∀ j (hj : j < ps.length), decodePair K input (0 + j) = .ok ps[j] := by
    intro j hj
    simpa only [Nat.zero_add] using hdec j hj
  obtain ⟨hst, herr⟩ := (pairingLoop_decoded K input ps 0 K.newEngine hdec').2 hbad
  unfold KilicPairing
  simp only [if_neg hg, hk']
  cases hloop : pairingLoop K input ps.length 0 K.newEngine with
  | mk o e =>
    rw [hloop] at hst herr
    cases o with
    | ok u => rcases herr with h | h <;> cases h
    | err err =>
      rw [pairingRun_err K input _ e err hloop]
      refine ⟨?_, hst⟩
      rcases herr with h | h
      · simp only [Res.err.injEq] at h
        left; rw [h]
      · simp only [Res.err.injEq] at h
        right; rw [h]
    | panic => rcases herr with h | h <;> cases h

set_option maxRecDepth 100000 in
/-- Witness of the amended C7 at the two-pair sample: the engine holds the first pair. -/
theorem KilicPairing_subgroup_error_witness :
    (KilicPairing toyKilic samplePairingBadSecond = .err .errEIP2537G1PointSubgroup
        ∨ KilicPairing toyKilic samplePairingBadSecond = .err .errEIP2537G2PointSubgroup)
      ∧ (pairingRun toyKilic samplePairingBadSecond (samplePairingBadSecond.length / 384)).2
          = addPairs toyKilic toyKilic.newEngine
              ([(2, 4), (3, 4)].takeWhile (inSubgroups toyKilic)) :=
  KilicPairing_subgroup_error toyKilic samplePairingBadSecond [(2, 4), (3, 4)]
    (by decide) (by decide) (by decide) (by decide)

/-- C8: for every pair of G1 points `p` and `q` that the curve library decodes from 96-byte
raw forms `rp` and `rq`, `KilicG1Add` applied to the 256-byte concatenation of their 128-byte
ABI encodings succeeds and returns the 128-byte ABI encoding of the library's sum `p + q`
(whose raw form `ToBytes` gives as 96 bytes). -/
theorem KilicG1Add_sum (K : Kilic) (rp rq : Bytes) (p q : K.PointG1)
    (hrp : rp.length = 96) (hrq : rq.length = 96)
    (hp : K.g1FromBytes rp = .ok p) (hq : K.g1FromBytes rq = .ok q)
    (hsum : (K.g1ToBytes (K.g1Add p q)).length = 96) :
    ∃ ep eq out, encodeG1Point rp = .ok ep ∧ encodeG1Point rq = .ok eq
      ∧ ep.length = 128 ∧ eq.length = 128 ∧ (ep ++ eq).length = 256
      ∧ encodeG1Point (K.g1ToBytes (K.g1Add p q)) = .ok out ∧ out.length = 128
      ∧ KilicG1Add K (ep ++ eq) = .ok out := by
  obtain ⟨hep, hdp⟩ := decodeG1Point_encodeG1Point rp hrp
  obtain ⟨heq, hdq⟩ := decodeG1Point_encodeG1Point rq hrq
  obtain ⟨hes, _⟩ := decodeG1Point_encodeG1Point _ hsum
  have lw : ∀ (s : Bytes), s.length = 96 →
      (make 16 ++ window s 0 48 ++ make 16 ++ window s 48 96).length = 128 := by
    intro s hs
    simp only [List.length_append, length_make, window_length s _ _ (by omega : 48 ≤ s.length),
      window_length s _ _ (by omega : 96 ≤ s.length)]
  have lp := lw rp hrp
  have lq := lw rq hrq
  refine ⟨_, _, _, hep, heq, lp, lq, ?_, hes, lw _ hsum, ?_⟩
  · rw [List.length_append, lp, lq]
  · generalize make 16 ++ window rp 0 48 ++ make 16 ++ window rp 48 96 = ep at hep hdp lp
    generalize make 16 ++ window rq 0 48 ++ make 16 ++ window rq 48 96 = eq at heq hdq lq
    have hl : (ep ++ eq).length = 256 := by rw [List.length_append, lp, lq]
    have s1 : (sliceTo (ep ++ eq) 128 : Res Err Bytes) = .ok ep :=
      slice_window _ [] ep eq 0 128 rfl rfl (by omega)
    have s2 : (sliceFrom (ep ++ eq) 128 : Res Err Bytes) = .ok eq :=
      slice_window _ ep eq [] 128 _ (by simp only [List.append_nil]) lp
        (by rw [List.length_append]; omega)
    unfold KilicG1Add
    simp only [hl, ne_eq, not_true_eq_false, if_false, bind_ok, s1, s2, hdp, hdq, hp, hq,
      ofEngine, hes]

set_option maxRecDepth 100000 in
/-- Witness of C8 with the toy library: the points `3` and `4` add up to `7`. -/
theorem KilicG1Add_sum_witness :
    ∃ ep eq out, encodeG1Point sampleToyG1Three = .ok ep ∧ encodeG1Point sampleToyG1Four = .ok eq
      ∧ ep.length = 128 ∧ eq.length = 128 ∧ (ep ++ eq).length = 256
      ∧ encodeG1Point (toyKilic.g1ToBytes (toyKilic.g1Add 3 4)) = .ok out ∧ out.length = 128
      ∧ KilicG1Add toyKilic (ep ++ eq) = .ok out :=
  KilicG1Add_sum toyKilic sampleToyG1Three sampleToyG1Four 3 4 (by decide) (by decide)
    (by rfl) (by rfl) (by decide)

set_option maxRecDepth 20000 in
/-- Counterexample to C24 as stated: on 96 zero bytes, and on the 96-byte sample raw G1
point, `encodeG2Point` panics, its slice expression `outRaw[144:]` being out of range. -/
theorem encodeG2Point_panics_on_96_bytes :
    (make 96).length = 96 ∧ encodeG2Point (make 96) = .panic
      ∧ sampleG1Raw.length = 96 ∧ encodeG2Point sampleG1Raw = .panic :=
  ⟨by decide, by decide, by decide, by decide⟩

/-- C24, amended: for every 192-byte `outRaw`, `encodeG2Point` returns a 256-byte encoding
without failing. -/
theorem encodeG2Point_192_bytes (outRaw : Bytes) (h : outRaw.length = 192) :
    ∃ out, encodeG2Point outRaw = .ok out ∧ out.length = 256 := by
  have ha : (window outRaw 0 48).length = 48 := by rw [window_length _ _ _ (by omega)]
  have hb : (window outRaw 48 96).length = 48 := by rw [window_length _ _ _ (by omega)]
  have hc : (window outRaw 96 144).length = 48 := by rw [window_length _ _ _ (by omega)]
  have hd : (window outRaw 144 192).length = 48 := by rw [window_length _ _ _ (by omega)]
  have he := encodeG2Point_append _ _ _ _ ha hb hc hd
  rw [← split192 outRaw h] at he
  refine ⟨_, he, ?_⟩
  simp only [List.length_append, length_make, ha, hb, hc, hd]

set_option maxRecDepth 20000 in
/-- Witness of the amended C24 at the sample raw G2 point. -/
theorem encodeG2Point_192_bytes_witness :
    ∃ out, encodeG2Point sampleG2Raw = .ok out ∧ out.length = 256 :=
  encodeG2Point_192_bytes sampleG2Raw (by decide)

end cross_eip2537

namespace cross_bls

open Go

/-- C9: for every byte string whose length differs from 32 (respectively 48, 96),
`SecretKeyFromBytes` (respectively `PublicKeyFromBytes`, `SignatureFromBytes`) fails with
`errSecretKeySize` (respectively `errPublicKeySize`, `errSignatureSize`), whatever the
bytes, the external libraries and the package state, selected library included. -/
theorem fromBytes_size_error (L : Libs) (g : Globals L) (sk pk sig : Bytes)
    (hsk : sk.length ≠ 32) (hpk : pk.length ≠ 48) (hsig : sig.length ≠ 96) :
    SecretKeyFromBytes L g sk = .err .errSecretKeySize
      ∧ PublicKeyFromBytes L g pk = .err .errPublicKeySize
      ∧ SignatureFromBytes L g sig = .err .errSignatureSize := by
  refine ⟨?_, ?_, ?_⟩
  · unfold SecretKeyFromBytes
    rw [if_pos (by unfold SecretKeySize; exact hsk)]
  · unfold PublicKeyFromBytes
    rw [if_pos (by unfold PublicKeySize; exact hpk)]
  · unfold SignatureFromBytes
    rw [if_pos (by unfold SignatureSize; exact hsig)]

set_option maxRecDepth 20000 in
/-- Witness of C9: 31 bytes as a secret key, 49 zero bytes as a public key and the 96-byte
infinity pattern with one more byte as a signature, with the kilic library selected. -/
theorem fromBytes_size_error_witness :
    SecretKeyFromBytes toyLibs (UseKilic sampleInitialised) (1 :: make 30)
        = .err .errSecretKeySize
      ∧ PublicKeyFromBytes toyLibs (UseKilic sampleInitialised) (make 49)
        = .err .errPublicKeySize
      ∧ SignatureFromBytes toyLibs (UseKilic sampleInitialised) (0xc0 :: make 96)
        = .err .errSignatureSize :=
  fromBytes_size_error toyLibs (UseKilic sampleInitialised) (1 :: make 30) (make 49)
    (0xc0 :: make 96) (by decide) (by decide) (by decide)

/-- C10: in every package state that keeps the two infinity patterns as `_init` set them,
whichever library is selected and whatever the libraries do, `SecretKeyFromBytes` on 32
zero bytes fails with `errZeroSecretKey`, `PublicKeyFromBytes` on 48 zero bytes fails with
`errZeroPublicKey` and on `0xc0` followed by 47 zero bytes with `errInfinitePublicKey`, and
`SignatureFromBytes` on 96 zero bytes fails with `errZeroSignature` and on `0xc0` followed by
95 zero bytes with `errInfiniteSignature`. -/
theorem degenerate_sentinels_rejected (L : Libs) (g0 g g' : Globals L)
    (hinit : _init g0 = .ok g)
    (hpk : g'.infinitePublicKey = g.infinitePublicKey)
    (hsig : g'.infiniteSignature = g.infiniteSignature) :
    SecretKeyFromBytes L g' (make 32) = .err .errZeroSecretKey
      ∧ PublicKeyFromBytes L g' (make 48) = .err .errZeroPublicKey
      ∧ PublicKeyFromBytes L g' (0xc0 :: make 47) = .err .errInfinitePublicKey
      ∧ SignatureFromBytes L g' (make 96) = .err .errZeroSignature
      ∧ SignatureFromBytes L g' (0xc0 :: make 95) = .err .errInfiniteSignature := by
  obtain ⟨h1, h2⟩ := _init_sentinels g0 g hinit
  rw [← hpk] at h1
  rw [← hsig] at h2
  refine ⟨?_, ?_, ?_, ?_, ?_⟩
  · unfold SecretKeyFromBytes
    rw [if_neg (by decide), if_pos (by decide)]
  · unfold PublicKeyFromBytes
    rw [if_neg (by decide), if_pos (by decide)]
  · unfold PublicKeyFromBytes
    rw [if_neg (by decide), if_neg (by decide), h1, if_pos (by decide)]
  · unfold SignatureFromBytes
    rw [if_neg (by decide), if_pos (by decide)]
  · unfold SignatureFromBytes
    rw [if_neg (by decide), if_neg (by decide), h2, if_pos (by decide)]

set_option maxRecDepth 20000 in
/-- Witness of C10: the state `_init` leaves with the toy libraries, then `UseKilic`. -/
theorem degenerate_sentinels_rejected_witness :
    _init (declaredGlobals toyLibs) = .ok sampleInitialised
      ∧ SecretKeyFromBytes toyLibs (UseKilic sampleInitialised) (make 32)
          = .err .errZeroSecretKey
      ∧ PublicKeyFromBytes toyLibs (UseKilic sampleInitialised) (make 48)
          = .err .errZeroPublicKey
      ∧ PublicKeyFromBytes toyLibs (UseKilic sampleInitialised) (0xc0 :: make 47)
          = .err .errInfinitePublicKey
      ∧ SignatureFromBytes toyLibs (UseKilic sampleInitialised) (make 96)
          = .err .errZeroSignature
      ∧ SignatureFromBytes toyLibs (UseKilic sampleInitialised) (0xc0 :: make 95)
          = .err .errInfiniteSignature :=
  ⟨rfl, degenerate_sentinels_rejected toyLibs (declaredGlobals toyLibs) sampleInitialised
    (UseKilic sampleInitialised) rfl rfl rfl⟩

/-- C11, the code on every 32-byte input (kilic library selected and initialised, scalars
meeting `FrContract` for the BLS12-381 group order `r`): for the big-endian value `v` of
the input `b`, `SecretKeyFromBytes b` fails with `errZeroSecretKey` when `v = 0`, returns
the key `v` when `0 < v < r`, fails with `errInvalidSecretKey` when `v = r`, and when
`v > r` returns a key, the scalar `v mod r`, where the claim has `errInvalidSecretKey`:
the comparison with `kilicGroupOrder` runs on the scalar the library has already
reduced. -/
theorem SecretKeyFromBytes_kilic_accepts_above_order (L : Libs) (g : Globals L)
    (μ : Meaning L.kilic groupOrder) (hK : FrContract L.kilic groupOrder μ)
    (hlib : g.library = libKilic)
    (hord : g.kilicGroupOrder = some (L.kilic.frFromBytes L.kilic.g1QBytes))
    (b : Bytes) (hb : b.length = 32) :
    (beValue b = 0 → SecretKeyFromBytes L g b = .err .errZeroSecretKey)
      ∧ (0 < beValue b ∧ beValue b < groupOrder →
          SecretKeyFromBytes L g b = .ok (.kilic (L.kilic.frFromBytes b))
            ∧ μ.scalar (L.kilic.frFromBytes b) = beValue b)
      ∧ (beValue b = groupOrder → SecretKeyFromBytes L g b = .err .errInvalidSecretKey)
      ∧ (groupOrder < beValue b →
          SecretKeyFromBytes L g b = .ok (.kilic (L.kilic.frFromBytes b))
            ∧ μ.scalar (L.kilic.frFromBytes b) = beValue b % groupOrder) := by
  have hgo : 0 < groupOrder := by decide
  have heq := SecretKeyFromBytes_kilic_eq L g groupOrder μ hK hgo hlib hord b hb
  have hval := hK.fromBytes b hb
  refine ⟨?_, ?_, ?_, ?_⟩
  · intro hz
    rw [heq, if_pos hz]
  · rintro ⟨hpos, hlt⟩
    rw [heq, if_neg (by omega), if_neg (by omega), hval, if_pos (by omega)]
    exact ⟨rfl, rfl⟩
  · intro he
    rw [heq, if_neg (by omega), if_pos he]
  · intro hgt
    rw [heq, if_neg (by omega), if_neg (by omega), hval, if_neg (by omega)]
    exact ⟨rfl, rfl⟩

set_option maxRecDepth 20000 in
/-- Witness of C11 with the toy library: the 32 bytes of the group order plus one are
accepted as the key 1, and those of twice the group order as the key 0. -/
theorem SecretKeyFromBytes_kilic_accepts_above_order_witness :
    SecretKeyFromBytes toyLibs (UseKilic sampleInitialised) (toBE (groupOrder + 1) 32)
        = .ok (.kilic (1 : Nat))
      ∧ SecretKeyFromBytes toyLibs (UseKilic sampleInitialised) (toBE (2 * groupOrder) 32)
        = .ok (.kilic (0 : Nat))
      ∧ SecretKeyFromBytes toyLibs (UseKilic sampleInitialised) (toBE groupOrder 32)
        = .err .errInvalidSecretKey :=
  ⟨((SecretKeyFromBytes_kilic_accepts_above_order toyLibs (UseKilic sampleInitialised)
      (toyMeaning groupOrder) (toyKilicLib_frContract groupOrder groupOrder_lt) rfl rfl
      (toBE (groupOrder + 1) 32) (length_toBE _ _)).2.2.2 (by decide)).1,
    ((SecretKeyFromBytes_kilic_accepts_above_order toyLibs (UseKilic sampleInitialised)
      (toyMeaning groupOrder) (toyKilicLib_frContract groupOrder groupOrder_lt) rfl rfl
      (toBE (2 * groupOrder) 32) (length_toBE _ _)).2.2.2 (by decide)).1,
    (SecretKeyFromBytes_kilic_accepts_above_order toyLibs (UseKilic sampleInitialised)
      (toyMeaning groupOrder) (toyKilicLib_frContract groupOrder groupOrder_lt) rfl rfl
      (toBE groupOrder 32) (length_toBE _ _)).2.2.1 (by decide)⟩

/-- C12, the code (kilic library selected and initialised, scalars meeting `FrContract`
for the group order `r`): for every valid secret key `x`, a nonzero scalar below `r`,
`x.ToBytes()` is 32 bytes and `SecretKeyFromBytes` of it succeeds with a key Equal to `x`;
for every byte string `b` that `SecretKeyFromBytes` accepts, `ToBytes` of the returned key
is `b` when the value of `b` is below `r`, and when it is above `r` (such `b` are
accepted) it is the 32 bytes of the value reduced modulo `r`, which are not `b`. -/
theorem secretKey_roundtrip_kilic_below_order (L : Libs) (g : Globals L)
    (μ : Meaning L.kilic groupOrder) (hK : FrContract L.kilic groupOrder μ)
    (hlib : g.library = libKilic)
    (hord : g.kilicGroupOrder = some (L.kilic.frFromBytes L.kilic.g1QBytes))
    (x : L.kilic.Fr) (hx0 : 0 < μ.scalar x) (hxr : μ.scalar x < groupOrder)
    (b : Bytes) (k : SecretKey L) (hacc : SecretKeyFromBytes L g b = .ok k) :
    (KilicSecretKey.ToBytes L x).length = 32
      ∧ (∃ y, SecretKeyFromBytes L g (KilicSecretKey.ToBytes L x) = .ok y
          ∧ SecretKey.Equal (.kilic x) y = .ok true)
      ∧ (beValue b < groupOrder → SecretKey.ToBytes k = .ok b)
      ∧ (groupOrder < beValue b →
          SecretKey.ToBytes k = .ok (toBE (beValue b % groupOrder) 32)
            ∧ toBE (beValue b % groupOrder) 32 ≠ b) := by
  have hgo : 0 < groupOrder := by decide
  have hv : beValue (toBE (μ.scalar x) 32) = μ.scalar x := by
    rw [beValue_toBE, Nat.mod_eq_of_lt (Nat.lt_trans hxr groupOrder_lt)]
  have hxb : μ.scalar (L.kilic.frFromBytes (L.kilic.frToBytes x)) = μ.scalar x := by
    rw [hK.fromBytes _ (by rw [hK.toBytes, length_toBE]), hK.toBytes, hv,
      if_pos (Nat.le_of_lt hxr)]
  have hb : b.length = 32 := by
    by_contra hne
    unfold SecretKeyFromBytes at hacc
    rw [if_pos (by unfold SecretKeySize; exact hne)] at hacc
    cases hacc
  have hk : k = .kilic (L.kilic.frFromBytes b) := by
    rw [SecretKeyFromBytes_kilic_eq L g groupOrder μ hK hgo hlib hord b hb] at hacc
    by_cases hz : beValue b = 0
    · rw [if_pos hz] at hacc; cases hacc
    · rw [if_neg hz] at hacc
      by_cases he : beValue b = groupOrder
      · rw [if_pos he] at hacc; cases hacc
      · rw [if_neg he] at hacc
        exact (Res.ok.inj hacc).symm
  refine ⟨?_, ?_, ?_, ?_⟩
  · unfold KilicSecretKey.ToBytes
    rw [hK.toBytes, length_toBE]
  · refine ⟨.kilic (L.kilic.frFromBytes (L.kilic.frToBytes x)), ?_, ?_⟩
    · unfold KilicSecretKey.ToBytes
      rw [SecretKeyFromBytes_kilic_eq L g groupOrder μ hK hgo hlib hord _
        (by rw [hK.toBytes, length_toBE]), hK.toBytes, hv, if_neg (by omega),
        if_neg (by omega)]
    · have he : L.kilic.frEqual x (L.kilic.frFromBytes (L.kilic.frToBytes x)) = true := by
        rw [hK.equal, hxb]
      simp only [SecretKey.Equal, KilicSecretKey.Equal, SecretKey.asKilic, bind_ok, he]
  · intro hlt
    rw [hk]
    simp only [SecretKey.ToBytes, KilicSecretKey.ToBytes]
    rw [hK.toBytes, hK.fromBytes b hb, if_pos (Nat.le_of_lt hlt), ← hb, toBE_beValue]
  · intro hgt
    refine ⟨?_, ?_⟩
    · rw [hk]
      simp only [SecretKey.ToBytes, KilicSecretKey.ToBytes]
      rw [hK.toBytes, hK.fromBytes b hb, if_neg (by omega)]
    · intro h
      have hm : beValue b % groupOrder < groupOrder := Nat.mod_lt _ hgo
      have h2 := congrArg beValue h
      rw [beValue_toBE, Nat.mod_eq_of_lt (Nat.lt_trans hm groupOrder_lt)] at h2
      omega

set_option maxRecDepth 20000 in
/-- Witness of C12 with the toy library: the key 5, and the 32 bytes of the group order
plus one, which are accepted as the key 1 and come back as the 32 bytes of 1. -/
theorem secretKey_roundtrip_kilic_below_order_witness :
    (KilicSecretKey.ToBytes toyLibs (5 : Nat)).length = 32
      ∧ (∃ y, SecretKeyFromBytes toyLibs (UseKilic sampleInitialised)
            (KilicSecretKey.ToBytes toyLibs (5 : Nat)) = .ok y
          ∧ SecretKey.Equal (.kilic (5 : Nat)) y = .ok true)
      ∧ SecretKeyFromBytes toyLibs (UseKilic sampleInitialised) (toBE (groupOrder + 1) 32)
          = .ok (.kilic (1 : Nat))
      ∧ SecretKey.ToBytes (L := toyLibs) (.kilic (1 : Nat))
          = .ok (toBE (beValue (toBE (groupOrder + 1) 32) % groupOrder) 32)
      ∧ toBE (beValue (toBE (groupOrder + 1) 32) % groupOrder) 32 ≠ toBE (groupOrder + 1) 32
      ∧ beValue (toBE (groupOrder + 1) 32) % groupOrder = 1 :=
  ⟨(secretKey_roundtrip_kilic_below_order toyLibs (UseKilic sampleInitialised)
      (toyMeaning groupOrder) (toyKilicLib_frContract groupOrder groupOrder_lt) rfl rfl
      (5 : Nat) (by decide) (by decide) (toBE (groupOrder + 1) 32) (.kilic (1 : Nat))
      (by rfl)).1,
    (secretKey_roundtrip_kilic_below_order toyLibs (UseKilic sampleInitialised)
      (toyMeaning groupOrder) (toyKilicLib_frContract groupOrder groupOrder_lt) rfl rfl
      (5 : Nat) (by decide) (by decide) (toBE (groupOrder + 1) 32) (.kilic (1 : Nat))
      (by rfl)).2.1,
    by rfl,
    ((secretKey_roundtrip_kilic_below_order toyLibs (UseKilic sampleInitialised)
      (toyMeaning groupOrder) (toyKilicLib_frContract groupOrder groupOrder_lt) rfl rfl
      (5 : Nat) (by decide) (by decide) (toBE (groupOrder + 1) 32) (.kilic (1 : Nat))
      (by rfl)).2.2.2 (by decide)).1,
    ((secretKey_roundtrip_kilic_below_order toyLibs (UseKilic sampleInitialised)
      (toyMeaning groupOrder) (toyKilicLib_frContract groupOrder groupOrder_lt) rfl rfl
      (5 : Nat) (by decide) (by decide) (toBE (groupOrder + 1) 32) (.kilic (1 : Nat))
      (by rfl)).2.2.2 (by decide)).2,
    by decide⟩

/-- C13 (kilic library, compressed forms meeting `CompressContract`): in a package state
that has the infinity patterns of `_init` and the kilic library selected, for every
non-identity public key `x`, `PublicKeyFromBytes (x.ToBytes())` succeeds with a key Equal
to `x`, and for every non-identity signature `s`, `SignatureFromBytes (s.ToBytes())`
succeeds with a signature Equal to `s`; the compressed bytes of neither are the zero or the
infinity pattern. -/
theorem publicKey_signature_roundtrip_kilic (L : Libs) (g : Globals L) (r : Nat)
    (μ : Meaning L.kilic r) (hC : CompressContract L.kilic r μ)
    (hlib : g.library = libKilic)
    (hipk : g.infinitePublicKey = 0xc0 :: make 47)
    (hisig : g.infiniteSignature = 0xc0 :: make 95)
    (x : L.kilic.PointG1) (hx : μ.point1 x ≠ 0)
    (s : L.kilic.PointG2) (hs : μ.point2 s ≠ 0) :
    (∃ y, PublicKeyFromBytes L g (KilicPublicKey.ToBytes L x) = .ok y
        ∧ PublicKey.Equal (.kilic x) y = .ok true)
      ∧ KilicPublicKey.ToBytes L x ≠ zeroPublicKey
      ∧ KilicPublicKey.ToBytes L x ≠ g.infinitePublicKey
      ∧ (∃ t, SignatureFromBytes L g (KilicSignature.ToBytes L s) = .ok t
        ∧ Signature.Equal (.kilic s) t = .ok true)
      ∧ KilicSignature.ToBytes L s ≠ zeroSignature
      ∧ KilicSignature.ToBytes L s ≠ g.infiniteSignature := by
  have h1 : ¬ libKilic = libHerumi := by decide
  have h2 : ¬ libKilic = libBLST := by decide
  obtain ⟨hl1, hz1, hi1⟩ := g1ToCompressed_screen L.kilic r μ hC x hx
  obtain ⟨hl2, hz2, hi2⟩ := g2ToCompressed_screen L.kilic r μ hC s hs
  obtain ⟨y, hy, hey⟩ := hC.g1FromCompressed x
  obtain ⟨t, ht, het⟩ := hC.g2FromCompressed s
  refine ⟨⟨.kilic y, ?_, ?_⟩, hz1, by rw [hipk]; exact hi1, ⟨.kilic t, ?_, ?_⟩, hz2,
    by rw [hisig]; exact hi2⟩
  · unfold PublicKeyFromBytes KilicPublicKey.ToBytes
    rw [if_neg (by unfold PublicKeySize; exact fun h => h hl1),
      bytesEqual_eq_false zeroPublicKey _ (Ne.symm hz1), hipk,
      bytesEqual_eq_false _ _ (Ne.symm hi1), hlib]
    simp only [Bool.false_eq_true, if_false, if_neg h1, if_neg h2, if_true,
      KilicPublicKey.FromBytes]
    rw [if_neg (by unfold PublicKeySize; exact fun h => h hl1), hy]
    rfl
  · simp only [PublicKey.Equal, KilicPublicKey.Equal, PublicKey.asKilic, bind_ok, hey]
  · unfold SignatureFromBytes KilicSignature.ToBytes
    rw [if_neg (by unfold SignatureSize; exact fun h => h hl2),
      bytesEqual_eq_false zeroSignature _ (Ne.symm hz2), hisig,
      bytesEqual_eq_false _ _ (Ne.symm hi2), hlib]
    simp only [Bool.false_eq_true, if_false, if_neg h1, if_neg h2, if_true,
      KilicSignature.FromBytes]
    rw [if_neg (by unfold SignatureSize; exact fun h => h hl2), ht]
    rfl
  · simp only [Signature.Equal, KilicSignature.Equal, Signature.asKilic, bind_ok, het]

set_option maxRecDepth 20000 in
/-- Witness of C13 with the toy library: the G1 point 3 and the G2 point 5. -/
theorem publicKey_signature_roundtrip_kilic_witness :
    (∃ y, PublicKeyFromBytes toyLibs (UseKilic sampleInitialised)
          (KilicPublicKey.ToBytes toyLibs (3 : Nat)) = .ok y
        ∧ PublicKey.Equal (.kilic (3 : Nat)) y = .ok true)
      ∧ KilicPublicKey.ToBytes toyLibs (3 : Nat) ≠ zeroPublicKey
      ∧ KilicPublicKey.ToBytes toyLibs (3 : Nat) ≠ (UseKilic sampleInitialised).infinitePublicKey
      ∧ (∃ t, SignatureFromBytes toyLibs (UseKilic sampleInitialised)
          (KilicSignature.ToBytes toyLibs (5 : Nat)) = .ok t
        ∧ Signature.Equal (.kilic (5 : Nat)) t = .ok true)
      ∧ KilicSignature.ToBytes toyLibs (5 : Nat) ≠ zeroSignature
      ∧ KilicSignature.ToBytes toyLibs (5 : Nat)
          ≠ (UseKilic sampleInitialised).infiniteSignature :=
  publicKey_signature_roundtrip_kilic toyLibs (UseKilic sampleInitialised) groupOrder
    (toyMeaning groupOrder) (toyKilicLib_compressContract groupOrder (by decide) (by decide))
    rfl rfl rfl (3 : Nat)
    (fun h => absurd ((ZMod.natCast_zmod_eq_zero_iff_dvd 3 groupOrder).mp h) (by decide))
    (5 : Nat)
    (fun h => absurd ((ZMod.natCast_zmod_eq_zero_iff_dvd 5 groupOrder).mp h) (by decide))

/-- C14 (kilic library meeting `CurveContract`): for every secret key `sk` and every
message `m`, `sk.Sign(m).Verify(sk.PublicKey(), m)` is true. -/
theorem sign_verify_kilic (L : Libs) (r : Nat) (μ : Meaning L.kilic r)
    (hK : CurveContract L.kilic r μ) (s : L.kilic.Fr) (m : Bytes) :
    (do
      let signature ← SecretKey.Sign (.kilic s) m
      let publicKey ← SecretKey.PublicKey (.kilic s)
      signature.Verify publicKey m) = (.ok true : Res Err Bool) := by
  obtain ⟨sig, hsig, hval⟩ := KilicSecretKey.Sign_eq L r μ hK s m
  obtain ⟨p, hp, hpv⟩ := KilicSecretKey.PublicKey_eq L r μ hK s
  obtain ⟨b, hb, hiff⟩ := KilicSignature.Verify_eq L r μ hK sig p m
  have : b = true := by rw [hiff, hpv, hval]
  simp only [SecretKey.Sign, SecretKey.PublicKey, bind_ok, hsig, hp, Signature.Verify, hb, this]

/-- Witness of C14 with the toy library of order 7: key 3, message `[1, 2]`. -/
theorem sign_verify_kilic_witness :
    (do
      let signature ← SecretKey.Sign (L := toyLibs7) (.kilic (3 : Nat)) [1, 2]
      let publicKey ← SecretKey.PublicKey (L := toyLibs7) (.kilic (3 : Nat))
      signature.Verify publicKey [1, 2]) = (.ok true : Res Err Bool) :=
  sign_verify_kilic toyLibs7 7 (toyMeaning 7) (toyKilicLib_curveContract 7) (3 : Nat) [1, 2]

/-- C15 (kilic library meeting `CurveContract` for a prime order `r`, with a hash that
sends no message to the identity, `HashContract`): for every two distinct valid secret
keys `sk1` and `sk2`, nonzero scalars below `r`, and every message `m1`,
`sk1.Sign(m1).Verify(sk2.PublicKey(), m1)` is false. -/
theorem sign_verify_other_key_kilic (L : Libs) (r : Nat) (μ : Meaning L.kilic r)
    (hK : CurveContract L.kilic r μ) (hH : HashContract L.kilic r μ) (hr : Nat.Prime r)
    (s1 s2 : L.kilic.Fr)
    (h1 : 0 < μ.scalar s1 ∧ μ.scalar s1 < r) (h2 : 0 < μ.scalar s2 ∧ μ.scalar s2 < r)
    (hne : μ.scalar s1 ≠ μ.scalar s2) (m1 : Bytes) :
    (do
      let signature ← SecretKey.Sign (.kilic s1) m1
      let publicKey ← SecretKey.PublicKey (.kilic s2)
      signature.Verify publicKey m1) = (.ok false : Res Err Bool) :=
  verify_other_key_false L r μ hK hr s1 s2 h1.2 h2.2 hne m1 (hH m1)

/-- Witness of C15 with the toy library of order 7 whose hash sends no message to the
identity: keys 1 and 2, on the empty message. -/
theorem sign_verify_other_key_kilic_witness :
    (do
      let signature ← SecretKey.Sign (L := toyLibsH7) (.kilic (1 : Nat)) []
      let publicKey ← SecretKey.PublicKey (L := toyLibsH7) (.kilic (2 : Nat))
      signature.Verify publicKey []) = (.ok false : Res Err Bool) :=
  sign_verify_other_key_kilic toyLibsH7 7 (toyMeaningH 7) (toyKilicLibH_curveContract 7)
    (toyKilicLibH_hashContract 7 (by decide)) (by norm_num) (1 : Nat) (2 : Nat) (by decide)
    (by decide) (by decide) []

/-- C16, the code at the failing input: with a kilic library meeting `CurveContract`
selected, the signature `AggreagateSignatures` returns for the empty list (the identity of
G2) passes `FastAggregateVerify` with an empty list of public keys, for every message;
the herumi method returns false on an empty list of public keys. -/
theorem fastAggregateVerify_empty_kilic (L : Libs) (g : Globals L) (r : Nat)
    (μ : Meaning L.kilic r) (hK : CurveContract L.kilic r μ) (hlib : g.library = libKilic)
    (m : Bytes) (sig : L.herumi.Sign) :
    (do
      let signature ← AggreagateSignatures L g []
      signature.FastAggregateVerify [] m) = (.ok true : Res Err Bool)
      ∧ HerumiSignature.FastAggregateVerify L sig [] m = .ok false := by
  constructor
  · obtain ⟨b, hb, hiff⟩ := KilicSignature.FastAggregateVerify_eq L r μ hK L.kilic.g2Zero [] m
    have : b = true := by
      rw [hiff, hK.g2Zero]
      simp only [List.map_nil, List.sum_nil, zero_mul]
    rw [AggreagateSignatures_kilic L g hlib]
    simp only [kilicAggregateSignature, bind_ok, Signature.FastAggregateVerify]
    rw [← this]
    exact hb
  · rfl

/-- Witness of C16 with the toy library of order 7 and the message `[1]`. -/
theorem fastAggregateVerify_empty_kilic_witness :
    (do
      let signature ← AggreagateSignatures toyLibs7
        (UseKilic (declaredGlobals toyLibs7)) []
      signature.FastAggregateVerify [] [1]) = (.ok true : Res Err Bool)
      ∧ HerumiSignature.FastAggregateVerify toyLibs7 ([] : Bytes) [] [1] = .ok false :=
  fastAggregateVerify_empty_kilic toyLibs7 (UseKilic (declaredGlobals toyLibs7)) 7
    (toyMeaning 7) (toyKilicLib_curveContract 7) rfl [1] ([] : Bytes)

/-- C17: for every signature of any of the three libraries, `AggregateVerify` returns false
whenever `publicKeys` is empty or `len(messages)` differs from `len(publicKeys)`, whatever
the libraries, the keys and the messages are. -/
theorem aggregateVerify_guard (L : Libs) (signature : Signature L)
    (publicKeys : List (PublicKey L)) (messages : List Bytes)
    (hsig : signature ≠ .nil)
    (h : publicKeys.length = 0 ∨ messages.length ≠ publicKeys.length) :
    signature.AggregateVerify publicKeys messages = .ok false := by
  cases signature with
  | herumi p =>
    simp only [Signature.AggregateVerify, HerumiSignature.AggregateVerify]
    rcases h with h | h
    · rw [if_pos h]
    · split
      · rfl
      · rfl
  | blst p =>
    simp only [Signature.AggregateVerify, BLSTSignature.AggregateVerify]
    rcases h with h | h
    · rw [if_pos h]
    · split
      · rfl
      · rfl
  | kilic p =>
    simp only [Signature.AggregateVerify, KilicSignature.AggregateVerify]
    rcases h with h | h
    · rw [if_pos h]
    · split
      · rfl
      · rfl
  | nil => exact absurd rfl hsig

/-- Witness of C17: a kilic signature, one public key and no message. -/
theorem aggregateVerify_guard_witness :
    Signature.AggregateVerify (L := toyLibs7) (.kilic (3 : Nat)) [.kilic (3 : Nat)] []
      = .ok false :=
  aggregateVerify_guard toyLibs7 (.kilic (3 : Nat)) [.kilic (3 : Nat)] []
    (fun h => Signature.noConfusion h) (Or.inr (by decide))

/-- C18 (kilic library meeting `CurveContract`, selected): for every list of secret keys
and every message `m`, the aggregate `AggreagateSignatures([sk_i.Sign(m)])` passes
`FastAggregateVerify` against `[sk_i.PublicKey()]` and `m`. -/
theorem fastAggregateVerify_aggregate_kilic (L : Libs) (g : Globals L) (r : Nat)
    (μ : Meaning L.kilic r) (hK : CurveContract L.kilic r μ) (hlib : g.library = libKilic)
    (sks : List L.kilic.Fr) (hn : 1 ≤ sks.length) (m : Bytes) :
    (do
      let aggregated ← AggreagateSignatures L g (sks.map (fun s => KilicSecretKey.Sign L s m))
      aggregated.FastAggregateVerify (sks.map (fun s => KilicSecretKey.PublicKey L s)) m)
      = (.ok true : Res Err Bool) := by
  have _ := hn
  obtain ⟨agg, hagg, hv⟩ := fastAggregateVerify_signed L r μ hK sks m
  rw [AggreagateSignatures_kilic L g hlib, hagg]
  simp only [bind_ok, Signature.FastAggregateVerify]
  exact hv

/-- Witness of C18 with the toy library of order 7: keys 3, 5 and 6, message `[1, 2]`. -/
theorem fastAggregateVerify_aggregate_kilic_witness :
    (do
      let aggregated ← AggreagateSignatures toyLibs7 (UseKilic (declaredGlobals toyLibs7))
        ([3, 5, 6].map (fun s => KilicSecretKey.Sign toyLibs7 s [1, 2]))
      aggregated.FastAggregateVerify
        ([3, 5, 6].map (fun s => KilicSecretKey.PublicKey toyLibs7 s)) [1, 2])
      = (.ok true : Res Err Bool) :=
  fastAggregateVerify_aggregate_kilic toyLibs7 (UseKilic (declaredGlobals toyLibs7)) 7
    (toyMeaning 7) (toyKilicLib_curveContract 7) rfl [3, 5, 6] (by decide) [1, 2]

/-- C19 (kilic library meeting `CurveContract`, selected): for every non-empty list of
secret keys `sk_i` with a message `m_i` each, the aggregate
`AggreagateSignatures([sk_i.Sign(m_i)])` passes `AggregateVerify` against
`[sk_i.PublicKey()]` and `[m_i]` in the same order. -/
theorem aggregateVerify_aggregate_kilic (L : Libs) (g : Globals L) (r : Nat)
    (μ : Meaning L.kilic r) (hK : CurveContract L.kilic r μ) (hlib : g.library = libKilic)
    (sms : List (L.kilic.Fr × Bytes)) (hn : 1 ≤ sms.length) :
    (do
      let aggregated ← AggreagateSignatures L g
        (sms.map (fun sm => KilicSecretKey.Sign L sm.1 sm.2))
      aggregated.AggregateVerify (sms.map (fun sm => KilicSecretKey.PublicKey L sm.1))
        (sms.map (fun sm => sm.2))) = (.ok true : Res Err Bool) := by
  have hne : sms ≠ [] := by
    intro h
    rw [h] at hn
    exact Nat.not_succ_le_zero 0 hn
  obtain ⟨agg, hagg, hv⟩ := aggregateVerify_signed L r μ hK sms hne
  rw [AggreagateSignatures_kilic L g hlib, hagg]
  simp only [bind_ok, Signature.AggregateVerify]
  exact hv

/-- Witness of C19 with the toy library of order 7: keys 3, 5 and 6 on three messages. -/
theorem aggregateVerify_aggregate_kilic_witness :
    (do
      let aggregated ← AggreagateSignatures toyLibs7 (UseKilic (declaredGlobals toyLibs7))
        ([(3, [1]), (5, [2, 0]), (6, [9])].map
          (fun sm => KilicSecretKey.Sign toyLibs7 sm.1 sm.2))
      aggregated.AggregateVerify
        ([(3, [1]), (5, [2, 0]), (6, [9])].map
          (fun sm => KilicSecretKey.PublicKey toyLibs7 sm.1))
        ([(3, [1]), (5, [2, 0]), (6, [9])].map (fun sm => sm.2)))
      = (.ok true : Res Err Bool) :=
  aggregateVerify_aggregate_kilic toyLibs7 (UseKilic (declaredGlobals toyLibs7)) 7
    (toyMeaning 7) (toyKilicLib_curveContract 7) rfl [(3, [1]), (5, [2, 0]), (6, [9])]
    (by decide)

/-- C20 (kilic library meeting `CurveContract`, selected): `AggreagatePublicKeys` of the
empty list returns the identity of G1 and `AggreagateSignatures` of the empty list the
identity of G2; for every list of kilic keys (signatures) each returns a point that is the
sum of all the points of the list. -/
theorem aggregate_is_sum_kilic (L : Libs) (g : Globals L) (r : Nat)
    (μ : Meaning L.kilic r) (hK : CurveContract L.kilic r μ) (hlib : g.library = libKilic)
    (ps : List L.kilic.PointG1) (qs : List L.kilic.PointG2) :
    AggreagatePublicKeys L g [] = .ok (.kilic L.kilic.g1Zero)
      ∧ μ.point1 L.kilic.g1Zero = 0
      ∧ AggreagateSignatures L g [] = .ok (.kilic L.kilic.g2Zero)
      ∧ μ.point2 L.kilic.g2Zero = 0
      ∧ (∃ a, AggreagatePublicKeys L g (ps.map PublicKey.kilic) = .ok (.kilic a)
          ∧ μ.point1 a = (ps.map μ.point1).sum)
      ∧ (∃ a, AggreagateSignatures L g (qs.map Signature.kilic) = .ok (.kilic a)
          ∧ μ.point2 a = (qs.map μ.point2).sum) := by
  refine ⟨?_, hK.g1Zero, ?_, hK.g2Zero, ?_, ?_⟩
  · rw [AggreagatePublicKeys_kilic L g hlib]; rfl
  · rw [AggreagateSignatures_kilic L g hlib]; rfl
  · rw [AggreagatePublicKeys_kilic L g hlib]
    exact kilicAggregatePublicKey_eq L r μ hK ps
  · rw [AggreagateSignatures_kilic L g hlib]
    exact kilicAggregateSignature_eq L r μ hK qs

/-- Witness of C20 with the toy library of order 7: the points 3, 5, 6 of G1 and 2, 4 of
G2. -/
theorem aggregate_is_sum_kilic_witness :
    AggreagatePublicKeys toyLibs7 (UseKilic (declaredGlobals toyLibs7)) []
        = .ok (.kilic (0 : Nat))
      ∧ AggreagatePublicKeys toyLibs7 (UseKilic (declaredGlobals toyLibs7))
          [.kilic (3 : Nat), .kilic (5 : Nat), .kilic (6 : Nat)] = .ok (.kilic (14 : Nat))
      ∧ (∃ a, AggreagateSignatures toyLibs7 (UseKilic (declaredGlobals toyLibs7))
            (([2, 4] : List Nat).map Signature.kilic) = .ok (.kilic a)
          ∧ (toyMeaning 7).point2 a = ((([2, 4] : List Nat).map (toyMeaning 7).point2).sum)) :=
  ⟨(aggregate_is_sum_kilic toyLibs7 (UseKilic (declaredGlobals toyLibs7)) 7 (toyMeaning 7)
      (toyKilicLib_curveContract 7) rfl [3, 5, 6] [2, 4]).1,
    rfl,
    (aggregate_is_sum_kilic toyLibs7 (UseKilic (declaredGlobals toyLibs7)) 7 (toyMeaning 7)
      (toyKilicLib_curveContract 7) rfl [3, 5, 6] [2, 4]).2.2.2.2.2⟩

/-- C21 (kilic library meeting `CurveContract`, selected): for every list of kilic public
keys (signatures) and every permutation of it, `AggreagatePublicKeys`
(`AggreagateSignatures`) returns Equal results; and the aggregate of the concatenation of
two lists is Equal to the sum, by `g.Add`, of the aggregates of the two lists. -/
theorem aggregate_assoc_comm_kilic (L : Libs) (g : Globals L) (r : Nat)
    (μ : Meaning L.kilic r) (hK : CurveContract L.kilic r μ) (hlib : g.library = libKilic)
    (ps ps' : List L.kilic.PointG1) (qs qs' : List L.kilic.PointG2)
    (hp : List.Perm ps ps') (hq : List.Perm qs qs') :
    (do
      let a ← AggreagatePublicKeys L g (ps.map PublicKey.kilic)
      let b ← AggreagatePublicKeys L g (ps'.map PublicKey.kilic)
      a.Equal b) = (.ok true : Res Err Bool)
    ∧ (do
        let a ← AggreagateSignatures L g (qs.map Signature.kilic)
        let b ← AggreagateSignatures L g (qs'.map Signature.kilic)
        a.Equal b) = (.ok true : Res Err Bool)
    ∧ (∀ xs ys : List L.kilic.PointG1, ∃ a b w,
        AggreagatePublicKeys L g (xs.map PublicKey.kilic) = .ok (.kilic a)
        ∧ AggreagatePublicKeys L g (ys.map PublicKey.kilic) = .ok (.kilic b)
        ∧ AggreagatePublicKeys L g ((xs ++ ys).map PublicKey.kilic) = .ok (.kilic w)
        ∧ PublicKey.Equal (L := L) (.kilic w) (.kilic (L.kilic.g1Add a b)) = .ok true)
    ∧ (∀ xs ys : List L.kilic.PointG2, ∃ a b w,
        AggreagateSignatures L g (xs.map Signature.kilic) = .ok (.kilic a)
        ∧ AggreagateSignatures L g (ys.map Signature.kilic) = .ok (.kilic b)
        ∧ AggreagateSignatures L g ((xs ++ ys).map Signature.kilic) = .ok (.kilic w)
        ∧ Signature.Equal (L := L) (.kilic w) (.kilic (L.kilic.g2Add a b)) = .ok true) := by
  refine ⟨?_, ?_, ?_, ?_⟩
  · obtain ⟨a, ha, hsa⟩ := kilicAggregatePublicKey_eq L r μ hK ps
    obtain ⟨b, hb, hsb⟩ := kilicAggregatePublicKey_eq L r μ hK ps'
    have hab : L.kilic.g1Equal a b = true := by
      rw [hK.g1Equal, hsa, hsb]
      exact (hp.map μ.point1).sum_eq
    simp only [AggreagatePublicKeys_kilic L g hlib, ha, hb, bind_ok, PublicKey.Equal,
      KilicPublicKey.Equal, PublicKey.asKilic, hab]
  · obtain ⟨a, ha, hsa⟩ := kilicAggregateSignature_eq L r μ hK qs
    obtain ⟨b, hb, hsb⟩ := kilicAggregateSignature_eq L r μ hK qs'
    have hab : L.kilic.g2Equal a b = true := by
      rw [hK.g2Equal, hsa, hsb]
      exact (hq.map μ.point2).sum_eq
    simp only [AggreagateSignatures_kilic L g hlib, ha, hb, bind_ok, Signature.Equal,
      KilicSignature.Equal, Signature.asKilic, hab]
  · intro xs ys
    obtain ⟨a, ha, hsa⟩ := kilicAggregatePublicKey_eq L r μ hK xs
    obtain ⟨b, hb, hsb⟩ := kilicAggregatePublicKey_eq L r μ hK ys
    obtain ⟨w, hw, hsw⟩ := kilicAggregatePublicKey_eq L r μ hK (xs ++ ys)
    have hwab : L.kilic.g1Equal w (L.kilic.g1Add a b) = true := by
      rw [hK.g1Equal, hK.g1Add, hsw, hsa, hsb, List.map_append, List.sum_append]
    refine ⟨a, b, w, ?_, ?_, ?_, ?_⟩
    · rw [AggreagatePublicKeys_kilic L g hlib, ha]
    · rw [AggreagatePublicKeys_kilic L g hlib, hb]
    · rw [AggreagatePublicKeys_kilic L g hlib, hw]
    · simp only [PublicKey.Equal, KilicPublicKey.Equal, PublicKey.asKilic, bind_ok, hwab]
  · intro xs ys
    obtain ⟨a, ha, hsa⟩ := kilicAggregateSignature_eq L r μ hK xs
    obtain ⟨b, hb, hsb⟩ := kilicAggregateSignature_eq L r μ hK ys
    obtain ⟨w, hw, hsw⟩ := kilicAggregateSignature_eq L r μ hK (xs ++ ys)
    have hwab : L.kilic.g2Equal w (L.kilic.g2Add a b) = true := by
      rw [hK.g2Equal, hK.g2Add, hsw, hsa, hsb, List.map_append, List.sum_append]
    refine ⟨a, b, w, ?_, ?_, ?_, ?_⟩
    · rw [AggreagateSignatures_kilic L g hlib, ha]
    · rw [AggreagateSignatures_kilic L g hlib, hb]
    · rw [AggreagateSignatures_kilic L g hlib, hw]
    · simp only [Signature.Equal, KilicSignature.Equal, Signature.asKilic, bind_ok, hwab]

/-- Witness of C21 with the toy library of order 7: the keys 3, 5, 6 and the signatures
2, 4 in two orders, and the key lists `[3]` and `[5, 6]` concatenated. -/
theorem aggregate_assoc_comm_kilic_witness :
    (do
      let a ← AggreagatePublicKeys toyLibs7 (UseKilic (declaredGlobals toyLibs7))
        (([3, 5, 6] : List Nat).map PublicKey.kilic)
      let b ← AggreagatePublicKeys toyLibs7 (UseKilic (declaredGlobals toyLibs7))
        (([6, 3, 5] : List Nat).map PublicKey.kilic)
      a.Equal b) = (.ok true : Res Err Bool)
    ∧ (∃ a b w,
        AggreagatePublicKeys toyLibs7 (UseKilic (declaredGlobals toyLibs7))
            (([3] : List Nat).map PublicKey.kilic) = .ok (.kilic a)
        ∧ AggreagatePublicKeys toyLibs7 (UseKilic (declaredGlobals toyLibs7))
            (([5, 6] : List Nat).map PublicKey.kilic) = .ok (.kilic b)
        ∧ AggreagatePublicKeys toyLibs7 (UseKilic (declaredGlobals toyLibs7))
            (([3] ++ [5, 6] : List Nat).map PublicKey.kilic) = .ok (.kilic w)
        ∧ PublicKey.Equal (L := toyLibs7) (.kilic w)
            (.kilic (toyLibs7.kilic.g1Add a b)) = .ok true) :=
  ⟨(aggregate_assoc_comm_kilic toyLibs7 (UseKilic (declaredGlobals toyLibs7)) 7 (toyMeaning 7)
      (toyKilicLib_curveContract 7) rfl ([3, 5, 6] : List Nat) ([6, 3, 5] : List Nat)
      ([2, 4] : List Nat) ([4, 2] : List Nat) (by decide) (by decide)).1,
    (aggregate_assoc_comm_kilic toyLibs7 (UseKilic (declaredGlobals toyLibs7)) 7 (toyMeaning 7)
      (toyKilicLib_curveContract 7) rfl ([3, 5, 6] : List Nat) ([6, 3, 5] : List Nat)
      ([2, 4] : List Nat) ([4, 2] : List Nat) (by decide) (by decide)).2.2.1
      ([3] : List Nat) ([5, 6] : List Nat)⟩

/-- C22 (the three libraries modelled as curve engines with the canonical forms): for
every byte string the three backends accept as a secret key, the three keys serialize
back to those bytes, their public keys serialize to the same 48 bytes, and their
signatures of the same message serialize to the same 96 bytes. -/
theorem cross_backend_bytes (L : Libs) (g : Globals L) (r : Nat)
    (μh : HerumiMeaning L.herumi r) (μb : BlstMeaning L.blst r) (μ : Meaning L.kilic r)
    (c : Canonical r)
    (hH : HerumiContract L.herumi r μh c) (hB : BlstContract L.blst r μb c)
    (hF : FrContract L.kilic r μ) (hK : CurveContract L.kilic r μ)
    (hC : CompressContract L.kilic r μ) (hN : KilicCanonical L.kilic r μ c)
    (secretKeyBytes : Bytes) (herumiSecretKey blstSecretKey kilicSecretKey : SecretKey L)
    (h1 : herumiSecretKeyFromBytes L secretKeyBytes = .ok herumiSecretKey)
    (h2 : blstSecretKeyFromBytes L secretKeyBytes = .ok blstSecretKey)
    (h3 : kilicSecretKeyFromBytes L g secretKeyBytes = .ok kilicSecretKey)
    (message : Bytes) :
    herumiSecretKey.ToBytes = .ok secretKeyBytes
      ∧ blstSecretKey.ToBytes = .ok secretKeyBytes
      ∧ kilicSecretKey.ToBytes = .ok secretKeyBytes
      ∧ (∃ publicKeyBytes : Bytes, publicKeyBytes.length = 48
          ∧ (herumiSecretKey.PublicKey >>= PublicKey.ToBytes) = .ok publicKeyBytes
          ∧ (blstSecretKey.PublicKey >>= PublicKey.ToBytes) = .ok publicKeyBytes
          ∧ (kilicSecretKey.PublicKey >>= PublicKey.ToBytes) = .ok publicKeyBytes)
      ∧ (∃ signatureBytes : Bytes, signatureBytes.length = 96
          ∧ (herumiSecretKey.Sign message >>= Signature.ToBytes) = .ok signatureBytes
          ∧ (blstSecretKey.Sign message >>= Signature.ToBytes) = .ok signatureBytes
          ∧ (kilicSecretKey.Sign message >>= Signature.ToBytes) = .ok signatureBytes) := by
  obtain ⟨hlen, sh, hsh, rfl⟩ := herumiSecretKeyFromBytes_ok L _ _ h1
  obtain ⟨_, sb, hsb, rfl⟩ := blstSecretKeyFromBytes_ok L _ _ h2
  obtain ⟨_, rfl⟩ := kilicSecretKeyFromBytes_ok L g _ _ h3
  obtain ⟨hvh, hlt⟩ := hH.deserialize _ _ hlen hsh
  obtain ⟨hvb, _⟩ := hB.deserialize _ _ hlen hsb
  have hvk : μ.scalar (L.kilic.frFromBytes secretKeyBytes) = beValue secretKeyBytes := by
    rw [hF.fromBytes _ hlen, if_pos (Nat.le_of_lt hlt)]
  have hback : toBE (beValue secretKeyBytes) 32 = secretKeyBytes := by
    rw [← hlen]
    exact toBE_beValue secretKeyBytes
  obtain ⟨M, hM⟩ := hK.g2HashToCurve message
  have hsign : KilicSecretKey.Sign L (L.kilic.frFromBytes secretKeyBytes) message
      = .kilic (L.kilic.g2MulScalar M (L.kilic.frFromBytes secretKeyBytes)) := by
    unfold KilicSecretKey.Sign
    rw [hM]
  refine ⟨?_, ?_, ?_, ⟨c.enc1 (beValue secretKeyBytes : ZMod r), ?_, ?_, ?_, ?_⟩,
    ⟨c.enc2 ((beValue secretKeyBytes : ZMod r) * c.hash message), ?_, ?_, ?_, ?_⟩⟩
  · simp only [SecretKey.ToBytes, HerumiSecretKey.ToBytes, hH.serialize, hvh, hback]
  · simp only [SecretKey.ToBytes, BLSTSecretKey.ToBytes, hB.serialize, hvb, hback]
  · simp only [SecretKey.ToBytes, KilicSecretKey.ToBytes, hF.toBytes, hvk, hback]
  · obtain ⟨b0, rest, hb, hrest, _, _⟩ := hC.g1ToCompressed
      (L.kilic.g1MulScalar L.kilic.g1One (L.kilic.frFromBytes secretKeyBytes))
    rw [hN.g1ToCompressed, hK.g1MulScalar, hK.g1One, mul_one, hvk] at hb
    rw [hb, List.length_cons, hrest]
  · simp only [SecretKey.PublicKey, HerumiSecretKey.PublicKey, bind_ok, PublicKey.ToBytes,
      HerumiPublicKey.ToBytes, hH.publicKeySerialize, hH.getPublicKey, hvh]
  · simp only [SecretKey.PublicKey, BLSTSecretKey.PublicKey, bind_ok, PublicKey.ToBytes,
      BLSTPublicKey.ToBytes, hB.p1Compress, hB.p1From, hvb]
  · simp only [SecretKey.PublicKey, KilicSecretKey.PublicKey, bind_ok, PublicKey.ToBytes,
      KilicPublicKey.ToBytes, hN.g1ToCompressed, hK.g1MulScalar, hK.g1One, mul_one, hvk]
  · obtain ⟨b0, rest, hb, hrest, _, _⟩ := hC.g2ToCompressed
      (L.kilic.g2MulScalar M (L.kilic.frFromBytes secretKeyBytes))
    rw [hN.g2ToCompressed, hK.g2MulScalar, hN.g2HashToCurve _ _ hM, hvk] at hb
    rw [hb, List.length_cons, hrest]
  · simp only [SecretKey.Sign, HerumiSecretKey.Sign, bind_ok, Signature.ToBytes,
      HerumiSignature.ToBytes, hH.signSerialize, hH.sign, hvh]
  · simp only [SecretKey.Sign, BLSTSecretKey.Sign, bind_ok, Signature.ToBytes,
      BLSTSignature.ToBytes, hB.p2Compress, hB.p2Sign, hvb]
  · simp only [SecretKey.Sign, hsign, bind_ok, Signature.ToBytes, KilicSignature.ToBytes,
      hN.g2ToCompressed, hK.g2MulScalar, hN.g2HashToCurve _ _ hM, hvk]

set_option maxRecDepth 20000 in
/-- Witness of C22 with three toy libraries of order 7 that meet the contracts: the
secret key bytes of value 3 and the message `[1, 2]`. -/
theorem cross_backend_bytes_witness :
    SecretKey.ToBytes (L := toyCurveLibs7) (.herumi (3 : Nat)) = .ok (make 31 ++ [3])
      ∧ SecretKey.ToBytes (L := toyCurveLibs7) (.blst (3 : Nat)) = .ok (make 31 ++ [3])
      ∧ SecretKey.ToBytes (L := toyCurveLibs7) (.kilic (3 : Nat)) = .ok (make 31 ++ [3])
      ∧ (∃ publicKeyBytes : Bytes, publicKeyBytes.length = 48
          ∧ (SecretKey.PublicKey (L := toyCurveLibs7) (.herumi (3 : Nat))
              >>= PublicKey.ToBytes) = .ok publicKeyBytes
          ∧ (SecretKey.PublicKey (L := toyCurveLibs7) (.blst (3 : Nat))
              >>= PublicKey.ToBytes) = .ok publicKeyBytes
          ∧ (SecretKey.PublicKey (L := toyCurveLibs7) (.kilic (3 : Nat))
              >>= PublicKey.ToBytes) = .ok publicKeyBytes)
      ∧ (∃ signatureBytes : Bytes, signatureBytes.length = 96
          ∧ (SecretKey.Sign (L := toyCurveLibs7) (.herumi (3 : Nat)) [1, 2]
              >>= Signature.ToBytes) = .ok signatureBytes
          ∧ (SecretKey.Sign (L := toyCurveLibs7) (.blst (3 : Nat)) [1, 2]
              >>= Signature.ToBytes) = .ok signatureBytes
          ∧ (SecretKey.Sign (L := toyCurveLibs7) (.kilic (3 : Nat)) [1, 2]
              >>= Signature.ToBytes) = .ok signatureBytes) :=
  cross_backend_bytes toyCurveLibs7 (UseKilic (declaredGlobals toyCurveLibs7)) 7
    (toyHerumiMeaning 7) (toyBlstMeaning 7) (toyMeaning 7) (toyCanonical 7)
    (toyCurveHerumiLib_contract 7) (toyCurveBlstLib_contract 7)
    (toyKilicLib_frContract 7 (by norm_num)) (toyKilicLib_curveContract 7)
    (toyKilicLib_compressContract 7 (by norm_num) (by norm_num)) (toyKilicLib_canonical 7)
    (make 31 ++ [3]) (.herumi (3 : Nat)) (.blst (3 : Nat)) (.kilic (3 : Nat))
    (by rfl) (by rfl) (by rfl) [1, 2]

/-- C23: in the kilic backend, for every signature `s`, every list of kilic public keys
`pks` and every message `m`, `s.FastAggregateVerify(pks, m)` returns what
`s.Verify(AggreagatePublicKeys(pks), m)` returns, whatever the library computes. -/
theorem fastAggregateVerify_is_verify_of_aggregate (L : Libs) (g : Globals L)
    (hlib : g.library = libKilic) (s : L.kilic.PointG2) (pks : List L.kilic.PointG1)
    (m : Bytes) :
    Signature.FastAggregateVerify (.kilic s) (pks.map PublicKey.kilic) m
      = (do
          let aggregated ← AggreagatePublicKeys L g (pks.map PublicKey.kilic)
          Signature.Verify (.kilic s) aggregated m) := by
  obtain ⟨a, ha⟩ := kilicAggregatePublicKey_ok L pks
  rw [AggreagatePublicKeys_kilic L g hlib, ha]
  simp only [bind_ok, Signature.FastAggregateVerify, Signature.Verify,
    KilicSignature.FastAggregateVerify, KilicSignature.Verify, ha]

/-- Witness of C23 with the toy library of order 7: the signature 4 against the keys 3, 5
and 6 on the message `[1, 2]`; both sides are false. -/
theorem fastAggregateVerify_is_verify_of_aggregate_witness :
    Signature.FastAggregateVerify (L := toyLibs7) (.kilic (4 : Nat))
        (([3, 5, 6] : List Nat).map PublicKey.kilic) [1, 2]
      = (do
          let aggregated ← AggreagatePublicKeys toyLibs7 (UseKilic (declaredGlobals toyLibs7))
            (([3, 5, 6] : List Nat).map PublicKey.kilic)
          Signature.Verify (.kilic (4 : Nat)) aggregated [1, 2])
      ∧ Signature.FastAggregateVerify (L := toyLibs7) (.kilic (4 : Nat))
        (([3, 5, 6] : List Nat).map PublicKey.kilic) [1, 2] = .ok false :=
  ⟨fastAggregateVerify_is_verify_of_aggregate toyLibs7 (UseKilic (declaredGlobals toyLibs7))
    rfl (4 : Nat) [3, 5, 6] [1, 2], by decide⟩

/-- C25, the code at the failing input: with the kilic library selected and the infinity
pattern as `_init` sets it, whenever the library decompresses the 48-byte infinity pattern
to a point, the method `(*KilicPublicKey).FromBytes` returns that point as a public key,
while `PublicKeyFromBytes` fails on the same input with `errInfinitePublicKey`. The two
agree in one direction only (what `PublicKeyFromBytes` accepts the method accepts), and
the methods of the other two backends never return a key their library reports as zero
or as invalid. -/
theorem publicKey_method_accepts_infinity_kilic (L : Libs) (g : Globals L)
    (hlib : g.library = libKilic) (hipk : g.infinitePublicKey = 0xc0 :: make 47)
    (p : L.kilic.PointG1) (hdec : L.kilic.g1FromCompressed (0xc0 :: make 47) = .ok p) :
    KilicPublicKey.FromBytes L (0xc0 :: make 47) = .ok (.kilic p)
      ∧ PublicKeyFromBytes L g (0xc0 :: make 47) = .err .errInfinitePublicKey
      ∧ (∀ b k, PublicKeyFromBytes L g b = .ok k → KilicPublicKey.FromBytes L b = .ok k)
      ∧ (∀ b q k, L.herumi.publicKeyDeserialize b = .ok q
          → L.herumi.publicKeyIsZero q = true → HerumiPublicKey.FromBytes L b ≠ .ok k)
      ∧ (∀ b q k, L.blst.p1Uncompress b = some q
          → L.blst.p1KeyValidate q = false → BLSTPublicKey.FromBytes L b ≠ .ok k) := by
  refine ⟨?_, ?_, ?_, ?_, ?_⟩
  · unfold KilicPublicKey.FromBytes
    rw [if_neg (by decide), hdec]
    rfl
  · unfold PublicKeyFromBytes
    rw [if_neg (by decide), if_neg (by decide), hipk, if_pos (by decide)]
  · intro b k h
    unfold PublicKeyFromBytes at h
    rw [hlib] at h
    split at h
    · exact Res.noConfusion h
    · split at h
      · exact Res.noConfusion h
      · split at h
        · exact Res.noConfusion h
        · rw [if_neg (by decide), if_neg (by decide), if_pos rfl] at h
          exact h
  · intro b q k hq hz h
    unfold HerumiPublicKey.FromBytes at h
    split at h
    · exact Res.noConfusion h
    · rw [hq] at h
      simp only [ofForeign, bind_ok, hz] at h
      split at h
      · exact Res.noConfusion h
      · rw [if_pos trivial] at h
        exact Res.noConfusion h
  · intro b q k hq hv h
    unfold BLSTPublicKey.FromBytes at h
    split at h
    · exact Res.noConfusion h
    · rw [hq] at h
      simp only [hv] at h
      exact Res.noConfusion h

/-- Witness of C25 with the toy libraries, whose kilic library decompresses the infinity
pattern to the point 0, the identity of G1. -/
theorem publicKey_method_accepts_infinity_kilic_witness :
    KilicPublicKey.FromBytes toyLibs (0xc0 :: make 47) = .ok (.kilic (0 : Nat))
      ∧ (toyMeaning groupOrder).point1 (0 : Nat) = 0
      ∧ PublicKeyFromBytes toyLibs (UseKilic sampleInitialised) (0xc0 :: make 47)
          = .err .errInfinitePublicKey :=
  ⟨(publicKey_method_accepts_infinity_kilic toyLibs (UseKilic sampleInitialised) rfl rfl
      (0 : Nat) rfl).1,
    Nat.cast_zero,
    (publicKey_method_accepts_infinity_kilic toyLibs (UseKilic sampleInitialised) rfl rfl
      (0 : Nat) rfl).2.1⟩

/-- C26: in the herumi backend, for the same signature and public keys, two message lists of
the same length whose concatenations are byte-equal give the same `AggregateVerify`
result; past the two guards the library receives only the converted public keys and the
in-order concatenation of the messages. -/
theorem herumi_aggregateVerify_concatenation (L : Libs) (signature : L.herumi.Sign)
    (publicKeys : List (PublicKey L)) (messages messages' : List Bytes)
    (hlen : messages.length = messages'.length)
    (hcat : messages.flatten = messages'.flatten) :
    Signature.AggregateVerify (.herumi signature) publicKeys messages
        = Signature.AggregateVerify (.herumi signature) publicKeys messages'
      ∧ (publicKeys.length ≠ 0 → messages.length = publicKeys.length →
          Signature.AggregateVerify (.herumi signature) publicKeys messages
            = (do
                let herumiPublicKeys ← forEach PublicKey.asHerumi publicKeys
                .ok (L.herumi.signAggregateVerify signature herumiPublicKeys
                  messages.flatten))) := by
  have key : ∀ ms : List Bytes, publicKeys.length ≠ 0 → ms.length = publicKeys.length →
      HerumiSignature.AggregateVerify L signature publicKeys ms
        = (do
            let herumiPublicKeys ← forEach PublicKey.asHerumi publicKeys
            .ok (L.herumi.signAggregateVerify signature herumiPublicKeys ms.flatten)) := by
    intro ms h0 hms
    unfold HerumiSignature.AggregateVerify
    simp only [if_neg h0, ne_eq, hms, not_true_eq_false, if_false,
      herumiAggregateVerifyLoop_eq L publicKeys ms hms]
    cases forEach PublicKey.asHerumi publicKeys with
    | ok ps => rfl
    | err e => rfl
    | panic => rfl
  refine ⟨?_, key messages⟩
  simp only [Signature.AggregateVerify]
  by_cases h0 : publicKeys.length = 0
  · unfold HerumiSignature.AggregateVerify
    simp only [if_pos h0]
  · by_cases hms : messages.length = publicKeys.length
    · rw [key messages h0 hms, key messages' h0 (hlen ▸ hms), hcat]
    · have hms' : messages'.length ≠ publicKeys.length := hlen ▸ hms
      unfold HerumiSignature.AggregateVerify
      simp only [if_neg h0, ne_eq, hms, hms', not_false_eq_true, if_true]

/-- Witness of C26 with the toy libraries: the message lists `["ab", "c"]` and
`["a", "bc"]` under two herumi keys and the aggregate signature the toy library accepts
for the first list; it is accepted for the second list too. -/
theorem herumi_aggregateVerify_concatenation_witness :
    Signature.AggregateVerify (L := toyLibs) (.herumi ([1, 2, 97, 98, 99] : Bytes))
        [.herumi ([1] : Bytes), .herumi ([2] : Bytes)] [[97, 98], [99]]
      = Signature.AggregateVerify (L := toyLibs) (.herumi ([1, 2, 97, 98, 99] : Bytes))
        [.herumi ([1] : Bytes), .herumi ([2] : Bytes)] [[97], [98, 99]]
      ∧ Signature.AggregateVerify (L := toyLibs) (.herumi ([1, 2, 97, 98, 99] : Bytes))
        [.herumi ([1] : Bytes), .herumi ([2] : Bytes)] [[97], [98, 99]] = .ok true :=
  ⟨(herumi_aggregateVerify_concatenation toyLibs ([1, 2, 97, 98, 99] : Bytes)
    [.herumi ([1] : Bytes), .herumi ([2] : Bytes)] [[97, 98], [99]] [[97], [98, 99]]
    rfl rfl).1, by decide⟩

end cross_bls
